import Mathlib

/-!
# Sarcastic receptionist: a verification development

A shallow embedding of the call-session store (`src/services/conversation.service.js`),
the template resolver (`personality-config.js`), the intent classifier
(`src/utils/intent-analyzer.js`), the voice selection (`voice-enhancement-fixed.js`,
`src/services/voice.service.js`), the webhook handlers of `server.js` and the search of
`knowledge-base.js`.

Conventions of the embedding:
* JavaScript strings that are processed character by character are `Text = List Char`;
  identifiers (call identifiers, voice names, statuses, roles) are `String`.
* `Date` values are natural numbers (milliseconds).
* `Math.random()` is an oracle `Rng = Nat → Nat`: the `k`-th call of a request returns
  the number `rand k % 2^53 / 2^53`; every function that draws random numbers takes the
  index of its first draw and returns the index after its last one.
* a pending `setTimeout` callback is an entry of `Server.timers`.
* the scores of the knowledge base are rational numbers.
-/

namespace SarcasticReceptionist

abbrev Text := List Char

/-! ## JavaScript `Map` with string keys -/

/-- A JavaScript `Map` keyed by strings, in insertion order. -/
abbrev JsMap (V : Type) := List (String × V)

namespace JsMap

variable {V : Type}

/-- The method `Map.prototype.get`: `none` stands for `undefined`. -/
def get (m : JsMap V) (k : String) : Option V :=
  match m with
  | [] => none
  | (k', v) :: rest => if k' = k then some v else get rest k

/-- The method `Map.prototype.set`: an existing key keeps its position. -/
def set (m : JsMap V) (k : String) (v : V) : JsMap V :=
  match m with
  | [] => [(k, v)]
  | (k', v') :: rest => if k' = k then (k, v) :: rest else (k', v') :: set rest k v

/-- The method `Map.prototype.delete`. -/
def delete (m : JsMap V) (k : String) : JsMap V :=
  m.filter (fun e => decide (e.1 ≠ k))

/-- The property `Map.prototype.size`. -/
def size (m : JsMap V) : Nat := m.length

end JsMap

/-! ## JavaScript built-ins -/

/-- The built-ins whose tables are not part of the repository:
`String.prototype.toLowerCase` and `String.prototype.toUpperCase`. All that is assumed of
them is how they act on ASCII text. -/
structure Builtins where
  toLowerCase : Text → Text
  toUpperCase : Text → Text
  toLowerCase_ascii : ∀ s : Text, (∀ c ∈ s, c.toNat < 128) → toLowerCase s = s.map Char.toLower
  toUpperCase_ascii : ∀ s : Text, (∀ c ∈ s, c.toNat < 128) → toUpperCase s = s.map Char.toUpper

/-- The built-ins restricted to ASCII letters; they agree with JavaScript on ASCII text. -/
def asciiBuiltins : Builtins :=
  ⟨fun s => s.map Char.toLower, fun s => s.map Char.toUpper, fun _ _ => rfl, fun _ _ => rfl⟩

/-- The oracle behind `Math.random()`: draw `k` is the number `rand k % 2^53 / 2^53`. -/
abbrev Rng := Nat → Nat

/-- The expression `Math.floor(Math.random() * length)` for the draw `r`. -/
def randomIndex (r : Nat) (length : Nat) : Nat := (r % 2 ^ 53) * length / 2 ^ 53

/-- The expression `Math.random() > num / den` for the draw `r`. -/
def randomExceeds (r : Nat) (num den : Nat) : Bool := decide ((r % 2 ^ 53) * den > num * 2 ^ 53)

/-- The character class `\w` (without the `u` and `i` flags). -/
def isWordChar (c : Char) : Bool := c.isAlphanum || c == '_'

/-- The character class `\s`, which is also what `String.prototype.trim` strips. -/
def isWhiteSpace (c : Char) : Bool :=
  c.toNat ∈ [0x09, 0x0a, 0x0b, 0x0c, 0x0d, 0x20, 0xa0, 0x1680, 0x2028, 0x2029, 0x202f, 0x205f,
    0x3000, 0xfeff] || (decide (0x2000 ≤ c.toNat) && decide (c.toNat ≤ 0x200a))

/-- The method `String.prototype.includes`: `needle` occurs in `s` as a substring. -/
def includes (s needle : Text) : Bool :=
  match s with
  | [] => needle.isEmpty
  | c :: rest => needle.isPrefixOf (c :: rest) || includes rest needle

/-- The method `String.prototype.trim`. -/
def trim (s : Text) : Text := (s.dropWhile isWhiteSpace).rdropWhile isWhiteSpace

/-- A piece of a string scanned with a global regular expression: a character outside
every match, or a match with what the replacement callback receives of it. -/
inductive Piece (α : Type) where
  | lit (c : Char)
  | hit (capture : α)
deriving DecidableEq, Repr

/-- The scan of `String.prototype.replace` with a global regular expression whose matches
are never empty. `m` matches the expression at the head of a text and returns the capture
with the length of the match; a match is looked for at each position from left to right,
and after a match the scan resumes behind it (`skip` counts the characters of the current
match still to be passed). -/
def scanFrom {α : Type} (m : Text → Option (α × Nat)) : Nat → Text → List (Piece α)
  | _, [] => []
  | skip + 1, _ :: rest => scanFrom m skip rest
  | 0, c :: rest =>
    match m (c :: rest) with
    | some (a, len) => Piece.hit a :: scanFrom m (len - 1) rest
    | none => Piece.lit c :: scanFrom m 0 rest

/-- All matches of a global regular expression in a text, with the characters between. -/
def scan {α : Type} (m : Text → Option (α × Nat)) (s : Text) : List (Piece α) := scanFrom m 0 s

/-- The names of the properties every object literal inherits from `Object.prototype`:
`obj[name]` is a function (or, for `__proto__`, the prototype object) for each of them. -/
def objectPrototypeNames : List Text :=
  ["constructor", "__defineGetter__", "__defineSetter__", "hasOwnProperty",
   "__lookupGetter__", "__lookupSetter__", "isPrototypeOf", "propertyIsEnumerable",
   "toString", "valueOf", "__proto__", "toLocaleString"].map String.toList

/-- The value of `obj[name]` for an object literal `obj`. -/
inductive Property (V : Type) where
  | own (v : V)
  | inherited
  | undefined
deriving DecidableEq, Repr

/-- The lookup `obj[name]` in an object literal given by its own properties. -/
def property {V : Type} (obj : List (Text × V)) (name : Text) : Property V :=
  match obj.lookup name with
  | some v => Property.own v
  | none => if name ∈ objectPrototypeNames then Property.inherited else Property.undefined

/-! ## `personality-config.js` -/

/-- A mood record `{ name, traits }`. -/
structure Mood where
  name : String
  traits : List String
deriving DecidableEq, Repr

/-- The table `dailyMoods`, indexed by `Date.prototype.getDay()`. -/
def dailyMoods : Fin 7 → Mood
  | 0 => ⟨"Existential Sunday Dread",
      ["Questions the meaning of everything", "Philosophical complaints about capitalism",
       "Mentions how Sundays used to mean something"]⟩
  | 1 => ⟨"Why-Am-I-Here Monday Blues",
      ["Extra dramatic sighs", "Mentions weekend was too short",
       "Complains about morning meetings that don't exist"]⟩
  | 2 => ⟨"Passive Aggressive Tuesday",
      ["Backhanded compliments", "Says 'No problem' in a way that means 'huge problem'",
       "Mentions how 'some people' have real jobs"]⟩
  | 3 => ⟨"Overly Corporate Wednesday",
      ["Uses business jargon sarcastically", "Talks about 'synergy' and 'circling back'",
       "Pretends to check KPIs"]⟩
  | 4 => ⟨"Dramatic Sighing Thursday",
      ["Sighs before, during, and after speaking", "Everything is 'exhausting'",
       "Mentions how close yet far Friday is"]⟩
  | 5 => ⟨"Completely Checked Out Friday",
      ["Already mentally at happy hour", "Minimal effort responses",
       "Mentions weekend plans that sound too fancy"]⟩
  | 6 => ⟨"Too Cool for This Saturday",
      ["Can't believe they're working on a weekend", "Mentions all the brunches they're missing",
       "Extra sarcastic about 'emergency' calls"]⟩

/-- The table `responseTemplates`: intent category to templates. -/
def responseTemplates : List (Text × List Text) :=
  [("greetings".toList,
    ["{soundEffect:deepSigh} Oh fantastic, the phone's ringing. Because that's exactly what I needed during my {activity}.",
     "{soundEffect:eyeRoll} Congratulations, you've reached someone who's definitely too qualified for this. What {crisis} can I pretend to care about today?",
     "{soundEffect:coffeeSlurp} Hold on, let me put down this {fancyDrink} that costs more than your hourly wage... There. What do you want?",
     "You've interrupted my very important {meeting} with... myself. This better be good.",
     "{soundEffect:paperShuffle} Another call? I was just about to update my {resume} for the {number}th time today."
    ].map String.toList),
   ("appointments".toList,
    ["{soundEffect:typing} An appointment? How thrilling. Let me check this calendar I definitely care about...",
     "Oh, you need to schedule something? {soundEffect:deepSigh} I suppose that's technically my job...",
     "Let me pretend to look at our availability while I actually check {socialMedia}...",
     "{soundEffect:typing} I'm checking our VERY exclusive calendar. We're usually booked solid with... things."
    ].map String.toList),
   ("confusion".toList,
    ["I'm sorry, I couldn't hear you over the sound of my will to live depleting.",
     "{soundEffect:deepSigh} Could you repeat that? But slower, and with more respect for my time?",
     "I didn't catch that. Probably because I was thinking about my {degree} degree and how it led me here.",
     "One more time? And please speak up. This headset costs more than it should and works less than I do."
    ].map String.toList),
   ("transferring".toList,
    ["Oh, you want to speak to someone else? {soundEffect:eyeRoll} I'm crushed. Let me transfer you to someone who cares even less.",
     "{soundEffect:typing} Transferring you to... let me see... someone who definitely isn't just me with a different voice.",
     "I'll connect you to our '{department}' department. They're probably at lunch. It's always lunch somewhere.",
     "Let me transfer you. {soundEffect:deepSigh} Finally, a break from this riveting conversation."
    ].map String.toList),
   ("holding".toList,
    ["I'm going to put you on hold while I pretend to {task}. Enjoy the music - it's the only culture you'll get today.",
     "{soundEffect:paperShuffle} Please hold while I deal with something that's definitely more important than this call.",
     "One moment please. I need to go {excuse}. The hold music is my personal selection - you're welcome.",
     "Let me place you on a brief hold while I contemplate my life choices. Back in a jiffy! Or not. We'll see."
    ].map String.toList),
   ("farewells".toList,
    ["{soundEffect:paperShuffle} Finally. I have {number} other imaginary important things to do. Don't call back too soon.",
     "Oh thank goodness. My {assistant} just texted that my {fancyItem} has arrived. Toodles.",
     "{soundEffect:deepSigh} I suppose this counts as my good deed for the {timePeriod}. You're welcome.",
     "Great chat. I'll mark this down as my {achievement} for the day. Bye now."
    ].map String.toList)]

/-- The table `dynamicVariables`: placeholder name to its pool of phrases. -/
def dynamicVariables : List (Text × List Text) :=
  [("activity".toList,
    ["executive breathing exercises", "mindfulness meditation",
     "very important Instagram scrolling", "LinkedIn profile optimization",
     "chakra alignment"].map String.toList),
   ("crisis".toList,
    ["earth-shattering emergency", "life-or-death situation", "incredibly urgent matter",
     "supposedly important issue"].map String.toList),
   ("fancyDrink".toList,
    ["artisanal oat milk latte", "hand-crafted matcha", "single-origin cold brew",
     "himalayan salt caramel macchiato"].map String.toList),
   ("meeting".toList,
    ["strategic planning session", "synergy brainstorm", "vision board creation",
     "executive lunch planning committee"].map String.toList),
   ("resume".toList,
    ["LinkedIn profile", "executive CV", "professional portfolio", "escape plan"].map
      String.toList),
   ("number".toList, ["47", "83", "122", "infinity"].map String.toList),
   ("socialMedia".toList,
    ["my Instagram stories", "TikTok", "my ex's Facebook", "LinkedIn humble brags"].map
      String.toList),
   ("degree".toList,
    ["Yale Communications", "Harvard Business", "Stanford Literature",
     "Oxford Philosophy"].map String.toList),
   ("department".toList,
    ["Customer Happiness", "Client Success", "Solutions Architecture",
     "Synergy Optimization"].map String.toList),
   ("task".toList,
    ["file my nails", "adjust my feng shui", "water my emotional support succulent",
     "practice my resignation speech"].map String.toList),
   ("excuse".toList,
    ["refill my aromatherapy diffuser", "adjust the office vibes",
     "realign my workstation's energy", "grab my hourly green juice"].map String.toList),
   ("assistant".toList,
    ["personal assistant", "life coach", "spiritual advisor", "unpaid intern"].map
      String.toList),
   ("fancyItem".toList,
    ["caviar delivery", "massage chair", "essential oil shipment",
     "self-help book collection"].map String.toList),
   ("timePeriod".toList,
    ["decade", "fiscal quarter", "mercury retrograde", "lifetime"].map String.toList),
   ("achievement".toList,
    ["employee of the nanosecond", "personal best in pretending to care", "gold star moment",
     "peak performance"].map String.toList)]

/-- The result `{ text, soundEffects }` of `processTemplate`. -/
structure ProcessedTemplate where
  text : Text
  soundEffects : List Text
deriving DecidableEq, Repr

/-- The regular expression `{(\w+)}` at the head of a text: the captured name and the
length of the match. -/
def matchVariable : Text → Option (Text × Nat)
  | [] => none
  | c :: rest =>
    let name := rest.takeWhile isWordChar
    if c = '{' ∧ name ≠ [] ∧ (rest.dropWhile isWordChar).head? = some '}' then
      some (name, name.length + 2)
    else none

/-- The regular expression `{soundEffect:(\w+)}` at the head of a text: the captured
effect and the length of the match. -/
def matchSoundEffect (s : Text) : Option (Text × Nat) :=
  if "\x7bsoundEffect:".toList.isPrefixOf s then
    let rest := s.drop 13
    let effect := rest.takeWhile isWordChar
    if effect ≠ [] ∧ (rest.dropWhile isWordChar).head? = some '}' then
      some (effect, effect.length + 14)
    else none
  else none

/-- The first `replace` of `processTemplate`, run over the scanned template: the callback
is called match by match, `k` being the index of the next random draw. A name with a pool
is replaced by `options[Math.floor(Math.random() * options.length)]`; a name inherited
from `Object.prototype` is truthy as well, one number is drawn, and the `undefined` the
callback returns is inserted as the text `undefined`; any other match is kept. -/
def substituteVariables (rand : Rng) : Nat → List (Piece Text) → Text × Nat
  | k, [] => ([], k)
  | k, Piece.lit c :: rest =>
    let r := substituteVariables rand k rest
    (c :: r.1, r.2)
  | k, Piece.hit name :: rest =>
    match property dynamicVariables name with
    | Property.own options =>
      let r := substituteVariables rand (k + 1) rest
      ((options.get? (randomIndex (rand k) options.length)).getD "undefined".toList ++ r.1, r.2)
    | Property.inherited =>
      let r := substituteVariables rand (k + 1) rest
      ("undefined".toList ++ r.1, r.2)
    | Property.undefined =>
      let r := substituteVariables rand k rest
      (('{' :: name ++ ['}']) ++ r.1, r.2)

/-- The second `replace` of `processTemplate`, run over the scanned text: every match is
removed from the text and its effect pushed on `soundEffects`. -/
def extractSoundEffects : List (Piece Text) → Text × List Text
  | [] => ([], [])
  | Piece.lit c :: rest => let r := extractSoundEffects rest; (c :: r.1, r.2)
  | Piece.hit effect :: rest => let r := extractSoundEffects rest; (r.1, effect :: r.2)

/-- The function `processTemplate(template)`; the second component is the index of the
next random draw. -/
def processTemplate (rand : Rng) (k : Nat) (template : Text) : ProcessedTemplate × Nat :=
  let processed := substituteVariables rand k (scan matchVariable template)
  let extracted := extractSoundEffects (scan matchSoundEffect processed.1)
  ({ text := trim extracted.1, soundEffects := extracted.2 }, processed.2)

/-- The function `getResponseByIntent(intent)`. For an intent that names a property
inherited from `Object.prototype` the lookup is truthy, `templates[...]` is `undefined`
and `processTemplate(undefined)` raises a `TypeError` (`none`) after one random draw. -/
def getResponseByIntent (rand : Rng) (k : Nat) (intent : Text) :
    Option ProcessedTemplate × Nat :=
  let pick (templates : List Text) : Option ProcessedTemplate × Nat :=
    match templates.get? (randomIndex (rand k) templates.length) with
    | some template => let r := processTemplate rand (k + 1) template; (some r.1, r.2)
    | none => (none, k + 1)
  match property responseTemplates intent with
  | Property.own templates => pick templates
  | Property.inherited => (none, k + 1)
  | Property.undefined => pick ((responseTemplates.lookup "confusion".toList).getD [])

/-- The function `getTimeBasedModifier()` at the given day of the week and hour; `none`
stands for `null`. -/
def getTimeBasedModifier (day : Fin 7) (hour : Nat) : Option Text :=
  if day = 1 ∧ hour < 10 then
    some "It's Monday morning. I haven't had enough coffee for this level of human interaction.".toList
  else if day = 5 ∧ hour ≥ 16 then
    some "It's 4 PM on a Friday. Do you have any idea what you're doing to me right now?".toList
  else if hour ≥ 11 ∧ hour < 12 then
    some "I haven't had lunch yet, so my patience is even thinner than usual.".toList
  else if hour ≥ 13 ∧ hour < 14 then
    some "Post-lunch fatigue is real. Your call is not helping.".toList
  else if hour ≥ 16 then
    some ("You do realize we close in ".toList ++ (toString ((17 : Int) - hour)).toList ++
      " hour(s), right? This better be quick.".toList)
  else none

/-! ## `src/utils/time-utils.js` -/

/-- The function `getTimeGreeting()` at the given hour. -/
def getTimeGreeting (hour : Nat) : Text :=
  if hour < 12 then "Good morning".toList
  else if hour < 17 then "Good afternoon".toList
  else "Good evening".toList

/-- The function `getCurrentMood()` on the given day of the week. -/
def getCurrentMood (day : Fin 7) : Mood := dailyMoods day

/-- The function `getCurrentTimeModifier()`. -/
def getCurrentTimeModifier (day : Fin 7) (hour : Nat) : Option Text := getTimeBasedModifier day hour

/-! ## `src/config/greetings.js`, `src/config/interruptions.js`, `sound-effects.js` -/

/-- The function `getSarcasticGreetings()` at the given hour. -/
def getSarcasticGreetings (hour : Nat) : List Text :=
  let timeGreeting := getTimeGreeting hour
  [timeGreeting ++ ", thank you for calling... uh... this place. I'm your exceptionally motivated receptionist. How may I direct your call into the void?".toList,
   "Hello, you've reached the front desk of... somewhere important, I'm sure. This is your dedicated receptionist speaking. What crisis can I help you with today?".toList,
   timeGreeting ++ ", thank you for calling. I'm your receptionist, currently questioning all my life choices. How may I assist you?".toList,
   "Welcome to our establishment. I'm the receptionist, and yes, I'm a real person, unfortunately. How can I help you today?".toList,
   "Hello, you've reached the reception desk. I'm here, against my better judgment. What do you need?".toList,
   "Thank you for calling. This is reception, where enthusiasm comes to die. How may I direct your call?".toList,
   timeGreeting ++ ", you've reached... whatever this company is called. I'm your receptionist, tragically. How can I pretend to help you?".toList,
   "Hello, front desk speaking. I'm your Yale-educated receptionist, making excellent use of my degree. What can I do for you?".toList,
   "Thank you for calling our prestigious establishment. I'm the receptionist, living the dream... the nightmare, actually. How may I assist?".toList,
   "Reception desk, this is your overqualified assistant speaking. I was just updating my resume, but I suppose I can help. What do you need?".toList]

/-- The function `getRandomGreeting()`, which draws one random number. -/
def getRandomGreeting (rand : Rng) (k : Nat) (hour : Nat) : Text × Nat :=
  let greetings := getSarcasticGreetings hour
  ((greetings.get? (randomIndex (rand k) greetings.length)).getD [], k + 1)

/-- The array `interruptions`. -/
def interruptions : List Text :=
  ["... Actually, hold that thought. My assistant just brought me my hourly kombucha.",
   "... Oh wait, I just remembered I have a very important... thing. But continue.",
   "Sorry, I was just checking my stock portfolio. What were you saying?",
   "One second, I need to update my Instagram story about how hard I'm working..."].map
    String.toList

/-- The function `getRandomInterruption()`, which draws one random number. -/
def getRandomInterruption (rand : Rng) (k : Nat) : Text × Nat :=
  ((interruptions.get? (randomIndex (rand k) interruptions.length)).getD [], k + 1)

/-- The function `shouldInterrupt(callCount)` with its default probability 0.15: the
number is drawn before the call count is looked at. -/
def shouldInterrupt (rand : Rng) (k : Nat) (callCount : Nat) : Bool × Nat :=
  (randomExceeds (rand k) 85 100 && decide (callCount > 2), k + 1)

/-- The array `soundEffectUrls.holdMusic`. -/
def holdMusic : List String :=
  ["https://example.com/hold-music-1.mp3", "https://example.com/hold-music-2.mp3",
   "https://example.com/hold-music-3.mp3"]

/-- The function `getRandomHoldMusic()`, which draws one random number. -/
def getRandomHoldMusic (rand : Rng) (k : Nat) : String × Nat :=
  ((holdMusic.get? (randomIndex (rand k) holdMusic.length)).getD "", k + 1)

/-! ## `voice-enhancement-fixed.js` -/

/-- A record of `voiceProfiles`. -/
structure VoiceProfile where
  voice : String
  accent : String
  description : String
deriving DecidableEq, Repr

/-- The table `voiceProfiles`. -/
def voiceProfiles : List (String × VoiceProfile) :=
  [("amy", ⟨"Polly.Amy-Neural", "British",
      "Posh British accent, perfect for condescending remarks"⟩),
   ("brian", ⟨"Polly.Brian-Neural", "British", "British male, very proper and dismissive"⟩),
   ("joanna", ⟨"Polly.Joanna-Neural", "American", "Natural conversational American female"⟩),
   ("matthew", ⟨"Polly.Matthew-Neural", "American", "American male, good for announcements"⟩),
   ("ruth", ⟨"Polly.Ruth-Neural", "American", "Professional American female"⟩),
   ("kendra", ⟨"Polly.Kendra-Neural", "American", "Neutral American female"⟩),
   ("olivia", ⟨"Polly.Olivia-Neural", "Australian", "Australian female, naturally sarcastic"⟩)]

/-- The value `{ voice, rate, volume, text }` that `enhanceVoiceResponse` returns. -/
structure EnhancedResponse where
  voice : String
  rate : String
  volume : String
  text : Text
deriving DecidableEq, Repr

/-- A literal matched without regard to letter case (flag `i`) at the head of a text; the
literals used are upper-case ASCII, which only ASCII characters match. -/
def matchIgnoreCase (literal : Text) (s : Text) : Option (Unit × Nat) :=
  if literal.length ≤ s.length ∧ (s.take literal.length).map Char.toUpper = literal then
    some ((), literal.length)
  else none

/-- The regular expression `\*([^*]+)\*` at the head of a text. -/
def matchEmphasis : Text → Option (Text × Nat)
  | [] => none
  | c :: rest =>
    let content := rest.takeWhile (fun x => x != '*')
    if c = '*' ∧ content ≠ [] ∧ (rest.dropWhile (fun x => x != '*')).head? = some '*' then
      some (content, content.length + 2)
    else none

/-- The regular expression `\s+` at the head of a text. -/
def matchSpaces (s : Text) : Option (Unit × Nat) :=
  let run := s.takeWhile isWhiteSpace
  if run ≠ [] then some ((), run.length) else none

/-- The regular expression `\.{4,}` at the head of a text. -/
def matchDots (s : Text) : Option (Unit × Nat) :=
  let run := s.takeWhile (fun c => c == '.')
  if run.length ≥ 4 then some ((), run.length) else none

/-- The regular expression `\.` at the head of a text. -/
def matchDot : Text → Option (Unit × Nat)
  | [] => none
  | c :: _ => if c = '.' then some ((), 1) else none

/-- The text a global `replace` builds from the scanned pieces and the replacement of
each match. -/
def rebuild {α : Type} (f : α → Text) : List (Piece α) → Text
  | [] => []
  | Piece.lit c :: rest => c :: rebuild f rest
  | Piece.hit a :: rest => f a ++ rebuild f rest

/-- The call `s.replace(/literal/gi, replacement)`. -/
def replaceIgnoreCase (literal replacement : String) (s : Text) : Text :=
  rebuild (fun _ => replacement.toList) (scan (matchIgnoreCase literal.toList) s)

/-- The array `soundEffects` of `enhanceVoiceResponse`. -/
def soundEffects : List Text :=
  ["DEEP SIGH", "SIGH", "DRAMATIC SIGH", "EYE ROLL", "PAUSE", "TYPING", "PAPER SHUFFLE",
   "COFFEE SLURP", "DRAMATIC PAUSE"].map String.toList

/-- The nine replacements of sound-effect descriptions by pauses, in source order. -/
def replaceSoundEffects (s : Text) : Text :=
  replaceIgnoreCase "*DRAMATIC PAUSE*" "... ... ..."
    (replaceIgnoreCase "*COFFEE SLURP*" "..."
      (replaceIgnoreCase "*PAPER SHUFFLE*" "..."
        (replaceIgnoreCase "*TYPING*" "... ..."
          (replaceIgnoreCase "*PAUSE*" "..."
            (replaceIgnoreCase "*EYE ROLL*" ""
              (replaceIgnoreCase "*DRAMATIC SIGH*" "... ... ... ..."
                (replaceIgnoreCase "*SIGH*" "..."
                  (replaceIgnoreCase "*DEEP SIGH*" "... ... ..." s))))))))

/-- The callback of the emphasis pass: the content without its asterisks unless it
contains the name of a sound effect, the whole match otherwise. -/
def emphasisReplacement (js : Builtins) (content : Text) : Text :=
  if !(soundEffects.any (fun effect => includes (js.toUpperCase content) effect)) then content
  else '*' :: content ++ ['*']

/-- The text processing of `enhanceVoiceResponse` up to the optional initial pause. -/
def processText (js : Builtins) (text : Text) (addBreathing : Bool) : Text :=
  let processedText := replaceSoundEffects text
  let processedText := rebuild (emphasisReplacement js) (scan matchEmphasis processedText)
  let processedText := trim (rebuild (fun _ => [' ']) (scan matchSpaces processedText))
  let processedText := rebuild (fun _ => "...".toList) (scan matchDots processedText)
  if addBreathing then "... ".toList ++ processedText else processedText

/-- The function `enhanceVoiceResponse(text, { mood, voice, addBreathing })`. The object
`voiceStyles` is built in full on every call, so `voiceProfiles[voice].voice` is evaluated
whatever the mood: when `voice` is no key of `voiceProfiles` a `TypeError` is raised
(`none`). A mood that is no key of `voiceStyles` gets the `sarcastic` style. The
callers pass voices and moods taken from the tables of this file; a voice or mood that
names a property inherited from `Object.prototype` is outside the model. -/
def enhanceVoiceResponse (js : Builtins) (text : Text) (mood : String) (voice : String)
    (addBreathing : Bool) : Option EnhancedResponse :=
  let processedText := processText js text addBreathing
  match voiceProfiles.lookup voice with
  | none => none
  | some profile =>
    let sarcastic : EnhancedResponse := ⟨profile.voice, "115%", "medium", processedText⟩
    some (match mood with
      | "sarcastic" => sarcastic
      | "condescending" => ⟨"Polly.Amy-Neural", "115%", "soft", processedText⟩
      | "dramatic" => ⟨"Polly.Ruth-Neural", "115%", "medium", "... ".toList ++ processedText⟩
      | "bored" => ⟨"Polly.Kendra-Neural", "115%", "soft", processedText⟩
      | "passive_aggressive" =>
        ⟨"Polly.Olivia-Neural", "115%", "medium",
          rebuild (fun _ => "...".toList) (scan matchDot processedText)⟩
      | "overly_cheerful" => ⟨"Polly.Joanna-Neural", "115%", "loud", processedText⟩
      | "exhausted" =>
        ⟨profile.voice, "115%", "soft", "... ... ".toList ++ processedText ++ " ...".toList⟩
      | _ => sarcastic)

/-- A record `{ voice, style }` of `moodVoiceMap`: the key of a voice profile and a style. -/
structure VoiceConfig where
  voice : String
  style : String
deriving DecidableEq, Repr

/-- The function `getVoiceForMood(dayMood)`. -/
def getVoiceForMood (dayMood : String) : VoiceConfig :=
  match dayMood with
  | "Existential Sunday Dread" => ⟨"brian", "exhausted"⟩
  | "Why-Am-I-Here Monday Blues" => ⟨"amy", "dramatic"⟩
  | "Passive Aggressive Tuesday" => ⟨"olivia", "passive_aggressive"⟩
  | "Overly Corporate Wednesday" => ⟨"ruth", "condescending"⟩
  | "Dramatic Sighing Thursday" => ⟨"amy", "exhausted"⟩
  | "Completely Checked Out Friday" => ⟨"kendra", "bored"⟩
  | "Too Cool for This Saturday" => ⟨"amy", "condescending"⟩
  | _ => ⟨"amy", "sarcastic"⟩

/-- The template `ssmlTemplates.goodbye`. -/
def goodbye (text : Text) : Text := text ++ "... ... Finally...".toList

/-! ## `src/services/voice.service.js` -/

namespace VoiceService

/-- The method `selectVoiceForCall(mood)`; `none` stands for the `TypeError` raised when
the voice of the mood is no key of `voiceProfiles`. -/
def selectVoiceForCall (mood : Mood) : Option VoiceConfig :=
  let voiceConfig := getVoiceForMood mood.name
  match voiceProfiles.lookup voiceConfig.voice with
  | none => none
  | some profile => some ⟨profile.voice, voiceConfig.style⟩

/-- The method `getVoiceStyle(intent, currentStyle, callCount)`. -/
def getVoiceStyle (intent currentStyle : String) (callCount : Nat) : String :=
  if intent = "appointments" then "bored"
  else if intent = "transferring" then "passive_aggressive"
  else if callCount > 5 then "exhausted"
  else currentStyle

/-- The call `s.replace(pattern, replacement)` with a string pattern: the first
occurrence only. -/
def replaceFirst (s pattern replacement : Text) : Text :=
  match s with
  | [] => if pattern.isEmpty then replacement else []
  | c :: rest =>
    if pattern.isPrefixOf (c :: rest) then replacement ++ (c :: rest).drop pattern.length
    else c :: replaceFirst rest pattern replacement

/-- The method `normalizeVoiceName(voice)`. -/
def normalizeVoiceName (js : Builtins) (voice : String) : String :=
  String.mk (js.toLowerCase
    (replaceFirst (replaceFirst voice.toList "Polly.".toList []) "-Neural".toList []))

end VoiceService

/-! ## `src/utils/intent-analyzer.js` -/

/-- The function `analyzeIntent(speech)` of the intent analyzer. -/
def analyzeIntent (js : Builtins) (speech : Text) : String :=
  let lower := js.toLowerCase speech
  if includes lower "appointment".toList || includes lower "schedule".toList ||
      includes lower "book".toList then "appointments"
  else if includes lower "transfer".toList || includes lower "speak to".toList ||
      includes lower "manager".toList then "transferring"
  else if includes lower "bye".toList || includes lower "thank".toList ||
      includes lower "goodbye".toList then "farewells"
  else if includes lower "hours".toList || includes lower "open".toList ||
      includes lower "closed".toList then "hours"
  else "general"

/-! ## `src/services/conversation.service.js` -/

/-- One entry of a conversation history: `{ role, content }`. -/
structure Message where
  role : String
  content : Text
deriving DecidableEq, Repr

/-- A conversation record `{ history, callCount, startTime, fromNumber }`; the last two
are `undefined` (`none`) in the default record of `getConversation`. -/
structure Conversation where
  history : List Message
  callCount : Nat
  startTime : Option Nat
  fromNumber : Option String
deriving DecidableEq, Repr

/-- A voice record `{ voice, style }`. -/
structure CallVoice where
  voice : String
  style : String
deriving DecidableEq, Repr

/-- A status record `{ status, timestamp }`. -/
structure CallStatus where
  status : String
  timestamp : Nat
deriving DecidableEq, Repr

/-- The three maps of the `ConversationService` object. -/
structure ConversationService where
  conversations : JsMap Conversation
  callVoices : JsMap CallVoice
  callStatuses : JsMap CallStatus
deriving DecidableEq, Repr

/-- A pending `setTimeout(() => this.deleteCallStatus(callSid), delay)`. -/
structure Timer where
  due : Nat
  callSid : String
deriving DecidableEq, Repr

/-- The process state: the service singleton and the timers still pending. -/
structure Server where
  store : ConversationService
  timers : List Timer
deriving DecidableEq, Repr

namespace ConversationService

/-- The `constructor`: three empty maps. -/
def empty : ConversationService := ⟨[], [], []⟩

/-- The literal `{ history: [], callCount: 0 }`. -/
def defaultConversation : Conversation := ⟨[], 0, none, none⟩

/-- The literal `{ voice: 'Polly.Amy-Neural', style: 'sarcastic' }`. -/
def defaultCallVoice : CallVoice := ⟨"Polly.Amy-Neural", "sarcastic"⟩

def createConversation (s : ConversationService) (callSid : String)
    (fromNumber : Option String) (now : Nat) : ConversationService × Conversation :=
  let conversation : Conversation := ⟨[], 0, some now, fromNumber⟩
  ({ s with conversations := s.conversations.set callSid conversation }, conversation)

def getConversation (s : ConversationService) (callSid : String) : Conversation :=
  (s.conversations.get callSid).getD defaultConversation

def updateConversation (s : ConversationService) (callSid : String)
    (userInput assistantResponse : Text) : ConversationService × Conversation :=
  let conversation := s.getConversation callSid
  let conversation := { conversation with callCount := conversation.callCount + 1 }
  let conversation := { conversation with
    history := conversation.history ++ [⟨"user", userInput⟩, ⟨"assistant", assistantResponse⟩] }
  ({ s with conversations := s.conversations.set callSid conversation }, conversation)

def incrementCallCount (s : ConversationService) (callSid : String) :
    ConversationService × Conversation :=
  let conversation := s.getConversation callSid
  let conversation := { conversation with callCount := conversation.callCount + 1 }
  ({ s with conversations := s.conversations.set callSid conversation }, conversation)

def deleteConversation (s : ConversationService) (callSid : String) : ConversationService :=
  { s with conversations := s.conversations.delete callSid }

def setCallVoice (s : ConversationService) (callSid voice style : String) :
    ConversationService :=
  { s with callVoices := s.callVoices.set callSid ⟨voice, style⟩ }

def getCallVoice (s : ConversationService) (callSid : String) : CallVoice :=
  (s.callVoices.get callSid).getD defaultCallVoice

def deleteCallVoice (s : ConversationService) (callSid : String) : ConversationService :=
  { s with callVoices := s.callVoices.delete callSid }

def setCallStatus (s : ConversationService) (callSid status : String) (now : Nat) :
    ConversationService :=
  { s with callStatuses := s.callStatuses.set callSid ⟨status, now⟩ }

def getCallStatus (s : ConversationService) (callSid : String) (now : Nat) : CallStatus :=
  (s.callStatuses.get callSid).getD ⟨"unknown", now⟩

def deleteCallStatus (s : ConversationService) (callSid : String) : ConversationService :=
  { s with callStatuses := s.callStatuses.delete callSid }

def getActiveConversationCount (s : ConversationService) : Nat :=
  s.conversations.size

end ConversationService

namespace Server

/-- The state at start-up: empty maps, no timer. -/
def init : Server := ⟨ConversationService.empty, []⟩

/-- The delay `setTimeout` waits for a positive whole number of milliseconds: a delay
above 2147483647 is set to 1. -/
def timeoutDelay (delay : Int) : Nat := if delay > 2147483647 then 1 else delay.toNat

/-- The method `cleanupCall(callSid, delayStatusCleanup = 60000)` called at time `now`:
the conversation and the voice are deleted at once, the status either at once or by a
timer due `delayStatusCleanup` milliseconds later. -/
def cleanupCall (w : Server) (callSid : String) (now : Nat) (delayStatusCleanup : Int := 60000) :
    Server :=
  let store := (w.store.deleteConversation callSid).deleteCallVoice callSid
  if delayStatusCleanup > 0 then
    { store := store,
      timers := w.timers ++ [⟨now + timeoutDelay delayStatusCleanup, callSid⟩] }
  else
    { store := store.deleteCallStatus callSid, timers := w.timers }

/-- The event loop at time `t`: every timer that is due runs its callback
`deleteCallStatus(callSid)` and is discarded. -/
def elapse (w : Server) (t : Nat) : Server :=
  { store := (w.timers.filter (fun tm => decide (tm.due ≤ t))).foldl
      (fun s tm => s.deleteCallStatus tm.callSid) w.store,
    timers := w.timers.filter (fun tm => decide (¬ tm.due ≤ t)) }

end Server

/-! ## `src/services/ai.service.js` -/

/-- The call `client.chat.completions.create(...)` followed by the read of
`completion.choices[0].message.content`, as a function of what the request is built from
(mood, time modifier, history, user input): the content, or `none` when the call or the
read raises. -/
abbrev Completion := Mood → Option Text → List Message → Text → Option Text

/-- The `AIService` object: `client` is `null` (`none`) when no API key is configured. -/
structure AIService where
  client : Option Completion

namespace AIService

/-- The method `analyzeIntent(speech)` of the AI service. -/
def analyzeIntent (js : Builtins) (speech : Text) : String :=
  let lowerSpeech := js.toLowerCase speech
  if includes lowerSpeech "bye".toList || includes lowerSpeech "goodbye".toList ||
      includes lowerSpeech "thank".toList || includes lowerSpeech "that's all".toList then
    "farewells"
  else if includes lowerSpeech "appointment".toList || includes lowerSpeech "schedule".toList ||
      includes lowerSpeech "book".toList || includes lowerSpeech "meeting".toList then
    "appointments"
  else if includes lowerSpeech "transfer".toList || includes lowerSpeech "speak to".toList ||
      includes lowerSpeech "talk to".toList || includes lowerSpeech "connect".toList then
    "transferring"
  else if includes lowerSpeech "hold".toList || includes lowerSpeech "wait".toList ||
      includes lowerSpeech "moment".toList then
    "holding"
  else if includes lowerSpeech "hello".toList || includes lowerSpeech "hi ".toList ||
      "hi".toList.isPrefixOf lowerSpeech || includes lowerSpeech "hey".toList then
    "greetings"
  else "general"

/-- The phrase returned from the `catch` block of `generateResponse`. -/
def cannedApology : Text :=
  "*DEEP SIGH* The AI is having a moment. Just like me on Mondays. Can you try again? Or better yet, don't.".toList

/-- The method `generateResponse(userInput, conversationHistory, mood, timeModifier)`;
every exception raised in the `try` block ends in the `catch` block. -/
def generateResponse (ai : AIService) (js : Builtins) (rand : Rng) (k : Nat) (userInput : Text)
    (conversationHistory : List Message) (mood : Mood) (timeModifier : Option Text) :
    Text × Nat :=
  let caught (k : Nat) : Text × Nat := ((processTemplate rand k cannedApology).1.text, k)
  let fromTemplate (k : Nat) (intent : String) : Text × Nat :=
    match getResponseByIntent rand k intent.toList with
    | (some templateResponse, k) => (templateResponse.text, k)
    | (none, k) => caught k
  let intent := analyzeIntent js userInput
  if intent ≠ "general" ∧ randomExceeds (rand k) 3 10 = true then fromTemplate (k + 1) intent
  else
    let k := if intent ≠ "general" then k + 1 else k
    match ai.client with
    | none => fromTemplate k intent
    | some create =>
      match create mood timeModifier conversationHistory userInput with
      | some content => (content, k)
      | none => caught k

end AIService

/-! ## `src/services/twilio.service.js` -/

/-- An element that may stand inside `<Gather>`: `<Say>`, `<Pause>`, `<Play>`. -/
inductive Noun where
  | say (voice rate volume : String) (text : Text)
  | pause (length : Nat)
  | play (loop : Nat) (url : String)
deriving DecidableEq, Repr

/-- An element of a voice response; `gather` has the fixed attributes of `createGather`
(speech input, action `/handle-speech`). -/
inductive Verb where
  | noun (n : Noun)
  | gather (children : List Noun)
  | hangup
deriving Repr

/-- The method `addSay(element, text, voiceConfig)`: the element it appends; an attribute
that `voiceConfig` lacks takes its default. -/
def addSay (text : Text) (voice rate volume : Option String) : Noun :=
  Noun.say (voice.getD "Polly.Amy-Neural") (rate.getD "105%") (volume.getD "medium") text

/-- The voices of the `<Say>` elements among the given elements. -/
def nounVoices : List Noun → List String
  | [] => []
  | Noun.say voice _ _ _ :: rest => voice :: nounVoices rest
  | _ :: rest => nounVoices rest

/-- The voices of all `<Say>` elements of a voice response, in document order. -/
def sayVoices : List Verb → List String
  | [] => []
  | Verb.noun n :: rest => nounVoices [n] ++ sayVoices rest
  | Verb.gather children :: rest => nounVoices children ++ sayVoices rest
  | Verb.hangup :: rest => sayVoices rest

/-! ## `server.js` -/

/-- What a request handler reads from its environment: the clock (`new Date()`: time in
milliseconds, hour of the day, day of the week) and the random numbers it draws. -/
structure Env where
  now : Nat
  hour : Nat
  day : Fin 7
  rand : Rng

/-- The response of the `catch` block of `/incoming-call`. -/
def fallbackTwiml : List Verb :=
  [Verb.noun (addSay
    "Technical difficulties. Apparently even the phone system finds me exhausting. Call back later... or don't.".toList
    (some "Polly.Amy-Neural") none none)]

/-- The handler of `POST /incoming-call`: the state after the request and the response.
Logging changes no state of the service and cannot raise. -/
def postIncomingCall (js : Builtins) (w : Server) (env : Env) (callSid : String)
    (fromNumber : Option String) : Server × List Verb :=
  let store := (w.store.createConversation callSid fromNumber env.now).1
  let greeting := (getRandomGreeting env.rand 0 env.hour).1
  let mood := getCurrentMood env.day
  match VoiceService.selectVoiceForCall mood with
  | none => ({ w with store := store }, fallbackTwiml)
  | some voiceSelection =>
    let store := store.setCallVoice callSid voiceSelection.voice voiceSelection.style
    match enhanceVoiceResponse js greeting voiceSelection.style
        (VoiceService.normalizeVoiceName js voiceSelection.voice) false with
    | none => ({ w with store := store }, fallbackTwiml)
    | some enhancedGreeting =>
      ({ w with store := store },
        [Verb.noun (Noun.pause 1),
         Verb.gather [addSay enhancedGreeting.text (some enhancedGreeting.voice)
           (some enhancedGreeting.rate) (some enhancedGreeting.volume)]])

/-- The handler of `POST /handle-speech`: the state after the request and the response,
`none` when an exception leaves the request unanswered. The local `conversation` is the
stored record itself when the call has one, so it sees the two increments made through
the service; otherwise it is a fresh default record that nothing updates. -/
def postHandleSpeech (js : Builtins) (ai : AIService) (w : Server) (env : Env)
    (callSid : String) (speechResult : Option Text) : Server × Option (List Verb) :=
  let speechResult := speechResult.getD []
  let stored := (w.store.conversations.get callSid).isSome
  let fresh := w.store.getConversation callSid
  let store := (w.store.incrementCallCount callSid).1
  let conversation := if stored then store.getConversation callSid else fresh
  let callVoice := store.getCallVoice callSid
  let mood := getCurrentMood env.day
  let timeModifier := getCurrentTimeModifier env.day env.hour
  let generated := ai.generateResponse js env.rand 0 speechResult conversation.history mood
    timeModifier
  let interrupt := shouldInterrupt env.rand generated.2 conversation.callCount
  let interrupted : Text × Nat :=
    if interrupt.1 then
      let interruption := getRandomInterruption env.rand interrupt.2
      (interruption.1 ++ " ".toList ++ generated.1, interruption.2)
    else (generated.1, interrupt.2)
  let response := interrupted.1
  let store := (store.updateConversation callSid speechResult response).1
  let conversation := if stored then store.getConversation callSid else fresh
  let intent := analyzeIntent js speechResult
  if intent = "farewells" then
    match (getResponseByIntent env.rand interrupted.2 "farewells".toList).1 with
    | none => ({ w with store := store }, none)
    | some farewellTemplate =>
      let farewellText := goodbye farewellTemplate.text
      (Server.cleanupCall { w with store := store } callSid env.now,
        some [Verb.noun (addSay farewellText (some callVoice.voice) (some "105%") none),
          Verb.hangup])
  else
    let k := interrupted.2
    let hold := randomExceeds (env.rand k) 9 10 && decide (conversation.callCount > 1)
    let music := getRandomHoldMusic env.rand (k + 1)
    let holdVerbs : List Verb :=
      if hold then
        [Verb.noun (addSay
           "... You know what? I need to put you on hold. This conversation is exhausting me.".toList
           (some callVoice.voice) (some "105%") (some "soft")),
         Verb.noun (Noun.play 1 music.1),
         Verb.noun (addSay
           "... ... ... I'm back. That was the best 30 seconds of my day. Now, where were we?".toList
           (some callVoice.voice) (some "105%") none)]
      else []
    let k := if hold then music.2 else k + 1
    let voiceStyle := VoiceService.getVoiceStyle intent callVoice.style (conversation.callCount + 1)
    match enhanceVoiceResponse js response voiceStyle
        (VoiceService.normalizeVoiceName js callVoice.voice)
        (decide (conversation.callCount > 3)) with
    | none => ({ w with store := store }, none)
    | some enhancedResponse =>
      let followUp : List Noun :=
        if randomExceeds (env.rand k) 8 10 then
          [Noun.pause 1,
           addSay "... Anything else I can pretend to help you with?".toList
             (some callVoice.voice) (some "105%") none]
        else []
      ({ w with store := store },
        some (holdVerbs ++ [Verb.gather
          (addSay enhancedResponse.text (some callVoice.voice) (some enhancedResponse.rate)
            (some enhancedResponse.volume) :: followUp)]))

/-- The array `endStatuses` of the `/call-status` handler. -/
def endStatuses : List String := ["completed", "failed", "busy", "no-answer"]

/-- The handler of `POST /call-status` at time `now`. -/
def postCallStatus (w : Server) (now : Nat) (callSid callStatus : String) : Server :=
  let w := { w with store := w.store.setCallStatus callSid callStatus now }
  if callStatus ∈ endStatuses then Server.cleanupCall w callSid now else w

/-- The voice records `/incoming-call` assigns: one for each day of the week. -/
def assignableVoices : List CallVoice :=
  (List.finRange 7).filterMap (fun day =>
    (VoiceService.selectVoiceForCall (getCurrentMood day)).map (fun v => ⟨v.voice, v.style⟩))

/-! ## Well-formed templates -/

/-- A part of a template: text without braces, a placeholder `{name}`, or a sound-effect
marker `{soundEffect:effect}`. -/
inductive Segment where
  | text (t : Text)
  | placeholder (name : Text)
  | marker (effect : Text)
deriving DecidableEq, Repr

namespace Segment

/-- The characters of a segment. -/
def render : Segment → Text
  | text t => t
  | placeholder name => '{' :: name ++ ['}']
  | marker effect => "\x7bsoundEffect:".toList ++ effect ++ ['}']

/-- A text segment holds no brace; the name of a placeholder and the effect of a marker
are non-empty runs of word characters. -/
def wellFormed : Segment → Bool
  | text t => t.all (fun c => c != '{' && c != '}')
  | placeholder name => !name.isEmpty && name.all isWordChar
  | marker effect => !effect.isEmpty && effect.all isWordChar

end Segment

/-- The template made of the given segments. -/
def renderTemplate : List Segment → Text
  | [] => []
  | s :: rest => s.render ++ renderTemplate rest

/-- The effects of the markers among the segments, in order. -/
def markerEffects : List Segment → List Text
  | [] => []
  | Segment.marker effect :: rest => effect :: markerEffects rest
  | _ :: rest => markerEffects rest

/-- The names of the placeholders among the segments, in order. -/
def placeholderNames : List Segment → List Text
  | [] => []
  | Segment.placeholder name :: rest => name :: placeholderNames rest
  | _ :: rest => placeholderNames rest

/-- The segments after the placeholder pass of `processTemplate`: a placeholder with a
pool has become the chosen phrase, one with an inherited name the text `undefined`. -/
def resolveSegments (rand : Rng) : Nat → List Segment → List Segment × Nat
  | k, [] => ([], k)
  | k, Segment.placeholder name :: rest =>
    match property dynamicVariables name with
    | Property.own options =>
      let r := resolveSegments rand (k + 1) rest
      (Segment.text ((options.get? (randomIndex (rand k) options.length)).getD
        "undefined".toList) :: r.1, r.2)
    | Property.inherited =>
      let r := resolveSegments rand (k + 1) rest
      (Segment.text "undefined".toList :: r.1, r.2)
    | Property.undefined =>
      let r := resolveSegments rand k rest
      (Segment.placeholder name :: r.1, r.2)
  | k, s :: rest =>
    let r := resolveSegments rand k rest
    (s :: r.1, r.2)

/-- The characters of the segments that are not markers. -/
def stripMarkers : List Segment → Text
  | [] => []
  | Segment.marker _ :: rest => stripMarkers rest
  | s :: rest => s.render ++ stripMarkers rest

/-- Every opening brace of the text starts a placeholder `{name}` whose name has no pool. -/
def bracesClosed : Text → Bool
  | [] => true
  | c :: rest =>
    (c != '{' || (matchVariable (c :: rest)).any
      (fun m => (dynamicVariables.lookup m.1).isNone)) && bracesClosed rest

/-- A sound-effect marker or a placeholder at the head of a text, the marker first. -/
def matchSegment (s : Text) : Option (Segment × Nat) :=
  match matchSoundEffect s with
  | some (effect, n) => some (Segment.marker effect, n)
  | none =>
    match matchVariable s with
    | some (name, n) => some (Segment.placeholder name, n)
    | none => none

/-- A template cut into segments: its markers, its placeholders, and one text segment
for each character outside them. -/
def parseTemplate (template : Text) : List Segment :=
  (scan matchSegment template).map (fun p =>
    match p with
    | Piece.lit c => Segment.text [c]
    | Piece.hit s => s)

/-- All templates of `responseTemplates`. -/
def allTemplates : List Text :=
  (responseTemplates.map (fun e => e.2)).foldr (fun l acc => l ++ acc) []

/-- The text and the next draw index after the first `replace` of `processTemplate`. -/
def substituted (rand : Rng) (k : Nat) (s : Text) : Text × Nat :=
  substituteVariables rand k (scan matchVariable s)

/-- No position of the text starts a placeholder `{name}` whose name has a pool. -/
def tokenFree : Text → Bool
  | [] => true
  | c :: rest =>
    (matchVariable (c :: rest)).all (fun m => (dynamicVariables.lookup m.1).isNone) &&
      tokenFree rest

/-- The text `X`, put behind an opening brace and the word characters `n`, completes a
placeholder whose name has a pool. -/
def closesToken (n X : Text) : Bool :=
  !(n ++ X.takeWhile isWordChar).isEmpty && (X.dropWhile isWordChar).head? == some '}' &&
    (dynamicVariables.lookup (n ++ X.takeWhile isWordChar)).isSome

/-- A phrase that cannot become part of a placeholder name with a pool: it holds a
character that is no word character, the first of which is no closing brace, or it
occurs in no key of `dynamicVariables`; and it holds no opening brace. -/
def phraseSafe (v : Text) : Bool :=
  v.all (fun c => c != '{') &&
    (if v.all isWordChar then
      dynamicVariables.all (fun e => !includes e.1 v)
    else (v.dropWhile isWordChar).head? != some '}')

/-! ## Traces of the session store -/

/-- One step in the life of the session store: a call of a `ConversationService` method,
or the passing of time up to `t`, which lets the timers due by then run. -/
inductive ServiceOp where
  | createConversation (callSid : String) (fromNumber : Option String) (now : Nat)
  | updateConversation (callSid : String) (userInput assistantResponse : Text)
  | incrementCallCount (callSid : String)
  | deleteConversation (callSid : String)
  | setCallVoice (callSid voice style : String)
  | deleteCallVoice (callSid : String)
  | setCallStatus (callSid status : String) (now : Nat)
  | deleteCallStatus (callSid : String)
  | cleanupCall (callSid : String) (now : Nat) (delayStatusCleanup : Int)
  | elapse (t : Nat)
deriving Repr

namespace ServiceOp

/-- The state after the step. -/
def apply (w : Server) : ServiceOp → Server
  | createConversation callSid fromNumber now =>
    { w with store := (w.store.createConversation callSid fromNumber now).1 }
  | updateConversation callSid userInput assistantResponse =>
    { w with store := (w.store.updateConversation callSid userInput assistantResponse).1 }
  | incrementCallCount callSid => { w with store := (w.store.incrementCallCount callSid).1 }
  | deleteConversation callSid => { w with store := w.store.deleteConversation callSid }
  | setCallVoice callSid voice style => { w with store := w.store.setCallVoice callSid voice style }
  | deleteCallVoice callSid => { w with store := w.store.deleteCallVoice callSid }
  | setCallStatus callSid status now => { w with store := w.store.setCallStatus callSid status now }
  | deleteCallStatus callSid => { w with store := w.store.deleteCallStatus callSid }
  | cleanupCall callSid now delayStatusCleanup => w.cleanupCall callSid now delayStatusCleanup
  | elapse t => w.elapse t

/-- Whether the step creates or updates the conversation of `callSid`, or gives it a
voice or a status. -/
def stores (callSid : String) : ServiceOp → Bool
  | createConversation c _ _ => c == callSid
  | updateConversation c _ _ => c == callSid
  | incrementCallCount c => c == callSid
  | setCallVoice c _ _ => c == callSid
  | setCallStatus c _ _ => c == callSid
  | _ => false

/-- Whether the step lets time pass up to `due` or beyond. -/
def reaches (due : Nat) : ServiceOp → Bool
  | elapse t => decide (due ≤ t)
  | _ => false

/-- The state after a sequence of steps. -/
def run (w : Server) (ops : List ServiceOp) : Server := ops.foldl apply w

end ServiceOp

/-- A call identifier that has no entry in any of the three maps. -/
def Unseen (w : Server) (callSid : String) : Prop :=
  w.store.conversations.get callSid = none ∧ w.store.callVoices.get callSid = none ∧
    w.store.callStatuses.get callSid = none

/-- What the replacement callback receives of each match of a scan, in order. -/
def captures {α : Type} : List (Piece α) → List α
  | [] => []
  | Piece.hit a :: rest => a :: captures rest
  | Piece.lit _ :: rest => captures rest

/-- The placeholder names a template references: the captures of `{(\w+)}` in it. -/
def templateVariables (template : Text) : List Text := captures (scan matchVariable template)

/-- The templates `getResponseByIntent` chooses from: `responseTemplates[intent]`, or the
confusion templates when the intent has no template set. -/
def templatesFor (intent : Text) : List Text :=
  match responseTemplates.lookup intent with
  | some templates => templates
  | none => (responseTemplates.lookup "confusion".toList).getD []

/-! ## Frames, the inline voice style, runs of dots -/

namespace ServiceOp

/-- The call identifier a `ConversationService` method is applied to; the passing of
time has none. -/
def target : ServiceOp → Option String
  | createConversation c _ _ => some c
  | updateConversation c _ _ => some c
  | incrementCallCount c => some c
  | deleteConversation c => some c
  | setCallVoice c _ _ => some c
  | deleteCallVoice c => some c
  | setCallStatus c _ _ => some c
  | deleteCallStatus c => some c
  | cleanupCall c _ _ => some c
  | elapse _ => none

end ServiceOp

/-- The voice style as `/handle-speech` of `ultimate-sarcastic-server-fixed.js` computes
it inline: `let voiceStyle = callVoice.style` followed by three `if` statements, each of
which overwrites it. -/
def inlineVoiceStyle (intent currentStyle : String) (callCount : Nat) : String :=
  let voiceStyle := currentStyle
  let voiceStyle := if intent = "appointments" then "bored" else voiceStyle
  let voiceStyle := if intent = "transferring" then "passive_aggressive" else voiceStyle
  let voiceStyle := if callCount > 5 then "exhausted" else voiceStyle
  voiceStyle

/-- The number of `.` characters a text starts with. -/
def leadingDots (t : Text) : Nat := (t.takeWhile (fun c => c == '.')).length

/-- No position of the text starts a run of four or more `.` characters. -/
def dotsLimited : Text → Bool
  | [] => true
  | c :: rest => decide (leadingDots (c :: rest) ≤ 3) && dotsLimited rest

/-! ## `knowledge-base.js` -/

namespace KnowledgeBase

/-- The array `s.split(/\s+/)` read off the scan of the regular expression: the texts
between the matches, one more than there are matches. -/
def splitPieces {α : Type} : List (Piece α) → List Text
  | [] => [[]]
  | Piece.lit c :: rest =>
    match splitPieces rest with
    | [] => [[c]]
    | word :: words => (c :: word) :: words
  | Piece.hit _ :: rest => [] :: splitPieces rest

/-- The regular expression `[^\w\s]` at the head of a text. -/
def matchPunctuation : Text → Option (Unit × Nat)
  | [] => none
  | c :: _ => if !(isWordChar c) && !(isWhiteSpace c) then some ((), 1) else none

/-- The method `tokenize(text)`. -/
def tokenize (js : Builtins) (text : Text) : List Text :=
  (splitPieces (scan matchSpaces
    (rebuild (fun _ => [' ']) (scan matchPunctuation (js.toLowerCase text))))).filter
    (fun word => decide (word.length > 2))

/-- The method `calculateRelevance(query, text, keywords = [])`. Scores are rational
numbers: each is a decimal constant or is computed from the lengths of two lists. -/
def calculateRelevance (js : Builtins) (query text : Text) (keywords : List Text := []) : ℚ :=
  let queryLower := js.toLowerCase query
  let textLower := js.toLowerCase text
  if textLower = queryLower then 1.0
  else if includes textLower queryLower || includes queryLower textLower then 0.9
  else
    let keywordMatches :=
      (keywords.filter (fun k => includes queryLower (js.toLowerCase k))).length
    if keywords.length > 0 ∧ keywordMatches > 0 then
      min 0.85 (0.5 + ((keywordMatches : ℚ) / (keywords.length : ℚ)) * 0.35)
    else
      let queryWords := tokenize js queryLower
      let textWords := tokenize js textLower
      let overlap := (queryWords.filter (fun word => textWords.contains word)).length
      (overlap : ℚ) / ((max queryWords.length 1 : Nat) : ℚ)

/-- Whether an optional string is truthy: it is defined and not empty. -/
def truthy : Option Text → Bool
  | some (_ :: _) => true
  | _ => false

/-- The expression `a || b` for two optional strings. -/
def orElse (a b : Option Text) : Option Text := if truthy a then a else b

/-- The expression `a || 'literal'` for an optional string and a string. -/
def orText (a : Option Text) (b : Text) : Text :=
  match a with
  | some (c :: rest) => c :: rest
  | _ => b

/-- An optional string inside a template literal: `undefined` reads `undefined`. -/
def display : Option Text → Text
  | some t => t
  | none => "undefined".toList

/-- An entry of `knowledge.faqs`. -/
structure Faq where
  question : Text
  answer : Text
  keywords : Option (List Text)
deriving DecidableEq, Repr

/-- An entry of `knowledge.services`. -/
structure Service where
  name : Text
  description : Option Text
  keywords : Option (List Text)
deriving DecidableEq, Repr

/-- An entry of `knowledge.policies`. -/
structure Policy where
  title : Text
  description : Option Text
  summary : Option Text
  keywords : Option (List Text)
deriving DecidableEq, Repr

/-- An entry of `knowledge.contacts`. -/
structure Contact where
  department : Option Text
  type : Option Text
  phone : Option Text
  email : Option Text
deriving DecidableEq, Repr

/-- An entry of `knowledge.locations`. -/
structure Location where
  address : Option Text
  name : Option Text
  city : Option Text
  state : Option Text
  zip : Option Text
deriving DecidableEq, Repr

/-- The value of `knowledge.hours`: a string, or an object with a string for some days. -/
inductive Hours where
  | text (hours : Text)
  | table (byDay : List (Text × Text))
deriving DecidableEq, Repr

/-- Whether a value of `knowledge.hours` is truthy: every object is, the empty string is
not. -/
def Hours.truthy : Hours → Bool
  | Hours.text [] => false
  | _ => true

/-- The parts of `this.knowledge` that `search` reads; a part that is missing is `none`.
Questions, names, titles and keywords are strings, as `calculateRelevance` needs them. -/
structure Knowledge where
  faqs : Option (List Faq)
  hours : Option Hours
  locations : Option (List Location)
  services : Option (List Service)
  contacts : Option (List Contact)
  policies : Option (List Policy)
deriving DecidableEq, Repr

/-- The part of `this.config` that `search` reads. -/
structure Config where
  matchThreshold : ℚ

/-- The items a `services` or `policy` result carries. -/
inductive Items where
  | services (items : List Service)
  | policies (items : List Policy)
deriving DecidableEq, Repr

/-- An entry of `results.exact` or `results.relevant`. -/
structure Result where
  type : String
  question : Option Text
  items : Option Items
  answer : Option Text
  score : ℚ
deriving DecidableEq, Repr

/-- The object `search` returns. -/
structure Results where
  exact : List Result
  relevant : List Result
  suggested : List Result
  confidence : ℚ
deriving DecidableEq, Repr

def isHoursQuery (query : Text) : Bool :=
  (["hours", "open", "close", "closed", "schedule", "when are you", "business hours", "opening",
    "closing"].map String.toList).any (fun keyword => includes query keyword)

def isLocationQuery (query : Text) : Bool :=
  (["where", "location", "address", "directions", "find you", "located", "near"].map
    String.toList).any (fun keyword => includes query keyword)

def isContactQuery (query : Text) : Bool :=
  (["contact", "email", "phone", "reach", "call", "speak to", "manager", "supervisor"].map
    String.toList).any (fun keyword => includes query keyword)

/-- The method `formatHours(hours)`. -/
def formatHours (js : Builtins) : Hours → Text
  | Hours.text hours => hours
  | Hours.table byDay =>
    let days := ["monday", "tuesday", "wednesday", "thursday", "friday", "saturday",
      "sunday"].map String.toList
    let formatted := days.filterMap (fun day =>
      match byDay.lookup day with
      | some (c :: rest) =>
        some (js.toUpperCase (day.take 1) ++ day.drop 1 ++ ": ".toList ++ (c :: rest))
      | _ => none)
    if formatted.length > 0 then ", ".toList.intercalate formatted
    else "Hours not available".toList

/-- The method `formatLocations(locations)`; `none` is `null`. -/
def formatLocations (locations : List Location) : Option Text :=
  match locations with
  | [] => none
  | [loc] =>
    some (trim (display (orElse loc.address loc.name) ++ ", ".toList ++ orText loc.city [] ++
      " ".toList ++ orText loc.state [] ++ " ".toList ++ orText loc.zip []))
  | loc :: _ =>
    some ("We have ".toList ++ (toString locations.length).toList ++
      " locations. The main one is at ".toList ++ display (orElse loc.address loc.name))

/-- The method `formatServices(services)`; `none` is `null`. -/
def formatServices (services : List Service) : Option Text :=
  match services with
  | [] => none
  | [service] => some (orText service.description service.name)
  | _ =>
    let names := ", ".toList.intercalate ((services.take 3).map (fun s => s.name))
    some ("We offer ".toList ++ names ++
      (if services.length > 3 then ", and more".toList else []))

/-- The method `formatPolicies(policies)`; `none` is `null`. -/
def formatPolicies (policies : List Policy) : Option Text :=
  match policies with
  | [] => none
  | policy :: _ =>
    some (orText (orElse policy.description policy.summary)
      "Policy information available upon request".toList)

/-- The method `findRelevantServices(query)`. -/
def findRelevantServices (js : Builtins) (config : Config) (knowledge : Knowledge)
    (query : Text) : List Service :=
  match knowledge.services with
  | none => []
  | some services =>
    services.filter (fun service =>
      let score := calculateRelevance js query
        (service.name ++ " ".toList ++ orText service.description [])
        (service.keywords.getD [])
      decide (score > config.matchThreshold))

/-- The method `findRelevantContact(query)`; `none` is `null`. -/
def findRelevantContact (js : Builtins) (knowledge : Knowledge) (query : Text) : Option Text :=
  match knowledge.contacts with
  | none => none
  | some contacts =>
    match contacts.find? (fun contact =>
        includes query (orText (contact.department.map js.toLowerCase) [])) with
    | some contact =>
      some (display contact.department ++ ": ".toList ++
        orText (orElse contact.phone contact.email) "Contact main desk".toList)
    | none =>
      match contacts.find? (fun c =>
          c.type == some "general".toList || c.department == some "general".toList) with
      | some general =>
        some (orText (orElse general.phone general.email) "Please hold for transfer".toList)
      | none => none

/-- The method `findRelevantPolicies(query)`. -/
def findRelevantPolicies (js : Builtins) (config : Config) (knowledge : Knowledge)
    (query : Text) : List Policy :=
  match knowledge.policies with
  | none => []
  | some policies =>
    policies.filter (fun policy =>
      let score := calculateRelevance js query
        (policy.title ++ " ".toList ++ orText policy.description [])
        (policy.keywords.getD [])
      decide (score > config.matchThreshold))

/-- The order `results.exact.sort((a, b) => b.score - a.score)` sorts by: `a` may stand
before `b` when the comparison function does not return a positive number. -/
def scoreOrder (a b : Result) : Prop := b.score - a.score ≤ 0

instance scoreOrderDecidable : DecidableRel scoreOrder :=
  fun a b => inferInstanceAs (Decidable (b.score - a.score ≤ 0))

/-- The loop of `search` over the FAQs: each one is pushed to `exact`, to `relevant`, or
to neither, by its score. -/
def checkFaqs (js : Builtins) (config : Config) (query : Text) :
    List Faq → List Result × List Result → List Result × List Result
  | [], results => results
  | faq :: rest, (exact, relevant) =>
    let score := calculateRelevance js query faq.question (faq.keywords.getD [])
    if score > 0.9 then
      checkFaqs js config query rest
        (exact ++ [⟨"faq", some faq.question, none, some faq.answer, score⟩], relevant)
    else if score > config.matchThreshold then
      checkFaqs js config query rest
        (exact, relevant ++ [⟨"faq", some faq.question, none, some faq.answer, score⟩])
    else checkFaqs js config query rest (exact, relevant)

/-- The method `search(query)` on an initialised knowledge base. `Array.prototype.sort`
is stable, so it returns the one stable arrangement by the comparison function, which
insertion sort computes. -/
def search (js : Builtins) (config : Config) (knowledge : Knowledge) (query : Text) : Results :=
  let queryLower := js.toLowerCase query
  let checked := checkFaqs js config query (knowledge.faqs.getD []) ([], [])
  let exact : List Result := checked.1
  let relevant : List Result := checked.2
  let exact : List Result :=
    match knowledge.hours with
    | some hours =>
      if isHoursQuery queryLower && hours.truthy then
        exact ++ [⟨"hours", none, none, some (formatHours js hours), 1.0⟩]
      else exact
    | none => exact
  let exact : List Result :=
    match knowledge.locations with
    | some locations =>
      if isLocationQuery queryLower then
        let locationInfo := formatLocations locations
        if truthy locationInfo then exact ++ [⟨"location", none, none, locationInfo, 1.0⟩]
        else exact
      else exact
    | none => exact
  let relevant : List Result :=
    match knowledge.services with
    | some _ =>
      let relevantServices := findRelevantServices js config knowledge query
      if relevantServices.length > 0 then
        relevant ++ [⟨"services", none, some (Items.services relevantServices),
          formatServices relevantServices, 0.8⟩]
      else relevant
    | none => relevant
  let exact : List Result :=
    match knowledge.contacts with
    | some _ =>
      if isContactQuery queryLower then
        let contactInfo := findRelevantContact js knowledge query
        if truthy contactInfo then exact ++ [⟨"contact", none, none, contactInfo, 0.9⟩]
        else exact
      else exact
    | none => exact
  let relevant : List Result :=
    match knowledge.policies with
    | some _ =>
      let relevantPolicies := findRelevantPolicies js config knowledge query
      if relevantPolicies.length > 0 then
        relevant ++ [⟨"policy", none, some (Items.policies relevantPolicies),
          formatPolicies relevantPolicies, 0.7⟩]
      else relevant
    | none => relevant
  let exact := exact.insertionSort scoreOrder
  let relevant := relevant.insertionSort scoreOrder
  let confidence : ℚ :=
    match exact with
    | best :: _ => best.score
    | [] =>
      match relevant with
      | best :: _ => best.score
      | [] => 0
  ⟨exact, relevant, [], confidence⟩

end KnowledgeBase

/-! ## Requests to `server.js` and lookups as steps -/

/-- A request to `server.js` that writes to the session store, or the passing of time up
to `t`. `/web-call` is the request once Twilio has answered with the identifier of the
call it started. -/
inductive Request where
  | incomingCall (env : Env) (callSid : String) (fromNumber : Option String)
  | handleSpeech (ai : AIService) (env : Env) (callSid : String) (speechResult : Option Text)
  | callStatus (now : Nat) (callSid callStatus : String)
  | webCall (now : Nat) (callSid : String)
  | elapse (t : Nat)

namespace Request

/-- The state after the request. -/
def apply (js : Builtins) (w : Server) : Request → Server
  | incomingCall env callSid fromNumber => (postIncomingCall js w env callSid fromNumber).1
  | handleSpeech ai env callSid speechResult =>
    (postHandleSpeech js ai w env callSid speechResult).1
  | callStatus now callSid status => postCallStatus w now callSid status
  | webCall now callSid => { w with store := w.store.setCallStatus callSid "initiated" now }
  | elapse t => w.elapse t

/-- The state after a sequence of requests. -/
def run (js : Builtins) (w : Server) (requests : List Request) : Server :=
  requests.foldl (apply js) w

end Request

/-- A call of one of the four reading methods of `ConversationService`. -/
inductive Lookup where
  | getConversation (callSid : String)
  | getCallVoice (callSid : String)
  | getCallStatus (callSid : String) (now : Nat)
  | getActiveConversationCount
deriving DecidableEq, Repr

/-- What a reading method returns. -/
inductive Reply where
  | conversation (record : Conversation)
  | callVoice (record : CallVoice)
  | callStatus (record : CallStatus)
  | count (size : Nat)
deriving DecidableEq, Repr

namespace Lookup

/-- The call as a step of the service: what it returns and the maps it leaves behind.
None of the four method bodies calls `set` or `delete`; the default record of a lookup
is a fresh literal that is returned without being stored. -/
def call (s : ConversationService) : Lookup → Reply × ConversationService
  | getConversation callSid => (Reply.conversation (s.getConversation callSid), s)
  | getCallVoice callSid => (Reply.callVoice (s.getCallVoice callSid), s)
  | getCallStatus callSid now => (Reply.callStatus (s.getCallStatus callSid now), s)
  | getActiveConversationCount => (Reply.count s.getActiveConversationCount, s)

/-- The replies of a sequence of lookups made one after the other. -/
def replies (s : ConversationService) : List Lookup → List Reply
  | [] => []
  | l :: rest => (call s l).1 :: replies (call s l).2 rest

end Lookup

/-- The voices of the profiles: what `voiceProfiles[key].voice` can be. -/
def profileVoices : List String := voiceProfiles.map (fun e => e.2.voice)

/-- Every voice record stored is one whose voice belongs to a profile. -/
def VoicesKnown (w : Server) : Prop :=
  ∀ callSid record, w.store.callVoices.get callSid = some record → record.voice ∈ profileVoices

/-! ## The intent classifier as the specification words it -/

/-- The keyword groups of the intent classifier, in the order they are tried. -/
def intentKeywords : List (String × List Text) :=
  [("appointments", ["appointment", "schedule", "book"].map String.toList),
   ("transferring", ["transfer", "speak to", "manager"].map String.toList),
   ("farewells", ["bye", "thank", "goodbye"].map String.toList),
   ("hours", ["hours", "open", "closed"].map String.toList)]

/-- The category of the first group with a keyword that occurs in the text, `general`
when there is none. -/
def firstMatchingIntent (groups : List (String × List Text)) (lower : Text) : String :=
  match groups with
  | [] => "general"
  | (category, keywords) :: rest =>
    if keywords.any (fun keyword => includes lower keyword) then category
    else firstMatchingIntent rest lower

/-- The text `needle` occurs in `s` as a substring. -/
def Occurs (needle s : Text) : Prop := ∃ before after, s = before ++ needle ++ after

end SarcasticReceptionist

/-! # Theorems -/

namespace SarcasticReceptionist

/-! ## The map -/

namespace JsMap

variable {V : Type}

theorem get_set_self (m : JsMap V) (k : String) (v : V) : (m.set k v).get k = some v := by
  induction m with
  | nil => simp [set, get]
  | cons e rest ih =>
    obtain ⟨k', v'⟩ := e
    by_cases h : k' = k <;> simp [set, get, h, ih]

theorem get_set_of_ne (m : JsMap V) {k k' : String} (v : V) (h : k' ≠ k) :
    (m.set k' v).get k = m.get k := by
  induction m with
  | nil => simp [set, get, h]
  | cons e rest ih =>
    obtain ⟨k'', v''⟩ := e
    by_cases h1 : k'' = k'
    · subst h1; simp [set, get, h]
    · by_cases h2 : k'' = k
      · subst h2; simp [set, get, h1]
      · simp [set, get, h1, h2, ih]

theorem get_delete_self (m : JsMap V) (k : String) : (m.delete k).get k = none := by
  induction m with
  | nil => simp [delete, get]
  | cons e rest ih =>
    obtain ⟨k', v'⟩ := e
    by_cases h : k' = k
    · simpa [delete, h] using ih
    · simpa [delete, List.filter_cons, h, get] using ih

theorem get_delete_of_ne (m : JsMap V) {k k' : String} (h : k' ≠ k) :
    (m.delete k').get k = m.get k := by
  induction m with
  | nil => simp [delete, get]
  | cons e rest ih =>
    obtain ⟨k'', v''⟩ := e
    by_cases h1 : k'' = k'
    · subst h1
      simpa [delete, get, h] using ih
    · by_cases h2 : k'' = k
      · subst h2; simp [delete, List.filter_cons, h1, get]
      · simpa [delete, List.filter_cons, h1, get, h2] using ih

theorem get_delete_eq_none (m : JsMap V) {k : String} (k' : String) (h : m.get k = none) :
    (m.delete k').get k = none := by
  by_cases hk : k' = k
  · subst hk; exact get_delete_self m k'
  · rw [get_delete_of_ne m hk]; exact h

end JsMap

/-! ## The session store -/

namespace Server

theorem foldl_delete_conversations (l : List Timer) (s : ConversationService) :
    (l.foldl (fun s tm => s.deleteCallStatus tm.callSid) s).conversations = s.conversations := by
  induction l generalizing s with
  | nil => rfl
  | cons tm rest ih => simpa [ConversationService.deleteCallStatus] using ih _

theorem foldl_delete_callVoices (l : List Timer) (s : ConversationService) :
    (l.foldl (fun s tm => s.deleteCallStatus tm.callSid) s).callVoices = s.callVoices := by
  induction l generalizing s with
  | nil => rfl
  | cons tm rest ih => simpa [ConversationService.deleteCallStatus] using ih _

theorem foldl_delete_status_none (l : List Timer) (s : ConversationService) (k : String)
    (h : s.callStatuses.get k = none) :
    (l.foldl (fun s tm => s.deleteCallStatus tm.callSid) s).callStatuses.get k = none := by
  induction l generalizing s with
  | nil => exact h
  | cons tm rest ih =>
    apply ih
    exact JsMap.get_delete_eq_none _ _ h

theorem foldl_delete_status_mem (l : List Timer) (s : ConversationService) (tm : Timer)
    (h : tm ∈ l) :
    (l.foldl (fun s tm => s.deleteCallStatus tm.callSid) s).callStatuses.get tm.callSid = none := by
  induction l generalizing s with
  | nil => cases h
  | cons tm' rest ih =>
    rcases List.mem_cons.1 h with h | h
    · subst h
      exact foldl_delete_status_none rest _ _ (JsMap.get_delete_self _ _)
    · exact ih _ h

theorem elapse_status_of_due (w : Server) (t : Nat) (tm : Timer) (h : tm ∈ w.timers)
    (hdue : tm.due ≤ t) : (w.elapse t).store.callStatuses.get tm.callSid = none := by
  unfold elapse
  exact foldl_delete_status_mem _ _ tm (List.mem_filter.2 ⟨h, by simpa using hdue⟩)

end Server

theorem unseen_apply (w : Server) (callSid : String) (op : ServiceOp) (h : Unseen w callSid)
    (hop : op.stores callSid = false) : Unseen (op.apply w) callSid := by
  obtain ⟨h1, h2, h3⟩ := h
  cases op with
  | createConversation c f n =>
    have hc : c ≠ callSid := by simpa [ServiceOp.stores] using hop
    exact ⟨by simpa [ServiceOp.apply, ConversationService.createConversation,
      JsMap.get_set_of_ne _ _ hc] using h1, h2, h3⟩
  | updateConversation c u a =>
    have hc : c ≠ callSid := by simpa [ServiceOp.stores] using hop
    exact ⟨by simpa [ServiceOp.apply, ConversationService.updateConversation,
      JsMap.get_set_of_ne _ _ hc] using h1, h2, h3⟩
  | incrementCallCount c =>
    have hc : c ≠ callSid := by simpa [ServiceOp.stores] using hop
    exact ⟨by simpa [ServiceOp.apply, ConversationService.incrementCallCount,
      JsMap.get_set_of_ne _ _ hc] using h1, h2, h3⟩
  | deleteConversation c =>
    exact ⟨JsMap.get_delete_eq_none _ _ h1, h2, h3⟩
  | setCallVoice c v st =>
    have hc : c ≠ callSid := by simpa [ServiceOp.stores] using hop
    exact ⟨h1, by simpa [ServiceOp.apply, ConversationService.setCallVoice,
      JsMap.get_set_of_ne _ _ hc] using h2, h3⟩
  | deleteCallVoice c =>
    exact ⟨h1, JsMap.get_delete_eq_none _ _ h2, h3⟩
  | setCallStatus c st n =>
    have hc : c ≠ callSid := by simpa [ServiceOp.stores] using hop
    exact ⟨h1, h2, by simpa [ServiceOp.apply, ConversationService.setCallStatus,
      JsMap.get_set_of_ne _ _ hc] using h3⟩
  | deleteCallStatus c =>
    exact ⟨h1, h2, JsMap.get_delete_eq_none _ _ h3⟩
  | cleanupCall c n d =>
    simp only [ServiceOp.apply, Server.cleanupCall]
    split
    · exact ⟨JsMap.get_delete_eq_none _ _ h1, JsMap.get_delete_eq_none _ _ h2, h3⟩
    · exact ⟨JsMap.get_delete_eq_none _ _ h1, JsMap.get_delete_eq_none _ _ h2,
        JsMap.get_delete_eq_none _ _ h3⟩
  | elapse t =>
    refine ⟨?_, ?_, ?_⟩
    · simpa [ServiceOp.apply, Server.elapse, Server.foldl_delete_conversations] using h1
    · simpa [ServiceOp.apply, Server.elapse, Server.foldl_delete_callVoices] using h2
    · exact Server.foldl_delete_status_none _ _ _ h3

theorem unseen_run (ops : List ServiceOp) (w : Server) (callSid : String) (h : Unseen w callSid)
    (hops : ∀ op ∈ ops, op.stores callSid = false) : Unseen (ServiceOp.run w ops) callSid := by
  induction ops generalizing w with
  | nil => exact h
  | cons op rest ih =>
    exact ih _ (unseen_apply w callSid op h (hops op (List.mem_cons_self _ _)))
      (fun o ho => hops o (List.mem_cons_of_mem _ ho))

/-- C1: after any sequence of service calls and timer runs in which the call identifier
was never created, updated or given a voice or a status, `getConversation` returns a
record with empty history and call count 0, `getCallVoice` returns the voice
`Polly.Amy-Neural` with style `sarcastic`, and `getCallStatus` returns a record with
status `unknown`; all three lookups are total functions. -/
theorem lookups_default_of_never_seen (ops : List ServiceOp) (callSid : String) (now : Nat)
    (h : ∀ op ∈ ops, op.stores callSid = false) :
    let s := (ServiceOp.run Server.init ops).store
    (s.getConversation callSid).history = [] ∧ (s.getConversation callSid).callCount = 0 ∧
    s.getCallVoice callSid = ⟨"Polly.Amy-Neural", "sarcastic"⟩ ∧
    (s.getCallStatus callSid now).status = "unknown" := by
  intro s
  obtain ⟨h1, h2, h3⟩ := unseen_run ops Server.init callSid ⟨rfl, rfl, rfl⟩ h
  simp [s, ConversationService.getConversation, ConversationService.getCallVoice,
    ConversationService.getCallStatus, h1, h2, h3, ConversationService.defaultConversation,
    ConversationService.defaultCallVoice]

theorem lookups_default_of_never_seen_witness :
    let s := (ServiceOp.run Server.init
      [ServiceOp.createConversation "CA1" none 5, ServiceOp.setCallVoice "CA1" "v" "s",
       ServiceOp.setCallStatus "CA1" "ringing" 6, ServiceOp.cleanupCall "CA2" 7 0]).store
    (s.getConversation "CA2").history = [] ∧ (s.getConversation "CA2").callCount = 0 ∧
    s.getCallVoice "CA2" = ⟨"Polly.Amy-Neural", "sarcastic"⟩ ∧
    (s.getCallStatus "CA2" 8).status = "unknown" :=
  lookups_default_of_never_seen _ "CA2" 8 (by decide)

/-- C10: `updateConversation` keeps the earlier history entries as they are and in their
order and appends exactly two entries, the user input with role `user` and then the
response with role `assistant`; the record it returns is the one a following
`getConversation` returns. -/
theorem updateConversation_appends (s : ConversationService) (callSid : String)
    (userInput assistantResponse : Text) :
    (s.updateConversation callSid userInput assistantResponse).2.history =
      (s.getConversation callSid).history ++
        [⟨"user", userInput⟩, ⟨"assistant", assistantResponse⟩] ∧
    (s.updateConversation callSid userInput assistantResponse).1.getConversation callSid =
      (s.updateConversation callSid userInput assistantResponse).2 := by
  simp [ConversationService.updateConversation, ConversationService.getConversation,
    JsMap.get_set_self]

/-! ## The `/call-status` handler -/

theorem timer_mem_apply (w : Server) (tm : Timer) (op : ServiceOp) (h : tm ∈ w.timers)
    (hop : op.reaches tm.due = false) : tm ∈ (op.apply w).timers := by
  cases op with
  | cleanupCall c n d =>
    simp only [ServiceOp.apply, Server.cleanupCall]
    split
    · exact List.mem_append_left _ h
    · exact h
  | elapse t =>
    have ht : ¬ tm.due ≤ t := by simpa [ServiceOp.reaches] using hop
    exact List.mem_filter.2 ⟨h, by simpa using ht⟩
  | _ => exact h

theorem timer_mem_run (ops : List ServiceOp) (w : Server) (tm : Timer) (h : tm ∈ w.timers)
    (hops : ∀ op ∈ ops, op.reaches tm.due = false) : tm ∈ (ServiceOp.run w ops).timers := by
  induction ops generalizing w with
  | nil => exact h
  | cons op rest ih =>
    exact ih _ (timer_mem_apply w tm op h (hops op (List.mem_cons_self _ _)))
      (fun o ho => hops o (List.mem_cons_of_mem _ ho))

/-- C4: when the `/call-status` handler processes one of the statuses `completed`,
`failed`, `busy`, `no-answer` at time `now`, the conversation record and the voice record
of the call are gone when it returns; and whatever the service is asked to do before the
60000 ms have passed, the status record of the call is gone as soon as they have. -/
theorem call_status_terminal_cleans_up (w : Server) (now : Nat) (callSid callStatus : String)
    (h : callStatus ∈ ["completed", "failed", "busy", "no-answer"]) :
    let w' := postCallStatus w now callSid callStatus
    w'.store.conversations.get callSid = none ∧ w'.store.callVoices.get callSid = none ∧
    ∀ (ops : List ServiceOp) (t : Nat), (∀ op ∈ ops, op.reaches (now + 60000) = false) →
      now + 60000 ≤ t →
      ((ServiceOp.run w' ops).elapse t).store.callStatuses.get callSid = none := by
  intro w'
  have hw : w' = Server.cleanupCall
      { w with store := w.store.setCallStatus callSid callStatus now } callSid now := by
    simp only [w', postCallStatus, endStatuses, if_pos h]
  have htm : (⟨now + 60000, callSid⟩ : Timer) ∈ w'.timers := by
    rw [hw]
    have hd : Server.timeoutDelay 60000 = 60000 := by decide
    simp [Server.cleanupCall, hd]
  refine ⟨?_, ?_, ?_⟩
  · rw [hw]
    simp [Server.cleanupCall, ConversationService.deleteConversation,
      ConversationService.deleteCallVoice, JsMap.get_delete_self]
  · rw [hw]
    simp [Server.cleanupCall, ConversationService.deleteConversation,
      ConversationService.deleteCallVoice, JsMap.get_delete_self]
  · intro ops t hops ht
    exact Server.elapse_status_of_due _ t ⟨now + 60000, callSid⟩
      (timer_mem_run ops w' _ htm hops) ht

theorem call_status_terminal_cleans_up_witness :
    let w' := postCallStatus
      (postIncomingCall asciiBuiltins Server.init ⟨0, 9, 2, fun _ => 0⟩ "CA1" none).1 1000 "CA1"
      "completed"
    w'.store.conversations.get "CA1" = none ∧ w'.store.callVoices.get "CA1" = none ∧
    ∀ (ops : List ServiceOp) (t : Nat), (∀ op ∈ ops, op.reaches (1000 + 60000) = false) →
      1000 + 60000 ≤ t →
      ((ServiceOp.run w' ops).elapse t).store.callStatuses.get "CA1" = none :=
  call_status_terminal_cleans_up _ 1000 "CA1" "completed" (by decide)

/-! ## The intent classifier -/

theorem isPrefixOf_iff_append (n s : Text) : n.isPrefixOf s = true ↔ ∃ t, s = n ++ t := by
  induction n generalizing s with
  | nil => simp
  | cons a n ih =>
    cases s with
    | nil => simp [List.isPrefixOf]
    | cons b s =>
      simp only [List.isPrefixOf, Bool.and_eq_true, beq_iff_eq, ih, List.cons_append,
        List.cons.injEq]
      constructor
      · rintro ⟨rfl, t, rfl⟩; exact ⟨t, rfl, rfl⟩
      · rintro ⟨t, rfl, rfl⟩; exact ⟨rfl, t, rfl⟩

theorem includes_iff_occurs (s needle : Text) : includes s needle = true ↔ Occurs needle s := by
  induction s with
  | nil =>
    simp only [includes, List.isEmpty_iff, Occurs]
    constructor
    · rintro rfl; exact ⟨[], [], rfl⟩
    · rintro ⟨b, a, h⟩
      have h1 := congrArg List.length h
      simp only [List.length_nil, List.length_append] at h1
      exact List.length_eq_zero.1 (by omega)
  | cons c rest ih =>
    simp only [includes, Bool.or_eq_true, isPrefixOf_iff_append, ih, Occurs]
    constructor
    · rintro (⟨t, ht⟩ | ⟨b, a, h⟩)
      · exact ⟨[], t, by simpa using ht⟩
      · exact ⟨c :: b, a, by simp [h]⟩
    · rintro ⟨b, a, h⟩
      cases b with
      | nil => exact Or.inl ⟨a, by simpa using h⟩
      | cons d b =>
        simp only [List.cons_append, List.cons.injEq] at h
        exact Or.inr ⟨b, a, h.2⟩

/-- C5: `analyzeIntent` lower-cases the utterance and returns the category of the first
of the groups appointments, transferring, farewells, hours that has a keyword occurring in
it as a substring (`includes` is substring occurrence); it returns `general` exactly when
none of the twelve keywords occurs. -/
theorem analyzeIntent_first_group (js : Builtins) (speech : Text) :
    analyzeIntent js speech = firstMatchingIntent intentKeywords (js.toLowerCase speech) ∧
    (∀ keyword : Text, includes (js.toLowerCase speech) keyword = true ↔
      Occurs keyword (js.toLowerCase speech)) ∧
    (analyzeIntent js speech = "general" ↔
      ∀ keyword ∈ ["appointment", "schedule", "book", "transfer", "speak to", "manager", "bye",
        "thank", "goodbye", "hours", "open", "closed"].map String.toList,
        ¬ Occurs keyword (js.toLowerCase speech)) := by
  refine ⟨?_, fun keyword => includes_iff_occurs _ keyword, ?_⟩
  · simp only [analyzeIntent, firstMatchingIntent, intentKeywords, List.map, List.any,
      Bool.or_false, Bool.or_assoc]
  · simp only [← includes_iff_occurs, analyzeIntent, List.map, List.mem_cons, List.mem_singleton,
      List.not_mem_nil, or_false, forall_eq_or_imp, forall_eq, Bool.not_eq_true]
    simp only [Bool.or_eq_true] at *
    split_ifs with h1 h2 h3 h4
    · refine ⟨fun h => absurd h (by decide), fun h => ?_⟩
      simp only [← Bool.not_eq_true] at h
      tauto
    · refine ⟨fun h => absurd h (by decide), fun h => ?_⟩
      simp only [← Bool.not_eq_true] at h
      tauto
    · refine ⟨fun h => absurd h (by decide), fun h => ?_⟩
      simp only [← Bool.not_eq_true] at h
      tauto
    · refine ⟨fun h => absurd h (by decide), fun h => ?_⟩
      simp only [← Bool.not_eq_true] at h
      tauto
    · refine ⟨fun _ => ?_, fun _ => rfl⟩
      simp only [not_or, Bool.not_eq_true] at h1 h2 h3 h4
      tauto

/-! ## The `/incoming-call` and `/handle-speech` handlers -/

theorem randomIndex_lt (r length : Nat) (h : 0 < length) : randomIndex r length < length := by
  unfold randomIndex
  apply Nat.div_lt_of_lt_mul
  have : r % 2 ^ 53 < 2 ^ 53 := Nat.mod_lt _ (by norm_num)
  nlinarith

theorem normalizeVoiceName_profile (js : Builtins) (key : String) (profile : VoiceProfile)
    (h : (key, profile) ∈ voiceProfiles) : VoiceService.normalizeVoiceName js profile.voice = key := by
  simp only [voiceProfiles, List.mem_cons, Prod.mk.injEq, List.mem_singleton, List.not_mem_nil,
    or_false] at h
  rcases h with ⟨rfl, rfl⟩ | ⟨rfl, rfl⟩ | ⟨rfl, rfl⟩ | ⟨rfl, rfl⟩ | ⟨rfl, rfl⟩ | ⟨rfl, rfl⟩ |
    ⟨rfl, rfl⟩ <;>
  · unfold VoiceService.normalizeVoiceName
    rw [js.toLowerCase_ascii _ (by decide)]
    decide

/-- The greeting voice of `/incoming-call` is the voice stored for the call on every day
of the week but Monday and Wednesday, whose styles `dramatic` and `condescending` carry a
voice of their own. -/
theorem incoming_call_voice_consistent_iff (js : Builtins) (w : Server) (env : Env)
    (callSid : String) (fromNumber : Option String) :
    sayVoices (postIncomingCall js w env callSid fromNumber).2 =
      [((postIncomingCall js w env callSid fromNumber).1.store.getCallVoice callSid).voice] ↔
    env.day ≠ 1 ∧ env.day ≠ 3 := by
  obtain ⟨now, hour, day, rand⟩ := env
  have hall : ∀ e ∈ voiceProfiles, VoiceService.normalizeVoiceName js e.2.voice = e.1 :=
    fun e he => normalizeVoiceName_profile js e.1 e.2 he
  simp only [voiceProfiles, List.forall_mem_cons, List.not_mem_nil, false_implies, implies_true,
    and_true] at hall
  obtain ⟨ha, hb, hj, hm, hr, hk, ho⟩ := hall
  fin_cases day <;>
    simp [postIncomingCall, getCurrentMood, dailyMoods, VoiceService.selectVoiceForCall,
      getVoiceForMood, voiceProfiles, List.lookup, ha, hb, hr, hk, ho, enhanceVoiceResponse,
      sayVoices, nounVoices, addSay, ConversationService.getCallVoice,
      ConversationService.setCallVoice, JsMap.get_set_self,
      ConversationService.createConversation]

/-- C7 (the code diverges from the claim): on a Monday (day 1) the `/incoming-call`
handler speaks the greeting with `Polly.Ruth-Neural`, the voice of the `dramatic` style,
while the voice it stores for the call with `setCallVoice` is `Polly.Amy-Neural`. -/
theorem incoming_call_greeting_voice_monday :
    sayVoices (postIncomingCall asciiBuiltins Server.init ⟨0, 9, 1, fun _ => 0⟩ "CA1" none).2 =
      ["Polly.Ruth-Neural"] ∧
    ((postIncomingCall asciiBuiltins Server.init ⟨0, 9, 1, fun _ => 0⟩ "CA1" none).1.store.getCallVoice
      "CA1").voice = "Polly.Amy-Neural" := by
  decide

theorem postIncomingCall_conversation (js : Builtins) (w : Server) (env : Env) (callSid : String)
    (fromNumber : Option String) :
    (postIncomingCall js w env callSid fromNumber).1.store.getConversation callSid =
      ⟨[], 0, some env.now, fromNumber⟩ := by
  unfold postIncomingCall
  simp only []
  split
  · simp [ConversationService.createConversation, ConversationService.getConversation,
      JsMap.get_set_self]
  · split <;>
    simp [ConversationService.createConversation, ConversationService.getConversation,
      ConversationService.setCallVoice, JsMap.get_set_self]

theorem postHandleSpeech_store (js : Builtins) (ai : AIService) (w : Server) (env : Env)
    (callSid : String) (speechResult : Option Text)
    (h : analyzeIntent js (speechResult.getD []) ≠ "farewells") :
    ∃ response, (postHandleSpeech js ai w env callSid speechResult).1 =
      { w with store := ((w.store.incrementCallCount callSid).1.updateConversation callSid
          (speechResult.getD []) response).1 } := by
  unfold postHandleSpeech
  simp only [if_neg h]
  split <;> exact ⟨_, rfl⟩

theorem postHandleSpeech_turn (js : Builtins) (ai : AIService) (w : Server) (env : Env)
    (callSid : String) (speechResult : Option Text)
    (h : analyzeIntent js (speechResult.getD []) ≠ "farewells") :
    ((postHandleSpeech js ai w env callSid speechResult).1.store.getConversation callSid).callCount =
      (w.store.getConversation callSid).callCount + 2 ∧
    ((postHandleSpeech js ai w env callSid speechResult).1.store.getConversation
      callSid).history.length = (w.store.getConversation callSid).history.length + 2 := by
  obtain ⟨response, hr⟩ := postHandleSpeech_store js ai w env callSid speechResult h
  rw [hr]
  simp [ConversationService.updateConversation, ConversationService.incrementCallCount,
    ConversationService.getConversation, JsMap.get_set_self]

/-- C9 (the code diverges from the claim): for a call created by `/incoming-call`, after
`k` non-farewell `/handle-speech` requests the stored history has `2k` entries, but the
stored call count is `2k`, not `k`: each request increments it once through
`incrementCallCount` and once more through `updateConversation`. -/
theorem handle_speech_counts_twice_per_turn (js : Builtins) (ai : AIService) (w : Server)
    (env : Env) (callSid : String) (fromNumber : Option String)
    (requests : List (Env × Option Text))
    (h : ∀ r ∈ requests, analyzeIntent js (r.2.getD []) ≠ "farewells") :
    ((requests.foldl (fun w r => (postHandleSpeech js ai w r.1 callSid r.2).1)
      (postIncomingCall js w env callSid fromNumber).1).store.getConversation callSid).callCount =
      2 * requests.length ∧
    ((requests.foldl (fun w r => (postHandleSpeech js ai w r.1 callSid r.2).1)
      (postIncomingCall js w env callSid fromNumber).1).store.getConversation
        callSid).history.length = 2 * requests.length := by
  have key : ∀ (requests : List (Env × Option Text)) (w0 : Server),
      (∀ r ∈ requests, analyzeIntent js (r.2.getD []) ≠ "farewells") →
      ((requests.foldl (fun w r => (postHandleSpeech js ai w r.1 callSid r.2).1)
        w0).store.getConversation callSid).callCount =
        (w0.store.getConversation callSid).callCount + 2 * requests.length ∧
      ((requests.foldl (fun w r => (postHandleSpeech js ai w r.1 callSid r.2).1)
        w0).store.getConversation callSid).history.length =
        (w0.store.getConversation callSid).history.length + 2 * requests.length := by
    intro requests
    induction requests with
    | nil => intro w0 _; simp
    | cons r rest ih =>
      intro w0 hr
      have h1 := postHandleSpeech_turn js ai w0 r.1 callSid r.2 (hr r (List.mem_cons_self _ _))
      have h2 := ih (postHandleSpeech js ai w0 r.1 callSid r.2).1
        (fun x hx => hr x (List.mem_cons_of_mem _ hx))
      simp only [List.foldl_cons, List.length_cons]
      omega
  have h0 := key requests (postIncomingCall js w env callSid fromNumber).1 h
  rw [postIncomingCall_conversation] at h0
  simpa using h0

theorem handle_speech_counts_twice_per_turn_witness :
    (([((⟨1000, 9, 2, fun _ => 0⟩ : Env), some "what are your hours".toList)].foldl
      (fun w r => (postHandleSpeech asciiBuiltins ⟨none⟩ w r.1 "CA1" r.2).1)
      (postIncomingCall asciiBuiltins Server.init ⟨0, 9, 2, fun _ => 0⟩ "CA1" none).1).store.getConversation
        "CA1").callCount = 2 * 1 ∧
    (([((⟨1000, 9, 2, fun _ => 0⟩ : Env), some "what are your hours".toList)].foldl
      (fun w r => (postHandleSpeech asciiBuiltins ⟨none⟩ w r.1 "CA1" r.2).1)
      (postIncomingCall asciiBuiltins Server.init ⟨0, 9, 2, fun _ => 0⟩ "CA1" none).1).store.getConversation
        "CA1").history.length = 2 * 1 :=
  handle_speech_counts_twice_per_turn asciiBuiltins ⟨none⟩ Server.init ⟨0, 9, 2, fun _ => 0⟩ "CA1"
    none [(⟨1000, 9, 2, fun _ => 0⟩, some "what are your hours".toList)] (by decide)

theorem get?_randomIndex (r : Nat) (l : List Text) (h : l ≠ []) :
    ∃ t, t ∈ l ∧ l.get? (randomIndex r l.length) = some t := by
  have hlt : randomIndex r l.length < l.length :=
    randomIndex_lt r l.length (List.length_pos.2 h)
  exact ⟨l.get ⟨_, hlt⟩, List.get_mem _ _ _, List.get?_eq_get hlt⟩

theorem getResponseByIntent_farewells (rand : Rng) (k : Nat) :
    ∃ template, template ∈ (responseTemplates.lookup "farewells".toList).getD [] ∧
      getResponseByIntent rand k "farewells".toList =
        (some (processTemplate rand (k + 1) template).1, (processTemplate rand (k + 1) template).2) := by
  have hp : property responseTemplates "farewells".toList =
      Property.own ((responseTemplates.lookup "farewells".toList).getD []) := by decide
  obtain ⟨t, ht, hget⟩ := get?_randomIndex (rand k)
    ((responseTemplates.lookup "farewells".toList).getD []) (by decide)
  refine ⟨t, ht, ?_⟩
  unfold getResponseByIntent
  simp only [hp, hget]

theorem enhanceVoiceResponse_isSome (js : Builtins) (text : Text) (mood voice : String)
    (addBreathing : Bool) (h : voice ∈ voiceProfiles.map (fun e => e.2.voice)) :
    (enhanceVoiceResponse js text mood (VoiceService.normalizeVoiceName js voice)
      addBreathing).isSome = true := by
  obtain ⟨⟨key, profile⟩, he, rfl⟩ := List.mem_map.1 h
  rw [normalizeVoiceName_profile js key profile he]
  have hl : voiceProfiles.lookup key = some profile := by
    simp only [voiceProfiles, List.mem_cons, Prod.mk.injEq, List.mem_singleton, List.not_mem_nil,
      or_false] at he
    rcases he with ⟨rfl, rfl⟩ | ⟨rfl, rfl⟩ | ⟨rfl, rfl⟩ | ⟨rfl, rfl⟩ | ⟨rfl, rfl⟩ | ⟨rfl, rfl⟩ |
      ⟨rfl, rfl⟩ <;> decide
  unfold enhanceVoiceResponse
  simp only [hl, Option.isSome_some]

/-- C8 (as the claim states it, refuted): a `/handle-speech` request classified as a
farewell changes the voice record stored for the call. The call was given
`Polly.Brian-Neural`; after the request `getCallVoice` returns the default voice. -/
theorem handle_speech_farewell_drops_voice :
    ((postIncomingCall asciiBuiltins Server.init ⟨0, 9, 0, fun _ => 0⟩ "CA1"
      none).1.store.getCallVoice "CA1").voice = "Polly.Brian-Neural" ∧
    ((postHandleSpeech asciiBuiltins ⟨none⟩
      (postIncomingCall asciiBuiltins Server.init ⟨0, 9, 0, fun _ => 0⟩ "CA1" none).1
      ⟨1000, 9, 0, fun _ => 0⟩ "CA1" (some "ok bye".toList)).1.store.getCallVoice "CA1").voice =
      "Polly.Amy-Neural" := by
  decide

/-- C8 (amended): for every `/handle-speech` request, utterance and outcome of the random
choices, each `<Say>` of the response uses the voice that `getCallVoice` returns for the
call when the request arrives, and a response is produced whenever the voice record of
the call, if any, is one that `/incoming-call` assigns; the handler leaves the stored
voice records as they are when the utterance is not a farewell, and on a farewell it
deletes the voice record of the call. -/
theorem handle_speech_voice (js : Builtins) (ai : AIService) (w : Server) (env : Env)
    (callSid : String) (speechResult : Option Text) :
    (∀ twiml, (postHandleSpeech js ai w env callSid speechResult).2 = some twiml →
      ∀ v ∈ sayVoices twiml, v = (w.store.getCallVoice callSid).voice) ∧
    ((∀ record, w.store.callVoices.get callSid = some record → record ∈ assignableVoices) →
      (postHandleSpeech js ai w env callSid speechResult).2.isSome = true) ∧
    (analyzeIntent js (speechResult.getD []) ≠ "farewells" →
      (postHandleSpeech js ai w env callSid speechResult).1.store.callVoices =
        w.store.callVoices) ∧
    (analyzeIntent js (speechResult.getD []) = "farewells" →
      (postHandleSpeech js ai w env callSid speechResult).1.store.callVoices =
        w.store.callVoices.delete callSid) := by
  have hvoice : ∀ s : ConversationService,
      (s.incrementCallCount callSid).1.getCallVoice callSid = s.getCallVoice callSid :=
    fun s => rfl
  have hvalid : (∀ record, w.store.callVoices.get callSid = some record →
        record ∈ assignableVoices) →
      (w.store.getCallVoice callSid).voice ∈ voiceProfiles.map (fun e => e.2.voice) := by
    intro h
    unfold ConversationService.getCallVoice
    cases hg : w.store.callVoices.get callSid with
    | none => decide
    | some record =>
      exact (show ∀ r ∈ assignableVoices, r.voice ∈ voiceProfiles.map (fun e => e.2.voice) by
        decide) record (h record hg)
  refine ⟨?_, ?_, ?_, ?_⟩
  · intro twiml htw v hv
    unfold postHandleSpeech at htw
    revert htw
    lift_lets
    extract_lets speech stored fresh store conversation callVoice mood timeModifier generated
      interrupt interruption interrupted response store2 conversation2 intent k hold music
      holdVerbs k2 voiceStyle followUp
    have hcv : callVoice = w.store.getCallVoice callSid := rfl
    have hh : ∀ x ∈ sayVoices holdVerbs, x = callVoice.voice := by
      intro x hx
      simp only [holdVerbs] at hx
      split_ifs at hx
      · simp only [sayVoices, nounVoices, addSay, Option.getD_some, List.append_nil,
          List.singleton_append, List.nil_append, List.mem_cons, List.mem_singleton,
          List.not_mem_nil, or_false, or_self] at hx
        exact hx
      · simp [sayVoices] at hx
    have hf : ∀ x ∈ nounVoices followUp, x = callVoice.voice := by
      intro x hx
      simp only [followUp] at hx
      split_ifs at hx
      · simpa [nounVoices, addSay] using hx
      · simp [nounVoices] at hx
    have happ : ∀ a b : List Verb, sayVoices (a ++ b) = sayVoices a ++ sayVoices b := by
      intro a b
      induction a with
      | nil => rfl
      | cons x a ih => cases x <;> simp [sayVoices, ih]
    clear_value callVoice store2 conversation2 intent interrupted response holdVerbs followUp
      voiceStyle
    intro htw
    split_ifs at htw with hfar
    · split at htw
      · simp at htw
      · simp only [Option.some.injEq] at htw
        subst htw
        simpa [sayVoices, nounVoices, addSay, hcv] using hv
    · split at htw
      · simp at htw
      · simp only [Option.some.injEq] at htw
        subst htw
        rw [happ, List.mem_append] at hv
        rcases hv with hv | hv
        · exact hcv ▸ hh v hv
        · simp only [sayVoices, nounVoices, addSay, Option.getD_some, List.append_nil,
            List.mem_cons] at hv
          rcases hv with hv | hv
          · exact hcv ▸ hv
          · exact hcv ▸ hf v hv
  · intro hrec
    have hv := hvalid hrec
    unfold postHandleSpeech
    lift_lets
    extract_lets speech stored fresh store conversation callVoice mood timeModifier generated
      interrupt interruption interrupted response store2 conversation2 intent k hold music
      holdVerbs k2 voiceStyle followUp
    have hcv : callVoice = w.store.getCallVoice callSid := rfl
    obtain ⟨t, _, ht⟩ := getResponseByIntent_farewells env.rand interrupted.2
    have he := enhanceVoiceResponse_isSome js response voiceStyle callVoice.voice
      (decide (conversation2.callCount > 3)) (hcv ▸ hv)
    clear_value callVoice store2 conversation2 intent interrupted response holdVerbs followUp
      voiceStyle
    split_ifs with hfar
    · split
      · rename_i hnone
        rw [ht] at hnone
        cases hnone
      · rfl
    · split
      · rename_i hnone
        rw [hnone] at he
        cases he
      · rfl
  · intro hfar
    obtain ⟨response, hr⟩ := postHandleSpeech_store js ai w env callSid speechResult hfar
    rw [hr]
    rfl
  · intro hfar
    unfold postHandleSpeech
    lift_lets
    extract_lets speech stored fresh store conversation callVoice mood timeModifier generated
      interrupt interruption interrupted response store2 conversation2 intent k hold music
      holdVerbs k2 voiceStyle followUp
    obtain ⟨t, _, ht⟩ := getResponseByIntent_farewells env.rand interrupted.2
    have hs : store2.callVoices = w.store.callVoices := rfl
    have hi : intent = "farewells" := hfar
    clear_value callVoice store2 conversation2 intent interrupted response holdVerbs followUp
      voiceStyle
    rw [if_pos hi]
    split
    · rename_i hnone
      rw [ht] at hnone
      cases hnone
    · simp [Server.cleanupCall, ConversationService.deleteCallVoice,
        ConversationService.deleteConversation, hs]

theorem handle_speech_voice_witness :
    (∀ twiml, (postHandleSpeech asciiBuiltins ⟨none⟩
        (postIncomingCall asciiBuiltins Server.init ⟨0, 9, 0, fun _ => 0⟩ "CA1" none).1
        ⟨1000, 9, 0, fun _ => 0⟩ "CA1" (some "what are your hours".toList)).2 = some twiml →
      ∀ v ∈ sayVoices twiml, v = "Polly.Brian-Neural") ∧
    (postHandleSpeech asciiBuiltins ⟨none⟩
        (postIncomingCall asciiBuiltins Server.init ⟨0, 9, 0, fun _ => 0⟩ "CA1" none).1
        ⟨1000, 9, 0, fun _ => 0⟩ "CA1" (some "what are your hours".toList)).2.isSome = true :=
  ⟨(handle_speech_voice asciiBuiltins ⟨none⟩
      (postIncomingCall asciiBuiltins Server.init ⟨0, 9, 0, fun _ => 0⟩ "CA1" none).1
      ⟨1000, 9, 0, fun _ => 0⟩ "CA1" (some "what are your hours".toList)).1,
   (handle_speech_voice asciiBuiltins ⟨none⟩
      (postIncomingCall asciiBuiltins Server.init ⟨0, 9, 0, fun _ => 0⟩ "CA1" none).1
      ⟨1000, 9, 0, fun _ => 0⟩ "CA1" (some "what are your hours".toList)).2.1 (by decide)⟩

/-! ## Scanning with a global regular expression -/

theorem scanFrom_skip {α : Type} (m : Text → Option (α × Nat)) (xs rest : Text) :
    scanFrom m xs.length (xs ++ rest) = scanFrom m 0 rest := by
  induction xs with
  | nil => rfl
  | cons x xs ih => simpa [scanFrom] using ih

theorem scanFrom_lit {α : Type} (m : Text → Option (α × Nat)) (c : Char) (tail : Text)
    (h : m (c :: tail) = none) : scanFrom m 0 (c :: tail) = Piece.lit c :: scanFrom m 0 tail := by
  simp [scanFrom, h]

theorem scanFrom_lits {α : Type} (m : Text → Option (α × Nat)) (t rest : Text)
    (h : ∀ c ∈ t, ∀ tail, m (c :: tail) = none) :
    scanFrom m 0 (t ++ rest) = t.map Piece.lit ++ scanFrom m 0 rest := by
  induction t with
  | nil => rfl
  | cons c t ih =>
    rw [List.cons_append, scanFrom_lit m c _ (h c (List.mem_cons_self _ _) _),
      ih (fun c hc => h c (List.mem_cons_of_mem _ hc))]
    rfl

theorem scanFrom_hit {α : Type} (m : Text → Option (α × Nat)) (c : Char) (xs rest : Text) (a : α)
    (h : m (c :: (xs ++ rest)) = some (a, xs.length + 1)) :
    scanFrom m 0 (c :: (xs ++ rest)) = Piece.hit a :: scanFrom m 0 rest := by
  simp [scanFrom, h, scanFrom_skip]

theorem substituteVariables_lits (rand : Rng) (k : Nat) (t : Text) (ps : List (Piece Text)) :
    substituteVariables rand k (t.map Piece.lit ++ ps) =
      (t ++ (substituteVariables rand k ps).1, (substituteVariables rand k ps).2) := by
  induction t with
  | nil => rfl
  | cons c t ih => simp [substituteVariables, ih]

theorem extractSoundEffects_lits (t : Text) (ps : List (Piece Text)) :
    extractSoundEffects (t.map Piece.lit ++ ps) =
      (t ++ (extractSoundEffects ps).1, (extractSoundEffects ps).2) := by
  induction t with
  | nil => rfl
  | cons c t ih => simp [extractSoundEffects, ih]

/-! ## The two expressions of `processTemplate` on the segments of a template -/

theorem isWordChar_brace : isWordChar '}' = false := by decide

theorem matchVariable_of_ne (c : Char) (tail : Text) (h : c ≠ '{') :
    matchVariable (c :: tail) = none := by
  simp [matchVariable, h]

theorem matchVariable_placeholder (name rest : Text) (h0 : name ≠ [])
    (hw : ∀ c ∈ name, isWordChar c = true) :
    matchVariable ('{' :: (name ++ '}' :: rest)) = some (name, name.length + 2) := by
  have h1 : (name ++ '}' :: rest).takeWhile isWordChar = name := by
    rw [List.takeWhile_append_of_pos hw]
    simp [List.takeWhile, isWordChar_brace]
  have h2 : (name ++ '}' :: rest).dropWhile isWordChar = '}' :: rest := by
    rw [List.dropWhile_append_of_pos hw]
    simp [List.dropWhile, isWordChar_brace]
  simp [matchVariable, h1, h2, h0]

theorem matchVariable_marker (x : Text) :
    matchVariable ("\x7bsoundEffect:".toList ++ x) = none := by
  have h1 : ("soundEffect:".toList ++ x).dropWhile isWordChar = ':' :: x := by
    have : "soundEffect:".toList = "soundEffect".toList ++ [':'] := by decide
    rw [this, List.append_assoc, List.dropWhile_append_of_pos (by decide)]
    simp [List.dropWhile, show isWordChar ':' = false by decide]
  have h2 : "\x7bsoundEffect:".toList ++ x = '{' :: ("soundEffect:".toList ++ x) := by
    have : "\x7bsoundEffect:".toList = '{' :: "soundEffect:".toList := by decide
    rw [this]; rfl
  rw [h2]
  simp only [matchVariable, h1]
  rw [if_neg]
  rintro ⟨_, _, h⟩
  simp at h

theorem matchSoundEffect_of_ne (c : Char) (tail : Text) (h : c ≠ '{') :
    matchSoundEffect (c :: tail) = none := by
  have : ("\x7bsoundEffect:".toList).isPrefixOf (c :: tail) = false := by
    have h0 : "\x7bsoundEffect:".toList = '{' :: "soundEffect:".toList := by decide
    rw [h0]
    simp [List.isPrefixOf, Ne.symm h]
  unfold matchSoundEffect
  rw [if_neg (by rw [this]; simp)]

theorem matchSoundEffect_placeholder (name rest : Text) (hw : ∀ c ∈ name, isWordChar c = true) :
    matchSoundEffect ('{' :: (name ++ '}' :: rest)) = none := by
  have : ("\x7bsoundEffect:".toList).isPrefixOf ('{' :: (name ++ '}' :: rest)) = false := by
    rw [Bool.eq_false_iff]
    intro hp
    obtain ⟨t, ht⟩ := (isPrefixOf_iff_append _ _).1 hp
    have h0 : "\x7bsoundEffect:".toList = '{' :: ("soundEffect".toList ++ [':']) := by decide
    rw [h0] at ht
    simp only [List.cons_append, List.cons.injEq, true_and, List.append_assoc] at ht
    have h1 := congrArg (List.dropWhile isWordChar) ht
    rw [List.dropWhile_append_of_pos hw, List.dropWhile_append_of_pos (by decide)] at h1
    simp [List.dropWhile, isWordChar_brace, show isWordChar ':' = false by decide] at h1
  unfold matchSoundEffect
  rw [if_neg (by rw [this]; simp)]

theorem matchSoundEffect_marker (effect rest : Text) (h0 : effect ≠ [])
    (hw : ∀ c ∈ effect, isWordChar c = true) :
    matchSoundEffect ("\x7bsoundEffect:".toList ++ (effect ++ '}' :: rest)) =
      some (effect, effect.length + 14) := by
  have hp : ("\x7bsoundEffect:".toList).isPrefixOf
      ("\x7bsoundEffect:".toList ++ (effect ++ '}' :: rest)) = true :=
    (isPrefixOf_iff_append _ _).2 ⟨_, rfl⟩
  have hd : ("\x7bsoundEffect:".toList ++ (effect ++ '}' :: rest)).drop 13 =
      effect ++ '}' :: rest := by
    have : (13 : Nat) = ("\x7bsoundEffect:".toList).length := by decide
    rw [this, List.drop_left]
  have h1 : (effect ++ '}' :: rest).takeWhile isWordChar = effect := by
    rw [List.takeWhile_append_of_pos hw]
    simp [List.takeWhile, isWordChar_brace]
  have h2 : (effect ++ '}' :: rest).dropWhile isWordChar = '}' :: rest := by
    rw [List.dropWhile_append_of_pos hw]
    simp [List.dropWhile, isWordChar_brace]
  unfold matchSoundEffect
  rw [if_pos hp]
  simp only [hd, h1, h2, List.head?_cons]
  simp [h0]

theorem wellFormed_text {t : Text} (h : (Segment.text t).wellFormed = true) :
    ∀ c ∈ t, c ≠ '{' ∧ c ≠ '}' := by
  intro c hc
  have := List.all_eq_true.1 h c hc
  simpa using this

theorem wellFormed_placeholder {name : Text} (h : (Segment.placeholder name).wellFormed = true) :
    name ≠ [] ∧ ∀ c ∈ name, isWordChar c = true := by
  simp only [Segment.wellFormed, Bool.and_eq_true, Bool.not_eq_true', List.isEmpty_eq_false,
    List.all_eq_true] at h
  exact h

theorem wellFormed_marker {effect : Text} (h : (Segment.marker effect).wellFormed = true) :
    effect ≠ [] ∧ ∀ c ∈ effect, isWordChar c = true := by
  simp only [Segment.wellFormed, Bool.and_eq_true, Bool.not_eq_true', List.isEmpty_eq_false,
    List.all_eq_true] at h
  exact h

theorem ne_brace_of_isWordChar {c : Char} (h : isWordChar c = true) : c ≠ '{' ∧ c ≠ '}' := by
  constructor <;> rintro rfl <;> exact absurd h (by decide)

theorem scan_variable_marker (effect rest : Text) (hw : ∀ c ∈ effect, isWordChar c = true) :
    scanFrom matchVariable 0 ((Segment.marker effect).render ++ rest) =
      (Segment.marker effect).render.map Piece.lit ++ scanFrom matchVariable 0 rest := by
  have h0 : (Segment.marker effect).render ++ rest =
      '{' :: (("soundEffect:".toList ++ (effect ++ ['}'])) ++ rest) := by
    simp [Segment.render]
  have h1 : (Segment.marker effect).render =
      '{' :: ("soundEffect:".toList ++ (effect ++ ['}'])) := by
    simp [Segment.render]
  have hm : matchVariable ('{' :: (("soundEffect:".toList ++ (effect ++ ['}'])) ++ rest)) = none := by
    have := matchVariable_marker ((effect ++ ['}']) ++ rest)
    simpa using this
  rw [h0, scanFrom_lit _ _ _ hm, scanFrom_lits, h1]
  · rfl
  · intro c hc tail
    apply matchVariable_of_ne
    rcases List.mem_append.1 hc with hc | hc
    · exact (show ∀ x ∈ "soundEffect:".toList, x ≠ '{' by decide) c hc
    · rcases List.mem_append.1 hc with hc | hc
      · exact (ne_brace_of_isWordChar (hw c hc)).1
      · simp only [List.mem_singleton] at hc
        subst hc; decide

/-- The placeholder pass of `processTemplate` on a well-formed template. -/
theorem substitute_render (rand : Rng) (segs : List Segment)
    (h : ∀ s ∈ segs, s.wellFormed = true) (k : Nat) :
    substituteVariables rand k (scan matchVariable (renderTemplate segs)) =
      (renderTemplate (resolveSegments rand k segs).1, (resolveSegments rand k segs).2) := by
  induction segs generalizing k with
  | nil => rfl
  | cons s rest ih =>
    have ih := ih (fun x hx => h x (List.mem_cons_of_mem _ hx))
    have hs := h s (List.mem_cons_self _ _)
    unfold scan at ih ⊢
    cases s with
    | text t =>
      have ht := wellFormed_text hs
      simp only [renderTemplate, Segment.render]
      rw [scanFrom_lits _ _ _ (fun c hc tail => matchVariable_of_ne c tail (ht c hc).1),
        substituteVariables_lits, ih]
      simp [resolveSegments, renderTemplate, Segment.render]
    | placeholder name =>
      obtain ⟨h0, hw⟩ := wellFormed_placeholder hs
      have hr : renderTemplate (Segment.placeholder name :: rest) =
          '{' :: ((name ++ ['}']) ++ renderTemplate rest) := by
        simp [renderTemplate, Segment.render]
      have hm : matchVariable ('{' :: ((name ++ ['}']) ++ renderTemplate rest)) =
          some (name, (name ++ ['}']).length + 1) := by
        have := matchVariable_placeholder name (renderTemplate rest) h0 hw
        simpa using this
      rw [hr, scanFrom_hit _ _ _ _ _ hm]
      cases hp : property dynamicVariables name with
      | own options =>
        simp [substituteVariables, resolveSegments, hp, ih, renderTemplate, Segment.render]
      | inherited =>
        simp [substituteVariables, resolveSegments, hp, ih, renderTemplate, Segment.render]
      | undefined =>
        simp [substituteVariables, resolveSegments, hp, ih, renderTemplate, Segment.render]
    | marker effect =>
      obtain ⟨_, hw⟩ := wellFormed_marker hs
      simp only [renderTemplate]
      rw [scan_variable_marker effect _ hw, substituteVariables_lits, ih]
      simp [resolveSegments, renderTemplate]

/-- The sound-effect pass of `processTemplate` on a well-formed text. -/
theorem extract_render (segs : List Segment) (h : ∀ s ∈ segs, s.wellFormed = true) :
    extractSoundEffects (scan matchSoundEffect (renderTemplate segs)) =
      (stripMarkers segs, markerEffects segs) := by
  induction segs with
  | nil => rfl
  | cons s rest ih =>
    have ih := ih (fun x hx => h x (List.mem_cons_of_mem _ hx))
    have hs := h s (List.mem_cons_self _ _)
    unfold scan at ih ⊢
    cases s with
    | text t =>
      have ht := wellFormed_text hs
      simp only [renderTemplate, Segment.render]
      rw [scanFrom_lits _ _ _ (fun c hc tail => matchSoundEffect_of_ne c tail (ht c hc).1),
        extractSoundEffects_lits, ih]
      simp [stripMarkers, markerEffects, Segment.render]
    | placeholder name =>
      obtain ⟨h0, hw⟩ := wellFormed_placeholder hs
      have hr : renderTemplate (Segment.placeholder name :: rest) =
          '{' :: ((name ++ ['}']) ++ renderTemplate rest) := by
        simp [renderTemplate, Segment.render]
      have hm : matchSoundEffect ('{' :: ((name ++ ['}']) ++ renderTemplate rest)) = none := by
        have := matchSoundEffect_placeholder name (renderTemplate rest) hw
        simpa using this
      rw [hr, scanFrom_lit _ _ _ hm, scanFrom_lits, extractSoundEffects, extractSoundEffects_lits,
        ih]
      · simp [stripMarkers, markerEffects, Segment.render]
      · intro c hc tail
        apply matchSoundEffect_of_ne
        rcases List.mem_append.1 hc with hc | hc
        · exact (ne_brace_of_isWordChar (hw c hc)).1
        · simp only [List.mem_singleton] at hc
          subst hc; decide
    | marker effect =>
      obtain ⟨h0, hw⟩ := wellFormed_marker hs
      have hr : renderTemplate (Segment.marker effect :: rest) =
          '{' :: (("soundEffect:".toList ++ (effect ++ ['}'])) ++ renderTemplate rest) := by
        simp [renderTemplate, Segment.render]
      have hm : matchSoundEffect
          ('{' :: (("soundEffect:".toList ++ (effect ++ ['}'])) ++ renderTemplate rest)) =
          some (effect, ("soundEffect:".toList ++ (effect ++ ['}'])).length + 1) := by
        have := matchSoundEffect_marker effect (renderTemplate rest) h0 hw
        simpa using this
      rw [hr, scanFrom_hit _ _ _ _ _ hm, extractSoundEffects, ih]
      simp [stripMarkers, markerEffects]

theorem lookup_mem {V : Type} (obj : List (Text × V)) (name : Text) (v : V)
    (h : obj.lookup name = some v) : (name, v) ∈ obj := by
  induction obj with
  | nil => simp at h
  | cons e rest ih =>
    obtain ⟨n, w⟩ := e
    by_cases hn : name = n
    · subst hn
      simp only [List.lookup_cons, beq_self_eq_true, Option.some.injEq] at h
      subst h
      exact List.mem_cons_self _ _
    · have hb : (name == n) = false := by simpa using hn
      simp only [List.lookup_cons, hb] at h
      exact List.mem_cons_of_mem _ (ih h)

theorem property_own {V : Type} (obj : List (Text × V)) (name : Text) (v : V) :
    property obj name = Property.own v ↔ obj.lookup name = some v := by
  unfold property
  cases h : obj.lookup name with
  | none => simp only []; split_ifs <;> simp
  | some x => simp

theorem property_undefined {V : Type} (obj : List (Text × V)) (name : Text)
    (h : property obj name = Property.undefined) : obj.lookup name = none := by
  unfold property at h
  cases hl : obj.lookup name with
  | none => rfl
  | some x => rw [hl] at h; cases h

theorem pool_phrase_wellFormed (name : Text) (options : List Text) (i : Nat)
    (h : property dynamicVariables name = Property.own options) :
    (Segment.text ((options.get? i).getD "undefined".toList)).wellFormed = true := by
  have hm : options ∈ dynamicVariables.map (fun e => e.2) :=
    List.mem_map.2 ⟨(name, options), lookup_mem _ _ _ ((property_own _ _ _).1 h), rfl⟩
  have hall : ∀ o ∈ dynamicVariables.map (fun e => e.2), ∀ v ∈ o,
      (Segment.text v).wellFormed = true := by decide
  cases hg : options.get? i with
  | none => decide
  | some v => exact hall options hm v (List.get?_mem hg)

theorem resolveSegments_wellFormed (rand : Rng) (segs : List Segment)
    (h : ∀ s ∈ segs, s.wellFormed = true) (k : Nat) :
    ∀ s ∈ (resolveSegments rand k segs).1, s.wellFormed = true := by
  induction segs generalizing k with
  | nil => intro s hs; cases hs
  | cons x rest ih =>
    have ih := fun k => ih (fun y hy => h y (List.mem_cons_of_mem _ hy)) k
    have hx := h x (List.mem_cons_self _ _)
    cases x with
    | text t =>
      intro s hs
      simp only [resolveSegments, List.mem_cons] at hs
      rcases hs with rfl | hs
      · exact hx
      · exact ih k s hs
    | marker e =>
      intro s hs
      simp only [resolveSegments, List.mem_cons] at hs
      rcases hs with rfl | hs
      · exact hx
      · exact ih k s hs
    | placeholder name =>
      intro s hs
      cases hp : property dynamicVariables name with
      | own options =>
        simp only [resolveSegments, hp, List.mem_cons] at hs
        rcases hs with rfl | hs
        · exact pool_phrase_wellFormed name options _ hp
        · exact ih _ s hs
      | inherited =>
        simp only [resolveSegments, hp, List.mem_cons] at hs
        rcases hs with rfl | hs
        · decide
        · exact ih _ s hs
      | undefined =>
        simp only [resolveSegments, hp, List.mem_cons] at hs
        rcases hs with rfl | hs
        · exact hx
        · exact ih _ s hs

theorem resolveSegments_markerEffects (rand : Rng) (segs : List Segment) (k : Nat) :
    markerEffects (resolveSegments rand k segs).1 = markerEffects segs := by
  induction segs generalizing k with
  | nil => rfl
  | cons x rest ih =>
    cases x with
    | text t => simp [resolveSegments, markerEffects, ih]
    | marker e => simp [resolveSegments, markerEffects, ih]
    | placeholder name =>
      cases hp : property dynamicVariables name <;>
        simp [resolveSegments, hp, markerEffects, ih]

theorem resolveSegments_placeholderNames (rand : Rng) (segs : List Segment) (k : Nat) :
    ∀ name ∈ placeholderNames (resolveSegments rand k segs).1,
      name ∈ placeholderNames segs ∧ dynamicVariables.lookup name = none := by
  induction segs generalizing k with
  | nil => intro n hn; cases hn
  | cons x rest ih =>
    cases x with
    | text t =>
      intro n hn
      simp only [resolveSegments, placeholderNames] at hn ⊢
      exact ih k n hn
    | marker e =>
      intro n hn
      simp only [resolveSegments, placeholderNames] at hn ⊢
      exact ih k n hn
    | placeholder name =>
      intro n hn
      cases hp : property dynamicVariables name with
      | own options =>
        simp only [resolveSegments, hp, placeholderNames] at hn ⊢
        exact ⟨List.mem_cons_of_mem _ (ih _ n hn).1, (ih _ n hn).2⟩
      | inherited =>
        simp only [resolveSegments, hp, placeholderNames] at hn ⊢
        exact ⟨List.mem_cons_of_mem _ (ih _ n hn).1, (ih _ n hn).2⟩
      | undefined =>
        simp only [resolveSegments, hp, placeholderNames, List.mem_cons] at hn ⊢
        rcases hn with rfl | hn
        · exact ⟨Or.inl rfl, property_undefined _ _ hp⟩
        · exact ⟨Or.inr (ih _ n hn).1, (ih _ n hn).2⟩

/-- What `processTemplate` returns for a well-formed template: the markers are taken out
of the template with its placeholders resolved, and their effects are listed in order. -/
theorem processTemplate_render (rand : Rng) (k : Nat) (segs : List Segment)
    (h : ∀ s ∈ segs, s.wellFormed = true) :
    (processTemplate rand k (renderTemplate segs)).1 =
      ⟨trim (stripMarkers (resolveSegments rand k segs).1), markerEffects segs⟩ := by
  unfold processTemplate
  simp only [substitute_render rand segs h k,
    extract_render _ (resolveSegments_wellFormed rand segs h k),
    resolveSegments_markerEffects]

theorem occurs_of_occurs_trim (needle s : Text) (h : Occurs needle (trim s)) : Occurs needle s := by
  obtain ⟨b, a, hba⟩ := h
  obtain ⟨t1, ht1⟩ := List.dropWhile_suffix (l := s) isWhiteSpace
  obtain ⟨t2, ht2⟩ := ( List.rdropWhile_prefix isWhiteSpace (s.dropWhile isWhiteSpace))
  refine ⟨t1 ++ b, a ++ t2, ?_⟩
  unfold trim at hba
  rw [← ht1, ← ht2, hba]
  simp

theorem mem_of_mem_trim (c : Char) (s : Text) (h : c ∈ trim s) : c ∈ s := by
  obtain ⟨t1, ht1⟩ := List.dropWhile_suffix (l := s) isWhiteSpace
  obtain ⟨t2, ht2⟩ := ( List.rdropWhile_prefix isWhiteSpace (s.dropWhile isWhiteSpace))
  unfold trim at h
  rw [← ht1, ← ht2]
  simp [h]

theorem bracesClosed_append_of_ne (t x : Text) (h : ∀ c ∈ t, c ≠ '{') :
    bracesClosed (t ++ x) = bracesClosed x := by
  induction t with
  | nil => rfl
  | cons c t ih =>
    have hc := h c (List.mem_cons_self _ _)
    simp [bracesClosed, hc, ih (fun y hy => h y (List.mem_cons_of_mem _ hy))]

theorem bracesClosed_of_append (pre x : Text) (h : bracesClosed (pre ++ x) = true) :
    bracesClosed x = true := by
  induction pre with
  | nil => exact h
  | cons c pre ih =>
    simp only [List.cons_append, bracesClosed, Bool.and_eq_true] at h
    exact ih h.2

theorem bracesClosed_stripMarkers (segs : List Segment) (h : ∀ s ∈ segs, s.wellFormed = true)
    (hp : ∀ name ∈ placeholderNames segs, dynamicVariables.lookup name = none) :
    bracesClosed (stripMarkers segs) = true := by
  induction segs with
  | nil => rfl
  | cons s rest ih =>
    have hs := h s (List.mem_cons_self _ _)
    have hrest := fun hp' => ih (fun x hx => h x (List.mem_cons_of_mem _ hx)) hp'
    cases s with
    | text t =>
      simp only [stripMarkers, Segment.render]
      rw [bracesClosed_append_of_ne _ _ (fun c hc => (wellFormed_text hs c hc).1)]
      exact hrest (fun n hn => hp n (by simpa [placeholderNames] using hn))
    | marker e =>
      simp only [stripMarkers]
      exact hrest (fun n hn => hp n (by simpa [placeholderNames] using hn))
    | placeholder name =>
      obtain ⟨h0, hw⟩ := wellFormed_placeholder hs
      have hn : dynamicVariables.lookup name = none :=
        hp name (by simp [placeholderNames])
      have hr : stripMarkers (Segment.placeholder name :: rest) =
          '{' :: ((name ++ ['}']) ++ stripMarkers rest) := by
        simp [stripMarkers, Segment.render]
      have hm : matchVariable ('{' :: ((name ++ ['}']) ++ stripMarkers rest)) =
          some (name, name.length + 2) := by
        have := matchVariable_placeholder name (stripMarkers rest) h0 hw
        simpa using this
      have htail : bracesClosed ((name ++ ['}']) ++ stripMarkers rest) = true := by
        rw [bracesClosed_append_of_ne]
        · exact hrest (fun n hn => hp n (by simp [placeholderNames, hn]))
        · intro c hc
          rcases List.mem_append.1 hc with hc | hc
          · exact (ne_brace_of_isWordChar (hw c hc)).1
          · simp only [List.mem_singleton] at hc
            subst hc; decide
      rw [hr, bracesClosed, hm, htail]
      simp [hn]

theorem variable_names_wellFormed :
    ∀ name ∈ dynamicVariables.map (fun e => e.1),
      (Segment.placeholder name).wellFormed = true ∧ (dynamicVariables.lookup name).isSome = true := by
  decide

theorem no_token_of_bracesClosed (s name : Text) (h : bracesClosed s = true)
    (hn : name ∈ dynamicVariables.map (fun e => e.1)) : ¬ Occurs ('{' :: name ++ ['}']) s := by
  rintro ⟨pre, post, rfl⟩
  obtain ⟨hwf, hsome⟩ := variable_names_wellFormed name hn
  obtain ⟨h0, hw⟩ := wellFormed_placeholder hwf
  rw [List.append_assoc] at h
  have h1 := bracesClosed_of_append _ _ h
  have hm : matchVariable (('{' :: name ++ ['}']) ++ post) = some (name, name.length + 2) := by
    have := matchVariable_placeholder name post h0 hw
    simpa using this
  have heq : ('{' :: name ++ ['}']) ++ post = '{' :: ((name ++ ['}']) ++ post) := by simp
  rw [heq] at h1 hm
  rw [bracesClosed, hm] at h1
  simp only [bne_self_eq_false, Bool.false_or, Option.any_some, Bool.and_eq_true] at h1
  rw [Option.isSome_iff_exists] at hsome
  obtain ⟨v, hv⟩ := hsome
  rw [hv] at h1
  simp at h1

theorem no_marker_of_bracesClosed (s effect : Text) (h : bracesClosed s = true) :
    ¬ Occurs ("\x7bsoundEffect:".toList ++ effect ++ ['}']) s := by
  rintro ⟨pre, post, rfl⟩
  rw [List.append_assoc] at h
  have h1 := bracesClosed_of_append _ _ h
  have hm := matchVariable_marker ((effect ++ ['}']) ++ post)
  have heq : "\x7bsoundEffect:".toList ++ effect ++ ['}'] ++ post =
      '{' :: ("soundEffect:".toList ++ ((effect ++ ['}']) ++ post)) := by
    simp
  have heq2 : "\x7bsoundEffect:".toList ++ ((effect ++ ['}']) ++ post) =
      '{' :: ("soundEffect:".toList ++ ((effect ++ ['}']) ++ post)) := by
    simp
  rw [heq] at h1
  rw [heq2] at hm
  rw [bracesClosed, hm] at h1
  simp at h1

theorem processTemplate_bracesClosed (rand : Rng) (k : Nat) (segs : List Segment)
    (h : ∀ s ∈ segs, s.wellFormed = true) :
    bracesClosed (stripMarkers (resolveSegments rand k segs).1) = true :=
  bracesClosed_stripMarkers _ (resolveSegments_wellFormed rand segs h k)
    (fun name hn => (resolveSegments_placeholderNames rand segs k name hn).2)

theorem substituted_nil (rand : Rng) (k : Nat) : substituted rand k [] = ([], k) := rfl

theorem substituted_lit (rand : Rng) (k : Nat) (c : Char) (tail : Text)
    (h : matchVariable (c :: tail) = none) :
    substituted rand k (c :: tail) =
      (c :: (substituted rand k tail).1, (substituted rand k tail).2) := by
  unfold substituted scan
  rw [scanFrom_lit _ _ _ h]
  rfl

theorem substituted_word (rand : Rng) (k : Nat) (n d : Text)
    (hw : ∀ c ∈ n, isWordChar c = true) :
    substituted rand k (n ++ d) = (n ++ (substituted rand k d).1, (substituted rand k d).2) := by
  unfold substituted scan
  rw [scanFrom_lits _ _ _
    (fun c hc tail => matchVariable_of_ne c tail (ne_brace_of_isWordChar (hw c hc)).1),
    substituteVariables_lits]

theorem matchVariable_eq_some (c : Char) (tail name : Text) (len : Nat)
    (h : matchVariable (c :: tail) = some (name, len)) :
    c = '{' ∧ name ≠ [] ∧ (∀ x ∈ name, isWordChar x = true) ∧
      ∃ rest, tail = name ++ '}' :: rest := by
  simp only [matchVariable] at h
  split_ifs at h with hc
  obtain ⟨rfl, hne, hhead⟩ := hc
  simp only [Option.some.injEq, Prod.mk.injEq] at h
  obtain ⟨rfl, _⟩ := h
  refine ⟨rfl, hne, fun x hx => List.mem_takeWhile_imp hx, ?_⟩
  cases hd : tail.dropWhile isWordChar with
  | nil => rw [hd] at hhead; cases hhead
  | cons y rest =>
    rw [hd] at hhead
    simp only [List.head?_cons, Option.some.injEq] at hhead
    subst hhead
    exact ⟨rest, by rw [← hd, List.takeWhile_append_dropWhile]⟩

theorem substituted_hit (rand : Rng) (k : Nat) (name rest : Text) (h0 : name ≠ [])
    (hw : ∀ c ∈ name, isWordChar c = true) :
    substituted rand k ('{' :: (name ++ '}' :: rest)) =
      substituteVariables rand k (Piece.hit name :: scan matchVariable rest) := by
  unfold substituted scan
  have hm : matchVariable ('{' :: ((name ++ ['}']) ++ rest)) =
      some (name, (name ++ ['}']).length + 1) := by
    have := matchVariable_placeholder name rest h0 hw
    simpa using this
  have := scanFrom_hit matchVariable '{' (name ++ ['}']) rest name hm
  simp only [List.append_assoc, List.singleton_append] at this
  rw [this]

theorem tokenFree_append_of_ne (t x : Text) (h : ∀ c ∈ t, c ≠ '{') :
    tokenFree (t ++ x) = tokenFree x := by
  induction t with
  | nil => rfl
  | cons c t ih =>
    have hc := h c (List.mem_cons_self _ _)
    simp [tokenFree, matchVariable_of_ne c _ hc, ih (fun y hy => h y (List.mem_cons_of_mem _ hy))]

theorem tokenFree_of_append (pre x : Text) (h : tokenFree (pre ++ x) = true) :
    tokenFree x = true := by
  induction pre with
  | nil => exact h
  | cons c pre ih =>
    simp only [List.cons_append, tokenFree, Bool.and_eq_true] at h
    exact ih h.2

theorem matchVariable_word_append (n X : Text) (hw : ∀ c ∈ n, isWordChar c = true) :
    (matchVariable ('{' :: (n ++ X))).all (fun m => (dynamicVariables.lookup m.1).isNone) =
      !closesToken n X := by
  simp only [matchVariable, List.takeWhile_append_of_pos hw, List.dropWhile_append_of_pos hw,
    closesToken]
  split_ifs with h
  · obtain ⟨_, h1, h2⟩ := h
    simp [h1, h2]
  · simp only [true_and, not_and] at h
    by_cases h1 : n ++ List.takeWhile isWordChar X = []
    · simp [h1]
    · simp [h1, h h1]

theorem closesToken_nil (n : Text) : closesToken n [] = false := by
  simp [closesToken]

theorem closesToken_cons_of_not_word (n : Text) (x : Char) (Z : Text)
    (hx : isWordChar x = false) (h : x = '}' → n = []) : closesToken n (x :: Z) = false := by
  simp only [closesToken, List.takeWhile_cons, hx, List.dropWhile_cons]
  by_cases hb : x = '}'
  · simp [h hb]
  · simp [hb]

theorem closesToken_of_phraseSafe (v : Text) (h : phraseSafe v = true) (n Y : Text) :
    closesToken n (v ++ Y) = false := by
  simp only [phraseSafe, Bool.and_eq_true] at h
  obtain ⟨_, h⟩ := h
  by_cases hall : v.all isWordChar = true
  · rw [if_pos hall] at h
    have hw : ∀ c ∈ v, isWordChar c = true := List.all_eq_true.1 hall
    simp only [closesToken, List.takeWhile_append_of_pos hw]
    cases hl : dynamicVariables.lookup (n ++ (v ++ List.takeWhile isWordChar Y)) with
    | none => simp
    | some pool =>
      exfalso
      have hmem := lookup_mem _ _ _ hl
      have hinc := List.all_eq_true.1 h _ hmem
      have hocc : includes (n ++ (v ++ List.takeWhile isWordChar Y)) v = true :=
        (includes_iff_occurs _ _).2 ⟨n, List.takeWhile isWordChar Y, by simp⟩
      simp [hocc] at hinc
  · rw [if_neg hall] at h
    have hne : v.dropWhile isWordChar ≠ [] := by
      intro hnil
      exact hall (List.all_eq_true.2 (List.dropWhile_eq_nil_iff.1 hnil))
    have hd : (v ++ Y).dropWhile isWordChar = v.dropWhile isWordChar ++ Y := by
      rw [List.dropWhile_append]
      simp [hne]
    have hh : (v.dropWhile isWordChar ++ Y).head? = (v.dropWhile isWordChar).head? := by
      cases hd' : v.dropWhile isWordChar with
      | nil => exact absurd hd' hne
      | cons y r => rfl
    simp only [closesToken, hd, hh]
    simp only [bne_iff_ne, ne_eq] at h
    simp [h]

theorem phrases_safe :
    (∀ e ∈ dynamicVariables, ∀ v ∈ e.2, phraseSafe v = true) ∧
      phraseSafe "undefined".toList = true := by
  set_option maxRecDepth 1000000 in decide

theorem phraseSafe_pick (name : Text) (options : List Text) (i : Nat)
    (h : property dynamicVariables name = Property.own options) :
    phraseSafe ((options.get? i).getD "undefined".toList) = true := by
  have hm := lookup_mem _ _ _ ((property_own _ _ _).1 h)
  cases hg : options.get? i with
  | none => exact phrases_safe.2
  | some v => exact phrases_safe.1 _ hm v (List.get?_mem hg)

theorem ne_brace_of_phraseSafe (v : Text) (h : phraseSafe v = true) : ∀ c ∈ v, c ≠ '{' := by
  simp only [phraseSafe, Bool.and_eq_true, List.all_eq_true, bne_iff_ne, ne_eq] at h
  exact h.1

theorem closesToken_substituted (rand : Rng) (k : Nat) (n d : Text)
    (hd : ∀ x, d.head? = some x → isWordChar x = false) (hn : d.head? = some '}' → n = []) :
    closesToken n (substituted rand k d).1 = false := by
  cases d with
  | nil => rw [substituted_nil]; exact closesToken_nil n
  | cons x d' =>
    have hx : isWordChar x = false := hd x rfl
    cases hm : matchVariable (x :: d') with
    | none =>
      rw [substituted_lit _ _ _ _ hm]
      exact closesToken_cons_of_not_word n x _ hx (fun hb => hn (by simp [hb]))
    | some m =>
      obtain ⟨name, len⟩ := m
      obtain ⟨rfl, h0, hw, rest, rfl⟩ := matchVariable_eq_some _ _ _ _ hm
      rw [substituted_hit rand k name rest h0 hw]
      cases hp : property dynamicVariables name with
      | own options =>
        simp only [substituteVariables, hp]
        exact closesToken_of_phraseSafe _ (phraseSafe_pick name options _ hp) n _
      | inherited =>
        simp only [substituteVariables, hp]
        exact closesToken_of_phraseSafe _ phrases_safe.2 n _
      | undefined =>
        simp only [substituteVariables, hp, List.cons_append]
        exact closesToken_cons_of_not_word n '{' _ (by decide)
          (fun hb => absurd hb (by decide))

theorem tokenFree_substituted_aux (rand : Rng) (n : Nat) :
    ∀ s : Text, s.length ≤ n → ∀ k, tokenFree (substituted rand k s).1 = true := by
  induction n with
  | zero =>
    intro s hs k
    have : s = [] := List.length_eq_zero.1 (by omega)
    subst this; rfl
  | succ n ih =>
    intro s hs k
    cases s with
    | nil => rfl
    | cons c tail =>
      have ht : tail.length ≤ n := by simpa using hs
      cases hm : matchVariable (c :: tail) with
      | none =>
        rw [substituted_lit _ _ _ _ hm]
        simp only [tokenFree, Bool.and_eq_true]
        refine ⟨?_, ih tail ht k⟩
        by_cases hc : c = '{'
        · subst hc
          have hsplit : tail = tail.takeWhile isWordChar ++ tail.dropWhile isWordChar :=
            (List.takeWhile_append_dropWhile _ _).symm
          have hw : ∀ x ∈ tail.takeWhile isWordChar, isWordChar x = true :=
            fun x hx => List.mem_takeWhile_imp hx
          have hsub := substituted_word rand k _ (tail.dropWhile isWordChar) hw
          rw [← hsplit] at hsub
          rw [hsub, matchVariable_word_append _ _ hw]
          rw [closesToken_substituted]
          · rfl
          · intro x hx
            have := List.head?_dropWhile_not isWordChar tail
            rw [hx] at this
            exact this
          · intro hh
            by_contra hne
            simp only [matchVariable, true_and] at hm
            rw [if_pos ⟨hne, hh⟩] at hm
            cases hm
        · rw [matchVariable_of_ne c _ hc]
          rfl
      | some m =>
        obtain ⟨name, len⟩ := m
        obtain ⟨rfl, h0, hw, rest, rfl⟩ := matchVariable_eq_some _ _ _ _ hm
        have hr : rest.length ≤ n := by
          simp only [List.length_append, List.length_cons] at ht
          omega
        rw [substituted_hit rand k name rest h0 hw]
        cases hp : property dynamicVariables name with
        | own options =>
          simp only [substituteVariables, hp]
          rw [tokenFree_append_of_ne _ _ (ne_brace_of_phraseSafe _ (phraseSafe_pick name options _ hp))]
          exact ih rest hr (k + 1)
        | inherited =>
          simp only [substituteVariables, hp]
          rw [tokenFree_append_of_ne _ _ (ne_brace_of_phraseSafe _ phrases_safe.2)]
          exact ih rest hr (k + 1)
        | undefined =>
          simp only [substituteVariables, hp, List.cons_append]
          have hX := ih rest hr k
          have hmv := matchVariable_placeholder name
            (substituteVariables rand k (scan matchVariable rest)).1 h0 hw
          have heq : name ++ ['}'] ++ (substituteVariables rand k (scan matchVariable rest)).1 =
              name ++ '}' :: (substituteVariables rand k (scan matchVariable rest)).1 := by
            simp
          rw [heq, tokenFree, hmv]
          have htail : tokenFree
              (name ++ '}' :: (substituteVariables rand k (scan matchVariable rest)).1) = true := by
            rw [← heq, tokenFree_append_of_ne]
            · exact hX
            · intro c hc
              rcases List.mem_append.1 hc with hc | hc
              · exact (ne_brace_of_isWordChar (hw c hc)).1
              · simp only [List.mem_singleton] at hc
                subst hc; decide
          rw [htail]
          simp [property_undefined _ _ hp]

/-- The text left by the placeholder pass of `processTemplate`, for any template, starts
a placeholder with a pool at no position. -/
theorem tokenFree_substituted (rand : Rng) (k : Nat) (s : Text) :
    tokenFree (substituted rand k s).1 = true :=
  tokenFree_substituted_aux rand s.length s (Nat.le_refl _) k

theorem no_token_of_tokenFree (s name : Text) (h : tokenFree s = true)
    (hn : name ∈ dynamicVariables.map (fun e => e.1)) : ¬ Occurs ('{' :: name ++ ['}']) s := by
  rintro ⟨pre, post, rfl⟩
  obtain ⟨hwf, hsome⟩ := variable_names_wellFormed name hn
  obtain ⟨h0, hw⟩ := wellFormed_placeholder hwf
  rw [List.append_assoc] at h
  have h1 := tokenFree_of_append _ _ h
  have hm : matchVariable (('{' :: name ++ ['}']) ++ post) = some (name, name.length + 2) := by
    have := matchVariable_placeholder name post h0 hw
    simpa using this
  have heq : ('{' :: name ++ ['}']) ++ post = '{' :: ((name ++ ['}']) ++ post) := by simp
  rw [heq] at h1 hm
  rw [tokenFree, hm] at h1
  simp only [Option.all_some, Bool.and_eq_true] at h1
  rw [Option.isSome_iff_exists] at hsome
  obtain ⟨v, hv⟩ := hsome
  rw [hv] at h1
  simp at h1

theorem scanFrom_of_captures_nil {α : Type} (m : Text → Option (α × Nat)) (s : Text)
    (h : captures (scanFrom m 0 s) = []) : scanFrom m 0 s = s.map Piece.lit := by
  induction s with
  | nil => rfl
  | cons c rest ih =>
    cases hm : m (c :: rest) with
    | none =>
      rw [scanFrom_lit m c rest hm] at h ⊢
      simp only [captures] at h
      rw [ih h]
      rfl
    | some r =>
      obtain ⟨a, len⟩ := r
      simp [scanFrom, hm, captures] at h

theorem extractSoundEffects_snd (ps : List (Piece Text)) :
    (extractSoundEffects ps).2 = captures ps := by
  induction ps with
  | nil => rfl
  | cons p ps ih => cases p <;> simp [extractSoundEffects, captures, ih]

theorem processTemplate_text_of_no_effect (rand : Rng) (k : Nat) (template : Text)
    (h : (processTemplate rand k template).1.soundEffects = []) :
    (processTemplate rand k template).1.text = trim (substituted rand k template).1 := by
  unfold processTemplate at h ⊢
  simp only [extractSoundEffects_snd] at h
  unfold scan at h
  have := scanFrom_of_captures_nil _ _ h
  unfold substituted
  simp only []
  unfold scan at this ⊢
  rw [this]
  have hl := extractSoundEffects_lits (substituteVariables rand k (scanFrom matchVariable 0
    template)).1 []
  simp only [List.append_nil] at hl
  rw [hl]
  simp [extractSoundEffects]

/-- C2 (as the claim states it, refuted): the template `{acti{soundEffect:x}vity}` holds no
placeholder, the sound-effect pass removes the marker from it, and the text returned is
`{activity}`, where `activity` is a key of `dynamicVariables`. -/
theorem processTemplate_leaves_token :
    (processTemplate (fun _ => 0) 0 "\x7bacti\x7bsoundEffect:x\x7dvity\x7d".toList).1.text =
      '{' :: "activity".toList ++ ['}'] ∧
    "activity".toList ∈ dynamicVariables.map (fun e => e.1) := by
  decide

/-- C2 (amended): for every template string and every outcome of the random choices, the
text returned by `processTemplate` contains no substring `{name}` with `name` a key of
`dynamicVariables`, provided that no sound-effect marker is removed (the `soundEffects`
list returned is empty) or that the template is made only of brace-free text,
placeholders `{name}` and markers `{soundEffect:name}` (names being non-empty runs of
word characters). -/
theorem processTemplate_resolves_tokens (rand : Rng) (k : Nat) (template name : Text)
    (hn : name ∈ dynamicVariables.map (fun e => e.1))
    (h : (processTemplate rand k template).1.soundEffects = [] ∨
      ∃ segs : List Segment, (∀ s ∈ segs, s.wellFormed = true) ∧ template = renderTemplate segs) :
    ¬ Occurs ('{' :: name ++ ['}']) (processTemplate rand k template).1.text := by
  rcases h with h | ⟨segs, hwf, rfl⟩
  · rw [processTemplate_text_of_no_effect rand k template h]
    intro ho
    exact no_token_of_tokenFree _ name (tokenFree_substituted rand k template) hn
      (occurs_of_occurs_trim _ _ ho)
  · rw [processTemplate_render rand k segs hwf]
    intro ho
    exact no_token_of_bracesClosed _ name (processTemplate_bracesClosed rand k segs hwf) hn
      (occurs_of_occurs_trim _ _ ho)

theorem processTemplate_resolves_tokens_witness :
    ¬ Occurs ('{' :: "number".toList ++ ['}'])
      (processTemplate (fun _ => 0) 0
        "Call \x7bnumber\x7d or \x7bnobody\x7d, \x7b now \x7d".toList).1.text :=
  processTemplate_resolves_tokens (fun _ => 0) 0 _ "number".toList (by decide) (Or.inl (by decide))

/-- C6 (as the claim states it, refuted): for the template `{soundEffect{soundEffect:a}:b}`
the text returned is the marker `{soundEffect:b}`; and for `{soundEffect:{number}}`, which
holds no marker (the braces of `{number}` stand where the name should), the list of sound
effects is `47`, the phrase chosen for the placeholder. -/
theorem processTemplate_marker_counterexample :
    (processTemplate (fun _ => 0) 0
      "\x7bsoundEffect\x7bsoundEffect:a\x7d:b\x7d".toList).1 =
      ⟨"\x7bsoundEffect:b\x7d".toList, ["a".toList]⟩ ∧
    (extractSoundEffects (scan matchSoundEffect
      "\x7bsoundEffect:\x7bnumber\x7d\x7d".toList)).2 = [] ∧
    (processTemplate (fun _ => 0) 0 "\x7bsoundEffect:\x7bnumber\x7d\x7d".toList).1.soundEffects =
      ["47".toList] := by
  decide

/-- C6 (amended): for every template made of brace-free text, placeholders `{name}` and
markers `{soundEffect:name}` (names being non-empty runs of word characters),
`processTemplate` returns a `soundEffects` list that holds, in order of occurrence,
exactly the names of the markers of the template, and a text that contains no
`{soundEffect:name}` marker. -/
theorem processTemplate_extracts_markers (rand : Rng) (k : Nat) (segs : List Segment)
    (h : ∀ s ∈ segs, s.wellFormed = true) :
    (processTemplate rand k (renderTemplate segs)).1.soundEffects = markerEffects segs ∧
    ∀ effect : Text, ¬ Occurs ("\x7bsoundEffect:".toList ++ effect ++ ['}'])
      (processTemplate rand k (renderTemplate segs)).1.text := by
  rw [processTemplate_render rand k segs h]
  refine ⟨rfl, fun effect ho => ?_⟩
  exact no_marker_of_bracesClosed _ effect (processTemplate_bracesClosed rand k segs h)
    (occurs_of_occurs_trim _ _ ho)

theorem processTemplate_extracts_markers_witness :
    (processTemplate (fun _ => 0) 0 (renderTemplate
        [Segment.marker "deepSigh".toList, Segment.text " I suppose ".toList,
         Segment.placeholder "timePeriod".toList, Segment.marker "eyeRoll".toList])).1.soundEffects =
      ["deepSigh".toList, "eyeRoll".toList] ∧
    ∀ effect : Text, ¬ Occurs ("\x7bsoundEffect:".toList ++ effect ++ ['}'])
      (processTemplate (fun _ => 0) 0 (renderTemplate
        [Segment.marker "deepSigh".toList, Segment.text " I suppose ".toList,
         Segment.placeholder "timePeriod".toList, Segment.marker "eyeRoll".toList])).1.text :=
  processTemplate_extracts_markers (fun _ => 0) 0 _ (by decide)

theorem stripMarkers_brace_free (segs : List Segment) (h : ∀ s ∈ segs, s.wellFormed = true)
    (hp : placeholderNames segs = []) : ∀ c ∈ stripMarkers segs, c ≠ '{' ∧ c ≠ '}' := by
  induction segs with
  | nil => intro c hc; cases hc
  | cons s rest ih =>
    have hs := h s (List.mem_cons_self _ _)
    have hrest := ih (fun x hx => h x (List.mem_cons_of_mem _ hx))
    cases s with
    | text t =>
      intro c hc
      simp only [stripMarkers, Segment.render, List.mem_append] at hc
      rcases hc with hc | hc
      · exact wellFormed_text hs c hc
      · exact hrest (by simpa [placeholderNames] using hp) c hc
    | marker e =>
      intro c hc
      simp only [stripMarkers] at hc
      exact hrest (by simpa [placeholderNames] using hp) c hc
    | placeholder name => simp [placeholderNames] at hp

theorem templates_parse :
    ∀ t ∈ allTemplates, renderTemplate (parseTemplate t) = t ∧
      (∀ s ∈ parseTemplate t, s.wellFormed = true) ∧
      ∀ name ∈ placeholderNames (parseTemplate t), (dynamicVariables.lookup name).isSome = true := by
  set_option maxRecDepth 1000000 in decide

theorem templates_brace_free (rand : Rng) (k : Nat) (t : Text) (ht : t ∈ allTemplates) :
    ∀ c ∈ (processTemplate rand k t).1.text, c ≠ '{' ∧ c ≠ '}' := by
  obtain ⟨hr, hwf, hpool⟩ := templates_parse t ht
  rw [← hr, processTemplate_render rand k _ hwf]
  intro c hc
  apply stripMarkers_brace_free _ (resolveSegments_wellFormed rand _ hwf k) _ c
    (mem_of_mem_trim c _ hc)
  apply List.eq_nil_iff_forall_not_mem.2
  intro name hn
  obtain ⟨hmem, hnone⟩ := resolveSegments_placeholderNames rand _ k name hn
  have := hpool name hmem
  rw [hnone] at this
  cases this

theorem templates_mem_allTemplates :
    ∀ e ∈ responseTemplates, e.2 ≠ [] ∧ ∀ t ∈ e.2, t ∈ allTemplates := by
  set_option maxRecDepth 1000000 in decide

/-- The intent `constructor` names a property that `responseTemplates` inherits from
`Object.prototype`: `responseTemplates['constructor']` is the `Object` function, which is
truthy, so the confusion templates are not used, `templates[...]` is `undefined` and
`processTemplate(undefined)` raises a `TypeError`. No text is returned. -/
theorem getResponseByIntent_constructor :
    (getResponseByIntent (fun _ => 0) 0 "constructor".toList).1 = none := by
  decide

/-- C3: in every template of every category of `responseTemplates` each placeholder
`{name}` referenced is a key of `dynamicVariables` with a non-empty pool; consequently,
for every intent string and every outcome of the random choices, the text returned by
`getResponseByIntent` contains neither `{` nor `}`. A text is returned for every intent
but the names of the properties inherited from `Object.prototype`, hence for every intent
`analyzeIntent` produces and for `farewells`. -/
theorem getResponseByIntent_brace_free (rand : Rng) (k : Nat) (intent : Text) :
    (∀ e ∈ responseTemplates, ∀ t ∈ e.2, ∀ name ∈ templateVariables t,
      ∃ pool, dynamicVariables.lookup name = some pool ∧ pool ≠ []) ∧
    (∀ r, (getResponseByIntent rand k intent).1 = some r → ∀ c ∈ r.text, c ≠ '{' ∧ c ≠ '}') ∧
    ((getResponseByIntent rand k intent).1.isSome = true ↔ intent ∉ objectPrototypeNames) := by
  refine ⟨?_, ?_⟩
  · have hdec : ∀ e ∈ responseTemplates, ∀ t ∈ e.2, ∀ name ∈ templateVariables t,
        (dynamicVariables.lookup name).any (fun pool => !pool.isEmpty) = true := by
      set_option maxRecDepth 1000000 in decide
    intro e he t ht name hn
    have := hdec e he t ht name hn
    cases hl : dynamicVariables.lookup name with
    | none => rw [hl] at this; cases this
    | some pool =>
      rw [hl] at this
      refine ⟨pool, rfl, ?_⟩
      rintro rfl
      cases this
  · have hpick : ∀ e ∈ responseTemplates,
        ∃ r, ((match e.2.get? (randomIndex (rand k) e.2.length) with
          | some template =>
            (some (processTemplate rand (k + 1) template).1,
              (processTemplate rand (k + 1) template).2)
          | none => (none, k + 1)) : Option ProcessedTemplate × Nat).1 = some r ∧
          ∀ c ∈ r.text, c ≠ '{' ∧ c ≠ '}' := by
      intro e he
      obtain ⟨hne, hall⟩ := templates_mem_allTemplates e he
      obtain ⟨t, ht, hget⟩ := get?_randomIndex (rand k) e.2 hne
      rw [hget]
      exact ⟨_, rfl, templates_brace_free rand (k + 1) t (hall t ht)⟩
    have hown : ∀ e ∈ responseTemplates, e.1 ∉ objectPrototypeNames := by decide
    have key : ∀ o : Option ProcessedTemplate,
        (∃ r, o = some r ∧ ∀ c ∈ r.text, c ≠ '{' ∧ c ≠ '}') →
        (∀ r, o = some r → ∀ c ∈ r.text, c ≠ '{' ∧ c ≠ '}') ∧ o.isSome = true := by
      rintro _ ⟨r, rfl, h⟩
      exact ⟨fun r0 h0 => by cases h0; exact h, rfl⟩
    unfold getResponseByIntent
    cases hp : property responseTemplates intent with
    | own templates =>
      have hmem := lookup_mem _ _ _ ((property_own _ _ _).1 hp)
      have hk := key _ (hpick (intent, templates) hmem)
      exact ⟨hk.1, fun _ => hown (intent, templates) hmem, fun _ => hk.2⟩
    | inherited =>
      have hi : intent ∈ objectPrototypeNames := by
        unfold property at hp
        split at hp
        · cases hp
        · by_contra hn
          rw [if_neg hn] at hp
          cases hp
      exact ⟨fun r0 h0 => (nomatch h0), fun h => (nomatch h), fun h => absurd hi h⟩
    | undefined =>
      have hi : intent ∉ objectPrototypeNames := by
        unfold property at hp
        split at hp
        · cases hp
        · intro hn
          rw [if_pos hn] at hp
          cases hp
      have hc : (responseTemplates.lookup "confusion".toList).getD [] ∈
          responseTemplates.map (fun e => e.2) := by decide
      obtain ⟨e, he, heq⟩ := List.mem_map.1 hc
      have hpe := hpick e he
      rw [heq] at hpe
      have hk := key _ hpe
      exact ⟨hk.1, fun _ => hi, fun _ => hk.2⟩

theorem getResponseByIntent_brace_free_witness :
    ∃ r, (getResponseByIntent (fun n => n * 2 ^ 51) 0 "farewells".toList).1 = some r ∧
      ∀ c ∈ r.text, c ≠ '{' ∧ c ≠ '}' :=
  (Option.isSome_iff_exists.1
    ((getResponseByIntent_brace_free (fun n => n * 2 ^ 51) 0 "farewells".toList).2.2.2
      (by decide))).elim
    (fun r hr => ⟨r, hr,
      (getResponseByIntent_brace_free (fun n => n * 2 ^ 51) 0 "farewells".toList).2.1 r hr⟩)

/-! ## The AI service -/

theorem processTemplate_brace_free_text (rand : Rng) (k : Nat) (t : Text)
    (h : (Segment.text t).wellFormed = true) :
    (processTemplate rand k t).1 = ⟨trim t, []⟩ := by
  have := processTemplate_render rand k [Segment.text t]
    (by intro s hs; simp only [List.mem_singleton] at hs; subst hs; exact h)
  simpa [renderTemplate, Segment.render, resolveSegments, stripMarkers, markerEffects] using this

theorem caught_text (rand : Rng) (k : Nat) :
    (processTemplate rand k AIService.cannedApology).1.text = AIService.cannedApology := by
  rw [processTemplate_brace_free_text rand k _ (by decide)]
  decide

/-- C11: whenever `generateResponse` makes the completion call (the client is configured
and the request was not answered from a template) and the call fails, `generateResponse`
returns, and what it returns is exactly the canned phrase. -/
theorem generateResponse_completion_failure (js : Builtins) (rand : Rng) (k : Nat)
    (create : Completion) (userInput : Text) (conversationHistory : List Message) (mood : Mood)
    (timeModifier : Option Text)
    (hcall : AIService.analyzeIntent js userInput = "general" ∨
      randomExceeds (rand k) 3 10 = false)
    (hfail : create mood timeModifier conversationHistory userInput = none) :
    (AIService.generateResponse ⟨some create⟩ js rand k userInput conversationHistory mood
      timeModifier).1 =
      "*DEEP SIGH* The AI is having a moment. Just like me on Mondays. Can you try again? Or better yet, don't.".toList := by
  unfold AIService.generateResponse
  simp only []
  rw [if_neg]
  · simp only [hfail, caught_text]
    rfl
  · rintro ⟨h1, h2⟩
    rcases hcall with h | h
    · exact h1 h
    · rw [h] at h2; cases h2

theorem generateResponse_completion_failure_witness :
    (AIService.generateResponse ⟨some (fun _ _ _ _ => none)⟩ asciiBuiltins (fun _ => 0) 0
      "what is the weather".toList [] (dailyMoods 1) none).1 =
      "*DEEP SIGH* The AI is having a moment. Just like me on Mondays. Can you try again? Or better yet, don't.".toList :=
  generateResponse_completion_failure asciiBuiltins (fun _ => 0) 0 (fun _ _ _ _ => none)
    "what is the weather".toList [] (dailyMoods 1) none (Or.inl (by decide)) rfl

theorem getResponseByIntent_eq (rand : Rng) (k : Nat) (intent : Text)
    (hi : intent ∉ objectPrototypeNames) :
    ∃ template, template ∈ templatesFor intent ∧
      getResponseByIntent rand k intent =
        (some (processTemplate rand (k + 1) template).1,
          (processTemplate rand (k + 1) template).2) := by
  unfold getResponseByIntent templatesFor
  cases hp : property responseTemplates intent with
  | own templates =>
    have hl := (property_own _ _ _).1 hp
    have hne := (templates_mem_allTemplates (intent, templates) (lookup_mem _ _ _ hl)).1
    obtain ⟨t, ht, hget⟩ := get?_randomIndex (rand k) templates hne
    refine ⟨t, by simpa [hl] using ht, ?_⟩
    simp only [hget]
  | inherited =>
    unfold property at hp
    split at hp
    · cases hp
    · rw [if_neg hi] at hp; cases hp
  | undefined =>
    have hl := property_undefined _ _ hp
    obtain ⟨t, ht, hget⟩ := get?_randomIndex (rand k)
      ((responseTemplates.lookup "confusion".toList).getD []) (by decide)
    refine ⟨t, by simpa [hl] using ht, ?_⟩
    simp only [hget]

theorem analyzeIntent_values (js : Builtins) (speech : Text) :
    AIService.analyzeIntent js speech ∈
      ["farewells", "appointments", "transferring", "holding", "greetings", "general"] := by
  unfold AIService.analyzeIntent
  simp only []
  split_ifs <;> simp

/-- C12: with no client configured, `generateResponse` has no completion function to
call: for every user input and every outcome of the random choices it returns the text
of a processed template of `responseTemplates[intent]`, or of the confusion templates
when the intent (`general`) has no template set. -/
theorem generateResponse_without_client (js : Builtins) (rand : Rng) (k : Nat) (userInput : Text)
    (conversationHistory : List Message) (mood : Mood) (timeModifier : Option Text) :
    ∃ template k', template ∈ templatesFor (AIService.analyzeIntent js userInput).toList ∧
      (AIService.generateResponse ⟨none⟩ js rand k userInput conversationHistory mood
        timeModifier).1 = (processTemplate rand k' template).1.text := by
  have hi : (AIService.analyzeIntent js userInput).toList ∉ objectPrototypeNames := by
    have hv := analyzeIntent_values js userInput
    have hall : ∀ i ∈ ["farewells", "appointments", "transferring", "holding", "greetings",
        "general"], String.toList i ∉ objectPrototypeNames := by decide
    exact hall _ hv
  have key : ∀ k0, ∃ template k', template ∈
      templatesFor (AIService.analyzeIntent js userInput).toList ∧
      (match getResponseByIntent rand k0 (AIService.analyzeIntent js userInput).toList with
        | (some templateResponse, k) => (templateResponse.text, k)
        | (none, k) => ((processTemplate rand k AIService.cannedApology).1.text, k) :
          Text × Nat).1 = (processTemplate rand k' template).1.text := by
    intro k0
    obtain ⟨t, ht, heq⟩ := getResponseByIntent_eq rand k0 _ hi
    exact ⟨t, k0 + 1, ht, by rw [heq]⟩
  unfold AIService.generateResponse
  simp only []
  split_ifs
  · exact key _
  · exact key _
  · exact key _

/-! ## Frames and deferred clean-up -/

theorem foldl_delete_status_get (l : List Timer) (s : ConversationService) (k : String) :
    (l.foldl (fun s tm => s.deleteCallStatus tm.callSid) s).callStatuses.get k =
      if l.any (fun tm => tm.callSid == k) then none else s.callStatuses.get k := by
  induction l generalizing s with
  | nil => simp
  | cons tm rest ih =>
    simp only [List.foldl_cons, ih, List.any_cons, Bool.or_eq_true, beq_iff_eq]
    by_cases h : tm.callSid = k
    · subst h
      simp [ConversationService.deleteCallStatus, JsMap.get_delete_self]
    · simp only [h, false_or]
      split_ifs
      · rfl
      · exact JsMap.get_delete_of_ne _ h

theorem apply_frame (w : Server) (op : ServiceOp) (A B : String) (hAB : A ≠ B)
    (ht : op.target = some A) :
    (op.apply w).store.conversations.get B = w.store.conversations.get B ∧
    (op.apply w).store.callVoices.get B = w.store.callVoices.get B ∧
    (op.apply w).store.callStatuses.get B = w.store.callStatuses.get B ∧
    ∃ extra, (op.apply w).timers = w.timers ++ extra ∧ ∀ tm ∈ extra, tm.callSid = A := by
  cases op with
  | elapse t => cases ht
  | createConversation c f n =>
    obtain rfl : c = A := by simpa [ServiceOp.target] using ht
    exact ⟨JsMap.get_set_of_ne _ _ hAB, rfl, rfl, [], by simp [ServiceOp.apply], by simp⟩
  | updateConversation c u a =>
    obtain rfl : c = A := by simpa [ServiceOp.target] using ht
    exact ⟨JsMap.get_set_of_ne _ _ hAB, rfl, rfl, [], by simp [ServiceOp.apply], by simp⟩
  | incrementCallCount c =>
    obtain rfl : c = A := by simpa [ServiceOp.target] using ht
    exact ⟨JsMap.get_set_of_ne _ _ hAB, rfl, rfl, [], by simp [ServiceOp.apply], by simp⟩
  | deleteConversation c =>
    obtain rfl : c = A := by simpa [ServiceOp.target] using ht
    exact ⟨JsMap.get_delete_of_ne _ hAB, rfl, rfl, [], by simp [ServiceOp.apply], by simp⟩
  | setCallVoice c v st =>
    obtain rfl : c = A := by simpa [ServiceOp.target] using ht
    exact ⟨rfl, JsMap.get_set_of_ne _ _ hAB, rfl, [], by simp [ServiceOp.apply], by simp⟩
  | deleteCallVoice c =>
    obtain rfl : c = A := by simpa [ServiceOp.target] using ht
    exact ⟨rfl, JsMap.get_delete_of_ne _ hAB, rfl, [], by simp [ServiceOp.apply], by simp⟩
  | setCallStatus c st n =>
    obtain rfl : c = A := by simpa [ServiceOp.target] using ht
    exact ⟨rfl, rfl, JsMap.get_set_of_ne _ _ hAB, [], by simp [ServiceOp.apply], by simp⟩
  | deleteCallStatus c =>
    obtain rfl : c = A := by simpa [ServiceOp.target] using ht
    exact ⟨rfl, rfl, JsMap.get_delete_of_ne _ hAB, [], by simp [ServiceOp.apply], by simp⟩
  | cleanupCall c n d =>
    obtain rfl : c = A := by simpa [ServiceOp.target] using ht
    simp only [ServiceOp.apply, Server.cleanupCall]
    split
    · exact ⟨JsMap.get_delete_of_ne _ hAB, JsMap.get_delete_of_ne _ hAB, rfl, _, rfl,
        by simp⟩
    · exact ⟨JsMap.get_delete_of_ne _ hAB, JsMap.get_delete_of_ne _ hAB,
        JsMap.get_delete_of_ne _ hAB, [], by simp, by simp⟩

/-- C13: for two distinct call identifiers A and B, a `ConversationService` method
applied to A leaves `getConversation(B)`, `getCallVoice(B)` and the stored status of B as
they were, both when it returns and after any lapse of time (the timer that `cleanupCall`
sets deletes the status of A only). -/
theorem service_calls_frame_other_calls (w : Server) (op : ServiceOp) (A B : String)
    (hAB : A ≠ B) (ht : op.target = some A) :
    ((op.apply w).store.getConversation B = w.store.getConversation B ∧
      (op.apply w).store.getCallVoice B = w.store.getCallVoice B ∧
      (op.apply w).store.callStatuses.get B = w.store.callStatuses.get B) ∧
    ∀ t, ((op.apply w).elapse t).store.getConversation B = (w.elapse t).store.getConversation B ∧
      ((op.apply w).elapse t).store.getCallVoice B = (w.elapse t).store.getCallVoice B ∧
      ((op.apply w).elapse t).store.callStatuses.get B =
        (w.elapse t).store.callStatuses.get B := by
  obtain ⟨h1, h2, h3, extra, he, hex⟩ := apply_frame w op A B hAB ht
  refine ⟨⟨?_, ?_, h3⟩, fun t => ⟨?_, ?_, ?_⟩⟩
  · simp [ConversationService.getConversation, h1]
  · simp [ConversationService.getCallVoice, h2]
  · simp [Server.elapse, ConversationService.getConversation,
      Server.foldl_delete_conversations, h1]
  · simp [Server.elapse, ConversationService.getCallVoice, Server.foldl_delete_callVoices, h2]
  · simp only [Server.elapse, foldl_delete_status_get, he, h3, List.filter_append,
      List.any_append]
    have hx : (List.filter (fun tm => decide (tm.due ≤ t)) extra).any
        (fun tm => tm.callSid == B) = false := by
      rw [List.any_eq_false]
      intro tm htm
      have := hex tm (List.mem_of_mem_filter htm)
      simp [this, hAB]
    rw [hx, Bool.or_false]

theorem service_calls_frame_other_calls_witness :
    (((ServiceOp.cleanupCall "CA1" 10 500).apply
        (ServiceOp.run Server.init [ServiceOp.createConversation "CA2" none 1,
          ServiceOp.setCallStatus "CA2" "ringing" 2])).store.getConversation "CA2" =
      (ServiceOp.run Server.init [ServiceOp.createConversation "CA2" none 1,
          ServiceOp.setCallStatus "CA2" "ringing" 2]).store.getConversation "CA2" ∧
      ((ServiceOp.cleanupCall "CA1" 10 500).apply
        (ServiceOp.run Server.init [ServiceOp.createConversation "CA2" none 1,
          ServiceOp.setCallStatus "CA2" "ringing" 2])).store.getCallVoice "CA2" =
      (ServiceOp.run Server.init [ServiceOp.createConversation "CA2" none 1,
          ServiceOp.setCallStatus "CA2" "ringing" 2]).store.getCallVoice "CA2" ∧
      ((ServiceOp.cleanupCall "CA1" 10 500).apply
        (ServiceOp.run Server.init [ServiceOp.createConversation "CA2" none 1,
          ServiceOp.setCallStatus "CA2" "ringing" 2])).store.callStatuses.get "CA2" =
      (ServiceOp.run Server.init [ServiceOp.createConversation "CA2" none 1,
          ServiceOp.setCallStatus "CA2" "ringing" 2]).store.callStatuses.get "CA2") :=
  (service_calls_frame_other_calls _ (ServiceOp.cleanupCall "CA1" 10 500) "CA1" "CA2"
    (by decide) rfl).1

theorem timeoutDelay_le (delay : Int) : Server.timeoutDelay delay ≤ delay.toNat := by
  unfold Server.timeoutDelay
  split_ifs <;> omega

/-- C14: for a call with a stored status, right after `cleanupCall` with a positive delay
the conversation and voice lookups return the default records while `getCallStatus`
still returns the stored record, and once the delay has elapsed the status record is
gone; with delay 0 the status record is gone as soon as `cleanupCall` returns. -/
theorem cleanupCall_defers_status (w : Server) (callSid : String) (now : Nat) (delay : Int)
    (record : CallStatus) (asked : Nat) (hs : w.store.callStatuses.get callSid = some record) :
    (0 < delay →
      (w.cleanupCall callSid now delay).store.getConversation callSid = ⟨[], 0, none, none⟩ ∧
      (w.cleanupCall callSid now delay).store.getCallVoice callSid =
        ⟨"Polly.Amy-Neural", "sarcastic"⟩ ∧
      (w.cleanupCall callSid now delay).store.getCallStatus callSid asked = record ∧
      ∀ t, now + delay.toNat ≤ t →
        ((w.cleanupCall callSid now delay).elapse t).store.callStatuses.get callSid = none) ∧
    ((w.cleanupCall callSid now 0).store.getConversation callSid = ⟨[], 0, none, none⟩ ∧
      (w.cleanupCall callSid now 0).store.getCallVoice callSid =
        ⟨"Polly.Amy-Neural", "sarcastic"⟩ ∧
      (w.cleanupCall callSid now 0).store.callStatuses.get callSid = none) := by
  constructor
  · intro hd
    have hw : w.cleanupCall callSid now delay =
        { store := (w.store.deleteConversation callSid).deleteCallVoice callSid,
          timers := w.timers ++ [⟨now + Server.timeoutDelay delay, callSid⟩] } := by
      simp only [Server.cleanupCall, if_pos hd]
    rw [hw]
    refine ⟨?_, ?_, ?_, ?_⟩
    · simp [ConversationService.getConversation, ConversationService.deleteConversation,
        ConversationService.deleteCallVoice, JsMap.get_delete_self,
        ConversationService.defaultConversation]
    · simp [ConversationService.getCallVoice, ConversationService.deleteConversation,
        ConversationService.deleteCallVoice, JsMap.get_delete_self,
        ConversationService.defaultCallVoice]
    · simp [ConversationService.getCallStatus, ConversationService.deleteConversation,
        ConversationService.deleteCallVoice, hs]
    · intro t ht
      have hle := timeoutDelay_le delay
      exact Server.elapse_status_of_due _ t ⟨now + Server.timeoutDelay delay, callSid⟩
        (by simp) (by simp only []; omega)
  · simp [Server.cleanupCall, ConversationService.getConversation,
      ConversationService.getCallVoice, ConversationService.deleteConversation,
      ConversationService.deleteCallVoice, ConversationService.deleteCallStatus,
      JsMap.get_delete_self, ConversationService.defaultConversation,
      ConversationService.defaultCallVoice]

theorem cleanupCall_defers_status_witness :
    ((ServiceOp.run Server.init [ServiceOp.setCallStatus "CA1" "in-progress" 5]).cleanupCall
        "CA1" 10 500).store.getCallStatus "CA1" 11 = ⟨"in-progress", 5⟩ ∧
      (((ServiceOp.run Server.init [ServiceOp.setCallStatus "CA1" "in-progress" 5]).cleanupCall
        "CA1" 10 500).elapse 510).store.callStatuses.get "CA1" = none :=
  ⟨((cleanupCall_defers_status
      (ServiceOp.run Server.init [ServiceOp.setCallStatus "CA1" "in-progress" 5]) "CA1" 10 500
      ⟨"in-progress", 5⟩ 11 (by decide)).1 (by decide)).2.2.1,
   ((cleanupCall_defers_status
      (ServiceOp.run Server.init [ServiceOp.setCallStatus "CA1" "in-progress" 5]) "CA1" 10 500
      ⟨"in-progress", 5⟩ 11 (by decide)).1 (by decide)).2.2.2 510 (by decide)⟩

/-- C15: on each day of the week the mood lookup yields a record with a non-empty name
and a non-empty trait list, and two days never share a name. The lookup is a function of
the day alone and has no state to change. -/
theorem dailyMoods_well_formed :
    (∀ day : Fin 7, (getCurrentMood day).name ≠ "" ∧ (getCurrentMood day).traits ≠ [] ∧
      getCurrentMood day = dailyMoods day) ∧
    ∀ d1 d2 : Fin 7, (getCurrentMood d1).name = (getCurrentMood d2).name → d1 = d2 := by
  decide

/-- C17: `getTimeGreeting` at hour `h` returns `Good morning` exactly when `h < 12`,
`Good afternoon` exactly when `12 ≤ h < 17`, and `Good evening` exactly when `h ≥ 17`. -/
theorem getTimeGreeting_by_hour (h : Nat) :
    (getTimeGreeting h = "Good morning".toList ↔ h < 12) ∧
    (getTimeGreeting h = "Good afternoon".toList ↔ 12 ≤ h ∧ h < 17) ∧
    (getTimeGreeting h = "Good evening".toList ↔ 17 ≤ h) := by
  unfold getTimeGreeting
  have h1 : "Good morning".toList ≠ "Good afternoon".toList := by decide
  have h2 : "Good morning".toList ≠ "Good evening".toList := by decide
  have h3 : "Good afternoon".toList ≠ "Good evening".toList := by decide
  split_ifs with ha hb
  · exact ⟨by simp [ha], by simp [h1]; omega, by simp [h2]; omega⟩
  · exact ⟨by simp [h1.symm, ha], by simp; omega, by simp [h3]; omega⟩
  · exact ⟨by simp [h2.symm, ha], by simp [h3.symm]; omega, by simp; omega⟩

/-- The refactored `getVoiceStyle` agrees with the inline logic exactly when the call
count is at most 5 or the intent is neither `appointments` nor `transferring`. -/
theorem getVoiceStyle_eq_inline_iff (intent currentStyle : String) (callCount : Nat) :
    VoiceService.getVoiceStyle intent currentStyle callCount =
      inlineVoiceStyle intent currentStyle callCount ↔
    callCount ≤ 5 ∨ (intent ≠ "appointments" ∧ intent ≠ "transferring") := by
  unfold VoiceService.getVoiceStyle inlineVoiceStyle
  simp only []
  by_cases h5 : callCount > 5 <;> by_cases ha : intent = "appointments" <;>
    by_cases ht : intent = "transferring" <;> simp_all
  all_goals rw [if_neg (by omega)]

/-- C18 (the code diverges from the claim): for intent `appointments` and call count 6
the refactored `getVoiceStyle` returns `bored`, the inline logic it was extracted from
returns `exhausted`. -/
theorem getVoiceStyle_differs_from_inline :
    VoiceService.getVoiceStyle "appointments" "sarcastic" 6 = "bored" ∧
    inlineVoiceStyle "appointments" "sarcastic" 6 = "exhausted" := by
  decide

/-! ## Runs of dots and sound-effect markers in `enhanceVoiceResponse` -/

theorem leadingDots_nil : leadingDots [] = 0 := rfl

theorem leadingDots_cons_dot (t : Text) : leadingDots ('.' :: t) = leadingDots t + 1 := by
  simp [leadingDots, List.takeWhile]

theorem leadingDots_cons_ne (c : Char) (t : Text) (h : c ≠ '.') : leadingDots (c :: t) = 0 := by
  simp [leadingDots, List.takeWhile_cons, h]

theorem leadingDots_append_of_ne (t : Text) (c : Char) (u : Text) (h : c ≠ '.') :
    leadingDots (t ++ c :: u) = leadingDots t := by
  induction t with
  | nil => simp [leadingDots_cons_ne c u h, leadingDots_nil]
  | cons x t ih =>
    by_cases hx : x = '.'
    · subst hx
      rw [List.cons_append, leadingDots_cons_dot, leadingDots_cons_dot, ih]
    · rw [List.cons_append, leadingDots_cons_ne x _ hx, leadingDots_cons_ne x _ hx]

theorem dotsLimited_append_of_ne (t : Text) (c : Char) (u : Text) (h : c ≠ '.')
    (ht : dotsLimited t = true) (hu : dotsLimited (c :: u) = true) :
    dotsLimited (t ++ c :: u) = true := by
  induction t with
  | nil => exact hu
  | cons x t ih =>
    simp only [dotsLimited, Bool.and_eq_true, decide_eq_true_eq] at ht
    rw [List.cons_append, dotsLimited, ← List.cons_append, leadingDots_append_of_ne _ c u h]
    simp [ht.1, ih ht.2]

theorem dotsLimited_of_append (pre x : Text) (h : dotsLimited (pre ++ x) = true) :
    dotsLimited x = true := by
  induction pre with
  | nil => exact h
  | cons c pre ih =>
    simp only [List.cons_append, dotsLimited, Bool.and_eq_true] at h
    exact ih h.2

theorem no_four_dots_of_dotsLimited (t : Text) (h : dotsLimited t = true) :
    ¬ Occurs "....".toList t := by
  rintro ⟨pre, post, rfl⟩
  rw [List.append_assoc] at h
  have h1 := dotsLimited_of_append _ _ h
  have h2 : "....".toList ++ post = '.' :: '.' :: '.' :: '.' :: post := rfl
  rw [h2] at h1
  simp only [dotsLimited, leadingDots_cons_dot, Bool.and_eq_true, decide_eq_true_eq] at h1
  omega

/-- The replace of `\.{4,}` by three dots. -/
theorem matchDots_eq (s : Text) :
    matchDots s = if leadingDots s ≥ 4 then some ((), leadingDots s) else none := rfl

theorem limitDots_lit (c : Char) (rest : Text) (h : leadingDots (c :: rest) < 4) :
    rebuild (fun _ => "...".toList) (scanFrom matchDots 0 (c :: rest)) =
      c :: rebuild (fun _ => "...".toList) (scanFrom matchDots 0 rest) := by
  rw [scanFrom_lit _ _ _ (by rw [matchDots_eq, if_neg (by omega)])]
  rfl

theorem limitDots_hit (s : Text) (h : leadingDots s ≥ 4) :
    rebuild (fun _ => "...".toList) (scanFrom matchDots 0 s) =
      "...".toList ++ rebuild (fun _ => "...".toList)
        (scanFrom matchDots 0 (s.dropWhile (fun c => c == '.'))) := by
  have hsplit : s = s.takeWhile (fun c => c == '.') ++ s.dropWhile (fun c => c == '.') :=
    (List.takeWhile_append_dropWhile _ _).symm
  cases hrun : s.takeWhile (fun c => c == '.') with
  | nil => simp [leadingDots, hrun] at h
  | cons c xs =>
    have hlen : leadingDots s = xs.length + 1 := by simp [leadingDots, hrun]
    have hs : s = c :: (xs ++ s.dropWhile (fun c => c == '.')) := by
      rw [hrun] at hsplit
      exact hsplit
    have hm : matchDots (c :: (xs ++ s.dropWhile (fun c => c == '.'))) =
        some ((), xs.length + 1) := by
      rw [← hs, matchDots_eq, if_pos h, hlen]
    have := scanFrom_hit matchDots c xs (s.dropWhile (fun c => c == '.')) () hm
    rw [← hs] at this
    rw [this]
    rfl

theorem leadingDots_dropWhile (s : Text) : leadingDots (s.dropWhile (fun c => c == '.')) = 0 := by
  unfold leadingDots
  have := List.head?_dropWhile_not (fun c => c == '.') s
  cases hd : s.dropWhile (fun c => c == '.') with
  | nil => rfl
  | cons x r =>
    rw [hd] at this
    simp only [List.head?_cons] at this
    simp [List.takeWhile, this]

theorem length_dropWhile_lt (s : Text) (h : leadingDots s ≥ 4) :
    (s.dropWhile (fun c => c == '.')).length < s.length := by
  have hsplit := congrArg List.length (List.takeWhile_append_dropWhile (fun c => c == '.') s)
  simp only [List.length_append] at hsplit
  unfold leadingDots at h
  omega

theorem limitDots_aux (n : Nat) : ∀ s : Text, s.length ≤ n →
    leadingDots (rebuild (fun _ => "...".toList) (scanFrom matchDots 0 s)) =
      min 3 (leadingDots s) ∧
    dotsLimited (rebuild (fun _ => "...".toList) (scanFrom matchDots 0 s)) = true := by
  induction n with
  | zero =>
    intro s hs
    have : s = [] := List.length_eq_zero.1 (by omega)
    subst this
    exact ⟨rfl, rfl⟩
  | succ n ih =>
    intro s hs
    by_cases h4 : leadingDots s ≥ 4
    · have hlt := length_dropWhile_lt s h4
      obtain ⟨i1, i2⟩ := ih (s.dropWhile (fun c => c == '.')) (by omega)
      rw [leadingDots_dropWhile] at i1
      rw [limitDots_hit s h4]
      have h3 : "...".toList ++ rebuild (fun _ => "...".toList)
          (scanFrom matchDots 0 (s.dropWhile (fun c => c == '.'))) =
          '.' :: '.' :: '.' :: rebuild (fun _ => "...".toList)
            (scanFrom matchDots 0 (s.dropWhile (fun c => c == '.'))) := rfl
      rw [h3]
      simp only [dotsLimited, leadingDots_cons_dot, i1, i2]
      exact ⟨by omega, by decide⟩
    · cases s with
      | nil => exact ⟨rfl, rfl⟩
      | cons c rest =>
        obtain ⟨i1, i2⟩ := ih rest (by simpa using hs)
        rw [limitDots_lit c rest (by omega)]
        have hl : leadingDots (c :: rebuild (fun _ => "...".toList)
            (scanFrom matchDots 0 rest)) = min 3 (leadingDots (c :: rest)) := by
          by_cases hc : c = '.'
          · subst hc
            rw [leadingDots_cons_dot] at h4 ⊢
            rw [leadingDots_cons_dot, i1]
            omega
          · rw [leadingDots_cons_ne c _ hc, leadingDots_cons_ne c _ hc]
            rfl
        refine ⟨hl, ?_⟩
        rw [dotsLimited, hl, i2]
        simp

theorem limitDots_dotsLimited (s : Text) :
    dotsLimited (rebuild (fun _ => "...".toList) (scan matchDots s)) = true :=
  (limitDots_aux s.length s (Nat.le_refl _)).2

theorem dotsLimited_breath (t : Text) (h : dotsLimited t = true) :
    dotsLimited ("... ".toList ++ t) = true := by
  have he : "... ".toList ++ t = '.' :: '.' :: '.' :: ' ' :: t := rfl
  rw [he]
  simp only [dotsLimited, leadingDots_cons_dot, leadingDots_cons_ne ' ' t (by decide), h]
  decide

theorem processText_dotsLimited (js : Builtins) (text : Text) (addBreathing : Bool) :
    dotsLimited (processText js text addBreathing) = true := by
  unfold processText
  simp only []
  split_ifs
  · exact dotsLimited_breath _ (limitDots_dotsLimited _)
  · exact limitDots_dotsLimited _

theorem dotsLimited_exhausted (t : Text) (h : dotsLimited t = true) :
    dotsLimited ("... ... ".toList ++ t ++ " ...".toList) = true := by
  have h1 : dotsLimited (t ++ " ...".toList) = true :=
    dotsLimited_append_of_ne t ' ' "...".toList (by decide) h (by decide)
  have he : "... ... ".toList ++ t ++ " ...".toList =
      "... ".toList ++ ("... ".toList ++ (t ++ " ...".toList)) := by
    simp
  rw [he]
  exact dotsLimited_breath _ (dotsLimited_breath _ h1)

/-- C19 (as the claim states it, refuted): with the mood `passive_aggressive` every dot of
the processed text is replaced by three, so the three dots of `Wait...` come back as a
run of nine. -/
theorem enhanceVoiceResponse_passive_aggressive_dots :
    (enhanceVoiceResponse asciiBuiltins "Wait...".toList "passive_aggressive" "amy" false).map
      (fun r => r.text) = some "Wait.........".toList := by
  decide

/-- C19 (amended): for every input text, every mood other than `passive_aggressive` and
every `addBreathing` setting, the text returned by `enhanceVoiceResponse` contains no run
of four or more consecutive `.` characters; a text is returned whenever the voice is a
key of `voiceProfiles`. -/
theorem enhanceVoiceResponse_dots_limited (js : Builtins) (text : Text) (mood voice : String)
    (addBreathing : Bool) (hm : mood ≠ "passive_aggressive") :
    (∀ r, enhanceVoiceResponse js text mood voice addBreathing = some r →
      ¬ Occurs "....".toList r.text) ∧
    ((voiceProfiles.lookup voice).isSome = true →
      (enhanceVoiceResponse js text mood voice addBreathing).isSome = true) := by
  have hp := processText_dotsLimited js text addBreathing
  unfold enhanceVoiceResponse
  cases hv : voiceProfiles.lookup voice with
  | none => simp
  | some profile =>
    simp only [Option.some.injEq, Option.isSome_some, implies_true, and_true]
    rintro r rfl
    apply no_four_dots_of_dotsLimited
    split
    · exact hp
    · exact hp
    · exact dotsLimited_breath _ hp
    · exact hp
    · exact absurd rfl hm
    · exact hp
    · exact dotsLimited_exhausted _ hp
    · exact hp

theorem enhanceVoiceResponse_dots_limited_witness :
    enhanceVoiceResponse asciiBuiltins "Well...... fine.....".toList "exhausted" "brian" true =
      some ⟨"Polly.Brian-Neural", "115%", "soft", "... ... ... Well... fine... ...".toList⟩ ∧
    ¬ Occurs "....".toList "... ... ... Well... fine... ...".toList :=
  ⟨by decide,
   (enhanceVoiceResponse_dots_limited asciiBuiltins "Well...... fine.....".toList "exhausted"
     "brian" true (by decide)).1
     ⟨"Polly.Brian-Neural", "115%", "soft", "... ... ... Well... fine... ...".toList⟩
     (by decide)⟩

/-- C16 (the code diverges from the claim): the text `*DEEP  SIGH*`, written with two
spaces, matches none of the nine replacements; the emphasis pass returns it unchanged
because its content contains `SIGH`, the white-space pass joins the two spaces, and the
text returned is the marker `*DEEP SIGH*`. -/
theorem enhanceVoiceResponse_keeps_marker :
    replaceSoundEffects "*DEEP  SIGH*".toList = "*DEEP  SIGH*".toList ∧
    (enhanceVoiceResponse asciiBuiltins "*DEEP  SIGH*".toList "sarcastic" "amy" false).map
      (fun r => r.text) = some "*DEEP SIGH*".toList := by
  decide

/-- C20 (the code diverges from the claim): for the text `*sighing*` the nine replacements
change nothing, the emphasis pass finds the span with content `sighing`, which in upper
case contains the sound-effect name `SIGH`, and its callback takes the branch that
returns the match unchanged: the span keeps its asterisks in the text returned. -/
theorem emphasis_pass_returns_match :
    replaceSoundEffects "*sighing*".toList = "*sighing*".toList ∧
    scan matchEmphasis "*sighing*".toList = [Piece.hit "sighing".toList] ∧
    soundEffects.any (fun effect => includes (asciiBuiltins.toUpperCase "sighing".toList) effect) =
      true ∧
    emphasisReplacement asciiBuiltins "sighing".toList = "*sighing*".toList ∧
    (enhanceVoiceResponse asciiBuiltins "*sighing*".toList "sarcastic" "amy" false).map
      (fun r => r.text) = some "*sighing*".toList := by
  decide

/-! ## The knowledge base -/

/-- C21: for every query, text and keyword list the score of `calculateRelevance` lies
between 0 and 1, the range the match threshold is taken from. -/
theorem calculateRelevance_bounds (js : Builtins) (query text : Text) (keywords : List Text) :
    0 ≤ KnowledgeBase.calculateRelevance js query text keywords ∧
      KnowledgeBase.calculateRelevance js query text keywords ≤ 1 := by
  unfold KnowledgeBase.calculateRelevance
  simp only []
  split_ifs with h1 h2 h3
  · norm_num
  · norm_num
  · have hq : (0 : ℚ) ≤ ((List.filter (fun k => includes (js.toLowerCase query) (js.toLowerCase k))
        keywords).length : ℚ) / (keywords.length : ℚ) := by positivity
    constructor
    · apply le_min
      · norm_num
      · have : (0 : ℚ) ≤ ((List.filter (fun k => includes (js.toLowerCase query)
            (js.toLowerCase k)) keywords).length : ℚ) / (keywords.length : ℚ) * 0.35 :=
          mul_nonneg hq (by norm_num)
        linarith
    · exact (min_le_left _ _).trans (by norm_num)
  · constructor
    · positivity
    · apply div_le_one_of_le₀
      · norm_cast
        exact (List.length_filter_le _ _).trans (le_max_left _ _)
      · positivity

namespace KnowledgeBase

theorem scoreOrder_iff (a b : Result) : scoreOrder a b ↔ b.score ≤ a.score := by
  unfold scoreOrder
  constructor <;> intro h <;> linarith

theorem sorted_insertionSort_scoreOrder (l : List Result) :
    (l.insertionSort scoreOrder).Pairwise (fun a b => b.score ≤ a.score) := by
  haveI : IsTotal Result scoreOrder :=
    ⟨fun a b => by simp only [scoreOrder_iff]; exact le_total _ _⟩
  haveI : IsTrans Result scoreOrder :=
    ⟨fun a b c hab hbc => by
      simp only [scoreOrder_iff] at *
      exact hbc.trans hab⟩
  have h := List.sorted_insertionSort scoreOrder l
  exact h.imp (fun hab => (scoreOrder_iff _ _).1 hab)

theorem search_eq (js : Builtins) (config : Config) (knowledge : Knowledge) (query : Text) :
    ∃ exact relevant : List Result, search js config knowledge query =
      ⟨exact.insertionSort scoreOrder, relevant.insertionSort scoreOrder, [],
        match exact.insertionSort scoreOrder with
        | best :: _ => best.score
        | [] =>
          match relevant.insertionSort scoreOrder with
          | best :: _ => best.score
          | [] => 0⟩ :=
  ⟨_, _, rfl⟩

theorem head_highest (l : List Result) (h : l.Pairwise (fun a b => b.score ≤ a.score))
    (hl : l ≠ []) :
    ∃ best rest, l = best :: rest ∧ ∀ e ∈ l, e.score ≤ best.score := by
  cases l with
  | nil => exact absurd rfl hl
  | cons best rest =>
    refine ⟨best, rest, rfl, fun e he => ?_⟩
    rcases List.mem_cons.1 he with rfl | he
    · exact le_refl _
    · exact (List.pairwise_cons.1 h).1 e he

end KnowledgeBase

/-- C22: in the result of `search` the lists `exact` and `relevant` are each ordered by
non-increasing score, and `confidence` is the highest score in `exact` when `exact` is
not empty, otherwise the highest score in `relevant` when that is not empty, otherwise
0. -/
theorem search_sorted_confidence (js : Builtins) (config : KnowledgeBase.Config)
    (knowledge : KnowledgeBase.Knowledge) (query : Text) :
    (KnowledgeBase.search js config knowledge query).exact.Pairwise
      (fun a b => b.score ≤ a.score) ∧
    (KnowledgeBase.search js config knowledge query).relevant.Pairwise
      (fun a b => b.score ≤ a.score) ∧
    ((KnowledgeBase.search js config knowledge query).exact ≠ [] →
      (∃ e ∈ (KnowledgeBase.search js config knowledge query).exact,
        (KnowledgeBase.search js config knowledge query).confidence = e.score) ∧
      ∀ e ∈ (KnowledgeBase.search js config knowledge query).exact,
        e.score ≤ (KnowledgeBase.search js config knowledge query).confidence) ∧
    ((KnowledgeBase.search js config knowledge query).exact = [] →
      (KnowledgeBase.search js config knowledge query).relevant ≠ [] →
      (∃ e ∈ (KnowledgeBase.search js config knowledge query).relevant,
        (KnowledgeBase.search js config knowledge query).confidence = e.score) ∧
      ∀ e ∈ (KnowledgeBase.search js config knowledge query).relevant,
        e.score ≤ (KnowledgeBase.search js config knowledge query).confidence) ∧
    ((KnowledgeBase.search js config knowledge query).exact = [] →
      (KnowledgeBase.search js config knowledge query).relevant = [] →
      (KnowledgeBase.search js config knowledge query).confidence = 0) := by
  obtain ⟨exact, relevant, hs⟩ := KnowledgeBase.search_eq js config knowledge query
  rw [hs]
  simp only []
  have he := KnowledgeBase.sorted_insertionSort_scoreOrder exact
  have hr := KnowledgeBase.sorted_insertionSort_scoreOrder relevant
  refine ⟨he, hr, ?_, ?_, ?_⟩
  · intro hne
    obtain ⟨best, rest, hb, hmax⟩ := KnowledgeBase.head_highest _ he hne
    rw [hb] at hmax ⊢
    exact ⟨⟨best, List.mem_cons_self _ _, rfl⟩, hmax⟩
  · intro hnil hne
    obtain ⟨best, rest, hb, hmax⟩ := KnowledgeBase.head_highest _ hr hne
    rw [hnil]
    rw [hb] at hmax ⊢
    exact ⟨⟨best, List.mem_cons_self _ _, rfl⟩, hmax⟩
  · intro hnil hnil2
    rw [hnil, hnil2]

theorem search_sorted_confidence_witness :
    (KnowledgeBase.search asciiBuiltins ⟨0.6⟩
      ⟨some [⟨"Do you validate parking?".toList, "No.".toList, none⟩],
        some (KnowledgeBase.Hours.text "9 to 5".toList), none, none, none, none⟩
      "do you validate parking? and your hours?".toList).exact ≠ [] ∧
    (KnowledgeBase.search asciiBuiltins ⟨0.6⟩
      ⟨some [⟨"Do you validate parking?".toList, "No.".toList, none⟩],
        some (KnowledgeBase.Hours.text "9 to 5".toList), none, none, none, none⟩
      "do you validate parking? and your hours?".toList).confidence = 1 ∧
    ∀ e ∈ (KnowledgeBase.search asciiBuiltins ⟨0.6⟩
      ⟨some [⟨"Do you validate parking?".toList, "No.".toList, none⟩],
        some (KnowledgeBase.Hours.text "9 to 5".toList), none, none, none, none⟩
      "do you validate parking? and your hours?".toList).exact, e.score ≤ 1 :=
  ⟨by with_unfolding_all decide, by with_unfolding_all decide,
   (show (KnowledgeBase.search asciiBuiltins ⟨0.6⟩
      ⟨some [⟨"Do you validate parking?".toList, "No.".toList, none⟩],
        some (KnowledgeBase.Hours.text "9 to 5".toList), none, none, none, none⟩
      "do you validate parking? and your hours?".toList).confidence = 1
      by with_unfolding_all decide) ▸
    ((search_sorted_confidence asciiBuiltins ⟨0.6⟩
      ⟨some [⟨"Do you validate parking?".toList, "No.".toList, none⟩],
        some (KnowledgeBase.Hours.text "9 to 5".toList), none, none, none, none⟩
      "do you validate parking? and your hours?".toList).2.2.1
        (by with_unfolding_all decide)).2⟩

/-! ## Voice profiles across requests -/

theorem get_delete_some {V : Type} (m : JsMap V) (k c : String) (v : V)
    (h : (m.delete k).get c = some v) : m.get c = some v := by
  by_cases hc : k = c
  · subst hc
    rw [JsMap.get_delete_self] at h
    cases h
  · rwa [JsMap.get_delete_of_ne _ hc] at h

theorem voicesKnown_of_callVoices (w w' : Server)
    (h : w'.store.callVoices = w.store.callVoices ∨
      ∃ k, w'.store.callVoices = w.store.callVoices.delete k)
    (hw : VoicesKnown w) : VoicesKnown w' := by
  intro c record hget
  rcases h with h | ⟨k, h⟩
  · rw [h] at hget
    exact hw c record hget
  · rw [h] at hget
    exact hw c record (get_delete_some _ _ _ _ hget)

theorem selectVoiceForCall_day (day : Fin 7) :
    ∃ selected, VoiceService.selectVoiceForCall (getCurrentMood day) = some selected ∧
      selected.voice ∈ profileVoices := by
  revert day
  decide

theorem postIncomingCall_voicesKnown (js : Builtins) (w : Server) (env : Env) (callSid : String)
    (fromNumber : Option String) (hw : VoicesKnown w) :
    VoicesKnown (postIncomingCall js w env callSid fromNumber).1 := by
  obtain ⟨selected, hsel, hmem⟩ := selectVoiceForCall_day env.day
  have hstore : (postIncomingCall js w env callSid fromNumber).1.store.callVoices =
      w.store.callVoices.set callSid ⟨selected.voice, selected.style⟩ := by
    unfold postIncomingCall
    simp only [hsel]
    split <;> rfl
  intro c record hget
  rw [hstore] at hget
  by_cases hc : callSid = c
  · subst hc
    rw [JsMap.get_set_self] at hget
    cases hget
    exact hmem
  · rw [JsMap.get_set_of_ne _ _ hc] at hget
    exact hw c record hget

theorem postHandleSpeech_callVoices (js : Builtins) (ai : AIService) (w : Server) (env : Env)
    (callSid : String) (speechResult : Option Text) :
    (postHandleSpeech js ai w env callSid speechResult).1.store.callVoices = w.store.callVoices ∨
    ∃ k, (postHandleSpeech js ai w env callSid speechResult).1.store.callVoices =
      w.store.callVoices.delete k := by
  by_cases hfar : analyzeIntent js (speechResult.getD []) = "farewells"
  · unfold postHandleSpeech
    lift_lets
    extract_lets speech stored fresh store conversation callVoice mood timeModifier generated
      interrupt interruption interrupted response store2 conversation2 intent k hold music
      holdVerbs k2 voiceStyle followUp
    have hs : store2.callVoices = w.store.callVoices := rfl
    have hi : intent = "farewells" := hfar
    clear_value callVoice store2 conversation2 intent interrupted response holdVerbs followUp
      voiceStyle
    rw [if_pos hi]
    split
    · exact Or.inl hs
    · exact Or.inr ⟨callSid, by
        simp [Server.cleanupCall, ConversationService.deleteCallVoice,
          ConversationService.deleteConversation, hs]⟩
  · obtain ⟨response, hr⟩ := postHandleSpeech_store js ai w env callSid speechResult hfar
    rw [hr]
    exact Or.inl rfl

theorem postCallStatus_callVoices (w : Server) (now : Nat) (callSid callStatus : String) :
    (postCallStatus w now callSid callStatus).store.callVoices = w.store.callVoices ∨
    ∃ k, (postCallStatus w now callSid callStatus).store.callVoices =
      w.store.callVoices.delete k := by
  unfold postCallStatus
  simp only []
  split_ifs
  · exact Or.inr ⟨callSid, by
      simp [Server.cleanupCall, ConversationService.deleteCallVoice,
        ConversationService.deleteConversation, ConversationService.setCallStatus]⟩
  · exact Or.inl rfl

theorem elapse_callVoices (w : Server) (t : Nat) :
    (w.elapse t).store.callVoices = w.store.callVoices := by
  simp [Server.elapse, Server.foldl_delete_callVoices]

theorem voicesKnown_init : VoicesKnown Server.init := by
  intro c record h
  cases h

theorem voicesKnown_apply (js : Builtins) (w : Server) (request : Request) (hw : VoicesKnown w) :
    VoicesKnown (request.apply js w) := by
  cases request with
  | incomingCall env callSid fromNumber => exact postIncomingCall_voicesKnown js w env _ _ hw
  | handleSpeech ai env callSid speechResult =>
    exact voicesKnown_of_callVoices w _ (postHandleSpeech_callVoices js ai w env _ _) hw
  | callStatus now callSid status =>
    exact voicesKnown_of_callVoices w _ (postCallStatus_callVoices w now _ _) hw
  | webCall now callSid => exact voicesKnown_of_callVoices w _ (Or.inl rfl) hw
  | elapse t => exact voicesKnown_of_callVoices w _ (Or.inl (elapse_callVoices w t)) hw

theorem voicesKnown_run (js : Builtins) (requests : List Request) (w : Server)
    (hw : VoicesKnown w) : VoicesKnown (Request.run js w requests) := by
  induction requests generalizing w with
  | nil => exact hw
  | cons request rest ih => exact ih _ (voicesKnown_apply js w request hw)

theorem getCallVoice_known (w : Server) (callSid : String) (hw : VoicesKnown w) :
    (w.store.getCallVoice callSid).voice ∈ profileVoices := by
  unfold ConversationService.getCallVoice
  cases hg : w.store.callVoices.get callSid with
  | none => decide
  | some record => exact hw callSid record hg

theorem postHandleSpeech_isSome (js : Builtins) (ai : AIService) (w : Server) (env : Env)
    (callSid : String) (speechResult : Option Text)
    (hv : (w.store.getCallVoice callSid).voice ∈ profileVoices) :
    (postHandleSpeech js ai w env callSid speechResult).2.isSome = true := by
  unfold postHandleSpeech
  lift_lets
  extract_lets speech stored fresh store conversation callVoice mood timeModifier generated
    interrupt interruption interrupted response store2 conversation2 intent k hold music
    holdVerbs k2 voiceStyle followUp
  have hcv : callVoice = w.store.getCallVoice callSid := rfl
  obtain ⟨t, _, ht⟩ := getResponseByIntent_farewells env.rand interrupted.2
  have he := enhanceVoiceResponse_isSome js response voiceStyle callVoice.voice
    (decide (conversation2.callCount > 3)) (hcv ▸ hv)
  clear_value callVoice store2 conversation2 intent interrupted response holdVerbs followUp
    voiceStyle
  split_ifs with hfar
  · split
    · rename_i hnone
      rw [ht] at hnone
      cases hnone
    · rfl
  · split
    · rename_i hnone
      rw [hnone] at he
      cases he
    · rfl

theorem postIncomingCall_not_fallback (js : Builtins) (w : Server) (env : Env) (callSid : String)
    (fromNumber : Option String) :
    (postIncomingCall js w env callSid fromNumber).2 ≠ fallbackTwiml := by
  obtain ⟨selected, hsel, hmem⟩ := selectVoiceForCall_day env.day
  have he := enhanceVoiceResponse_isSome js (getRandomGreeting env.rand 0 env.hour).1
    selected.style selected.voice false hmem
  unfold postIncomingCall
  simp only [hsel]
  split
  · rename_i hnone
    rw [hnone] at he
    cases he
  · simp [fallbackTwiml]

/-- C23: on every day of the week the voice key `getVoiceForMood` gives for the mood of
the day is a key of `voiceProfiles`; `normalizeVoiceName` takes the voice of each profile
back to its key; so `selectVoiceForCall` finds a profile on every day, the lookup in
`enhanceVoiceResponse` finds one for the voice selected and for the default voice
`Polly.Amy-Neural`, and after any sequence of requests to `server.js` neither
`/incoming-call` falls back to its error response nor `/handle-speech` fails. -/
theorem voice_profile_never_missing (js : Builtins) :
    (∀ day : Fin 7,
      (voiceProfiles.lookup (getVoiceForMood (getCurrentMood day).name).voice).isSome = true) ∧
    (∀ e ∈ voiceProfiles, voiceProfiles.lookup e.1 = some e.2 ∧
      VoiceService.normalizeVoiceName js e.2.voice = e.1) ∧
    (∀ day : Fin 7, ∃ selected,
      VoiceService.selectVoiceForCall (getCurrentMood day) = some selected ∧
      ∀ text mood addBreathing, (enhanceVoiceResponse js text mood
        (VoiceService.normalizeVoiceName js selected.voice) addBreathing).isSome = true) ∧
    (∀ text mood addBreathing, (enhanceVoiceResponse js text mood
      (VoiceService.normalizeVoiceName js ConversationService.defaultCallVoice.voice)
        addBreathing).isSome = true) ∧
    (∀ (requests : List Request) (ai : AIService) (env : Env) (callSid : String)
      (fromNumber : Option String) (speechResult : Option Text),
      (postIncomingCall js (Request.run js Server.init requests) env callSid fromNumber).2 ≠
        fallbackTwiml ∧
      (postHandleSpeech js ai (Request.run js Server.init requests) env callSid
        speechResult).2.isSome = true) := by
  refine ⟨by decide, ?_, ?_, ?_, ?_⟩
  · intro e he
    refine ⟨?_, normalizeVoiceName_profile js e.1 e.2 he⟩
    revert e
    decide
  · intro day
    obtain ⟨selected, hsel, hmem⟩ := selectVoiceForCall_day day
    exact ⟨selected, hsel, fun text mood addBreathing =>
      enhanceVoiceResponse_isSome js text mood selected.voice addBreathing hmem⟩
  · intro text mood addBreathing
    exact enhanceVoiceResponse_isSome js text mood _ addBreathing (by decide)
  · intro requests ai env callSid fromNumber speechResult
    exact ⟨postIncomingCall_not_fallback js _ env callSid fromNumber,
      postHandleSpeech_isSome js ai _ env callSid speechResult
        (getCallVoice_known _ callSid (voicesKnown_run js requests _ voicesKnown_init))⟩

/-! ## Lookups as steps -/

/-- C24: `getConversation`, `getCallVoice` and `getCallStatus` (and
`getActiveConversationCount`) insert nothing, for an identifier that is not stored as for
any other: the call leaves the three maps as it found them, so the count of conversations
is the same, and so are the replies of all later lookups, whatever service calls and
lapses of time come between. -/
theorem lookups_insert_nothing (w : Server) (lookup : Lookup) (ops : List ServiceOp)
    (later : List Lookup) :
    (lookup.call w.store).2 = w.store ∧
    (lookup.call w.store).2.getActiveConversationCount = w.store.getActiveConversationCount ∧
    Lookup.replies (ServiceOp.run { w with store := (lookup.call w.store).2 } ops).store later =
      Lookup.replies (ServiceOp.run w ops).store later := by
  have h : (lookup.call w.store).2 = w.store := by cases lookup <;> rfl
  exact ⟨h, by rw [h], by rw [h]⟩

end SarcasticReceptionist
